import Mathlib

/-!
# The ORC column printer (`c++/src/orc/ColumnPrinter.cc`)

A shallow embedding of the row renderer of the ORC C++ reader.

Conventions of the embedding

* A C++ `char` is a `Byte` (a number below 256); a `std::string` and the
  output buffer are lists of bytes.  ASCII literals of the source are written
  with `lit`.
* `int64_t` values are `Int`; where the source can leave the 64-bit range the
  operation is wrapped explicitly (`wrapInt64`, `toUInt64`).
* An array view (`const T*`) is the list of entries that may be read through
  it; a read past its end is the fault `undefinedBehaviour`.
* A C++ exception, an undefined read and a loop that does not end are the
  three kinds of `Fault`; every operation that can meet one returns
  `Except Fault`.
* What the C library computes (`snprintf` of a floating value, `localtime_r`,
  `mktime`, the year field of `strftime`) is a field of `Env`.
-/

namespace Orc

/-! ## Bytes, text and machine integers -/

/-- One C++ `char`, as its unsigned value. -/
abbrev Byte := Fin 256

/-- The output buffer, a `std::string`. -/
abbrev Buffer := List Byte

/-- The byte of an ASCII character. -/
def Byte.ofChar (c : Char) : Byte := ⟨c.toNat % 256, Nat.mod_lt _ (by decide)⟩

/-- The bytes of a list of ASCII characters. -/
def ofChars (cs : List Char) : List Byte := cs.map Byte.ofChar

/-- The bytes of an ASCII string literal of the source. -/
def lit (s : String) : List Byte := ofChars s.toList

/-- Ways in which an operation does not return normally. -/
inductive Fault where
  /-- `std::bad_cast`, thrown by a failed `dynamic_cast` to a reference. -/
  | badCast
  /-- `std::logic_error("unknown batch type")`. -/
  | logicError
  /-- `std::out_of_range`, thrown by `std::string::substr`. -/
  | outOfRange
  /-- A read outside an array view, through a null pointer, or of a buffer
  the C library left unspecified. -/
  | undefinedBehaviour
  /-- A loop that does not end. -/
  | diverges
  deriving DecidableEq, Repr

instance instDecidableEqExcept {ε α : Type} [DecidableEq ε] [DecidableEq α] :
    DecidableEq (Except ε α) := fun a b =>
  match a, b with
  | .ok x, .ok y => if h : x = y then isTrue (by rw [h]) else isFalse (by intro e; cases e; exact h rfl)
  | .error x, .error y =>
    if h : x = y then isTrue (by rw [h]) else isFalse (by intro e; cases e; exact h rfl)
  | .ok _, .error _ => isFalse (by intro e; cases e)
  | .error _, .ok _ => isFalse (by intro e; cases e)

/-- Two's-complement wrap of an integer into the `int64_t` range. -/
def wrapInt64 (x : Int) : Int := (x + 2 ^ 63) % 2 ^ 64 - 2 ^ 63

/-- Two's-complement wrap of an integer into the `int32_t` range. -/
def wrapInt32 (x : Int) : Int := (x + 2 ^ 31) % 2 ^ 32 - 2 ^ 31

/-- The conversion `static_cast<uint64_t>` (also `static_cast<size_t>`). -/
def toUInt64 (x : Int) : Nat := (x % 2 ^ 64).toNat

/-- The predicate: `x` is an `int64_t` value. -/
def isInt64 (x : Int) : Prop := -(2 ^ 63) ≤ x ∧ x < 2 ^ 63

instance (x : Int) : Decidable (isInt64 x) := by unfold isInt64; infer_instance

/-- Decimal text of a natural number, as `%d` and `operator<<` print it. -/
def natText (n : Nat) : List Byte := ofChars (Nat.toDigits 10 n)

/-- Decimal text of a signed integer, as `%ld` and `operator<<` print it. -/
def int64Text (v : Int) : List Byte :=
  if v < 0 then lit "-" ++ natText v.natAbs else natText v.natAbs

/-- Source `writeChar`: `file += ch`. -/
def writeChar (file : Buffer) (ch : Byte) : Buffer := file ++ [ch]

/-- The C string a `const char*` denotes: the bytes before the first NUL
(what `strlen` measures). -/
def cString (ptr : List Byte) : List Byte := ptr.takeWhile (fun b => b ≠ 0)

/-- Source `writeString`: `file.append(ptr, strlen(ptr))`. -/
def writeString (file : Buffer) (ptr : List Byte) : Buffer := file ++ cString ptr

/-- The call `std::string::substr(pos, n)`: throws when `pos` is past the
end, otherwise the at most `n` bytes from `pos` on. -/
def substr (str : List Byte) (pos n : Nat) : Except Fault (List Byte) :=
  if pos > str.length then .error .outOfRange else .ok ((str.drop pos).take n)

/-! ## The decimal codec -/

/-- The loop `for (i = 0; i < n; ++i) result += "0"` of `toDecimalString`. -/
def appendZeros : Nat → List Byte → List Byte
  | 0, result => result
  | n + 1, result => appendZeros n (result ++ lit "0")

/-- Source `toDecimalString(int64_t value, int32_t scale)`.  The negation
`value = -value` is wrapped to 64 bits. -/
def toDecimalString (value : Int) (scale : Int) : Except Fault (List Byte) :=
  if scale = 0 then .ok (int64Text value)
  else
    let sign := if value < 0 then lit "-" else lit ""
    let value := if value < 0 then wrapInt64 (-value) else value
    let str := int64Text value
    let len : Int := str.length
    if len > scale then
      match substr str 0 (toUInt64 (wrapInt32 (len - scale))) with
      | .error e => .error e
      | .ok intPart =>
        match substr str (toUInt64 (wrapInt32 (len - scale))) (toUInt64 scale) with
        | .error e => .error e
        | .ok fracPart => .ok (sign ++ intPart ++ lit "." ++ fracPart)
    else if len = scale then .ok (sign ++ lit "0." ++ str)
    else .ok (appendZeros (wrapInt32 (scale - len)).toNat (sign ++ lit "0.") ++ str)

/-- The Decimal Codec as the specification words it: sign, magnitude digits
of `|v|`, and the four cases on the scale. -/
def specDecimal (v : Int) (scale : Nat) : List Byte :=
  let sign := if v < 0 then lit "-" else []
  let mag := natText v.natAbs
  let len := mag.length
  if scale = 0 then sign ++ mag
  else if len > scale then sign ++ mag.take (len - scale) ++ lit "." ++ mag.drop (len - scale)
  else if len = scale then sign ++ lit "0." ++ mag
  else sign ++ lit "0." ++ List.replicate (scale - len) (Byte.ofChar '0') ++ mag

/-- Modelled from the spec: `Int128::toDecimalString(scale)` (declared in
`Int128.hh`), the Decimal Codec on a 128-bit value.  The specification gives
the codec a non-negative scale only; with a negative one the method is taken
not to return, as `toDecimalString` of the source does not. -/
def int128ToDecimalString (value : Int) (scale : Int) : Except Fault (List Byte) :=
  if 0 ≤ scale then .ok (specDecimal value scale.toNat) else .error .outOfRange

/-! ## Loops -/

/-- The iterations of `for (int64_t i = ...; ...; ++i) body`: `n` rounds of
`body`, the counter starting at `i`. -/
def forLoop (body : Int → Buffer → Except Fault Buffer) : Nat → Int → Buffer → Except Fault Buffer
  | 0, _, file => .ok file
  | n + 1, i, file =>
    match body i file with
    | .error e => .error e
    | .ok file => forLoop body n (i + 1) file

/-- The loop `for (int64_t i = first; i < last; ++i) body`; it runs
`last - first` rounds, none when `last ≤ first`.  The counter stays at most
`last`, so `++i` does not leave the `int64_t` range. -/
def forRange (first last : Int) (body : Int → Buffer → Except Fault Buffer) (file : Buffer) :
    Except Fault Buffer :=
  forLoop body (last - first).toNat first file

/-! ## Strings and binary values -/

/-- The `switch (ch)` of `StringColumnPrinter::printRow`. -/
def escapeChar (file : Buffer) (ch : Byte) : Buffer :=
  if ch = Byte.ofChar '\\' then writeString file (lit "\\\\")
  else if ch = Byte.ofChar '\x08' then writeString file (lit "\\b")
  else if ch = Byte.ofChar '\x0c' then writeString file (lit "\\f")
  else if ch = Byte.ofChar '\n' then writeString file (lit "\\n")
  else if ch = Byte.ofChar '\r' then writeString file (lit "\\r")
  else if ch = Byte.ofChar '\t' then writeString file (lit "\\t")
  else if ch = Byte.ofChar '"' then writeString file (lit "\\\"")
  else writeChar file ch

/-- The read `start[rowId][i]`. -/
def readPayload (start : List (List Byte)) (rowId : Nat) (i : Int) : Except Fault Byte :=
  match start[rowId]? with
  | none => .error .undefinedBehaviour
  | some bytes =>
    if i < 0 then .error .undefinedBehaviour
    else
      match bytes[i.toNat]? with
      | none => .error .undefinedBehaviour
      | some ch => .ok ch

/-- The body of the loop of `StringColumnPrinter::printRow`. -/
def stringBody (start : List (List Byte)) (rowId : Nat) (i : Int) (file : Buffer) :
    Except Fault Buffer :=
  match readPayload start rowId i with
  | .error e => .error e
  | .ok ch => .ok (escapeChar file ch)

/-- The conversion `static_cast<const int>(ch)` of a (signed) `char`. -/
def charToInt (ch : Byte) : Int := if ch.val < 128 then ch.val else (ch.val : Int) - 256

/-- The body of the loop of `BinaryColumnPrinter::printRow`; `x & 0xff` on a
two's-complement `int` is `x mod 256`. -/
def binaryBody (start : List (List Byte)) (rowId : Nat) (i : Int) (file : Buffer) :
    Except Fault Buffer :=
  let file := if i ≠ 0 then writeString file (lit ", ") else file
  match readPayload start rowId i with
  | .error e => .error e
  | .ok ch => .ok (writeString file (int64Text (charToInt ch % 256)))

/-! ## Timestamps and dates -/

/-- Source constant `NANOS_PER_SECOND`. -/
def NANOS_PER_SECOND : Int := 1000000000

/-- Source constant `NANO_DIGITS`. -/
def NANO_DIGITS : Int := 9

/-- The seconds and nanoseconds `TimestampColumnPrinter::printRow` computes
from the stored value `t` (`/` and `%` of C++ truncate towards zero):
`(seconds, nanos)` after the `if (nanos < 0)` adjustment. -/
def timestampSplit (epoch : Int) (t : Int) : Int × Int :=
  let nanos := Int.tmod t NANOS_PER_SECOND
  let seconds := wrapInt64 (Int.tdiv t NANOS_PER_SECOND + epoch)
  if nanos < 0 then (wrapInt64 (seconds - 1), -nanos) else (seconds, nanos)

/-- The loop `while (nanos % 10 == 0) { nanos /= 10; zeroDigits += 1; }`, run
for at most `fuel` tests of its condition; `none` when they do not suffice. -/
def stripLoop : Nat → Int → Int → Option (Int × Int)
  | 0, _, _ => none
  | fuel + 1, nanos, zeroDigits =>
    if Int.tmod nanos 10 = 0 then stripLoop fuel (Int.tdiv nanos 10) (zeroDigits + 1)
    else some (nanos, zeroDigits)

/-- The tests of the stripping loop that `printRow` is given; an `int64_t`
has at most 19 decimal digits. -/
def STRIP_FUEL : Nat := 64

/-- The block "remove trailing zeros off the back of the nanos value":
the final `(nanos, zeroDigits)`. -/
def stripTrailingZeros (nanos : Int) : Option (Int × Int) :=
  if nanos = 0 then some (nanos, 8) else stripLoop STRIP_FUEL nanos 0

/-- The conversion `%0*ld` of `snprintf`: `v` in decimal, zero-padded on the
left to `width` characters (sign included); a negative `width` asks for
left justification, padded with blanks. -/
def zeroPadded (width : Int) (v : Int) : List Byte :=
  let sign := if v < 0 then lit "-" else []
  let digits := natText v.natAbs
  if width < 0 then
    sign ++ digits ++ List.replicate ((-width).toNat - (sign.length + digits.length)) (Byte.ofChar ' ')
  else
    sign ++ List.replicate (width.toNat - (sign.length + digits.length)) (Byte.ofChar '0') ++ digits

/-- The digits written after the `.` of a timestamp: `numBuffer` without its
closing quote. -/
def fractionText (nanos : Int) : Option (List Byte) :=
  match stripTrailingZeros nanos with
  | none => none
  | some (nanos, zeroDigits) => some (zeroPadded (wrapInt32 (NANO_DIGITS - zeroDigits)) nanos)

/-- Civil date `(year, month, day)` of a day count from 1970-01-01 in the
proleptic Gregorian calendar, as `gmtime_r` computes it. -/
def civilFromDays (days : Int) : Int × Int × Int :=
  let z := days + 719468
  let era := z / 146097
  let doe := z - era * 146097
  let yoe := (doe - doe / 1460 + doe / 36524 - doe / 146096) / 365
  let doy := doe - (365 * yoe + yoe / 4 - yoe / 100)
  let mp := (5 * doy + 2) / 153
  let d := doy - (153 * mp + 2) / 5 + 1
  let m := if mp < 10 then mp + 3 else mp - 9
  (if m ≤ 2 then yoe + era * 400 + 1 else yoe + era * 400, m, d)

/-- The behaviour of the C library that the printers call. -/
structure Env where
  /-- The call `snprintf(.., isFloat ? "%.7g" : "%.14g", x)` on the double
  with the given bit pattern. -/
  formatG : Bool → Nat → List Byte
  /-- The value `mktime` returns for 1970-01-01 00:00:00 local time. -/
  epoch : Int
  /-- The calls `localtime_r` and `strftime(.., "%Y-%m-%d %H:%M:%S", ..)` into
  `char[20]`; `none` when either fails. -/
  localtimeText : Int → Option (List Byte)
  /-- The conversion `%Y` of `strftime` for a year outside 1000..9999. -/
  strftimeYear : Int → List Byte

/-- Two decimal digits, as `%m` and `%d` of `strftime` print them. -/
def twoDigits (n : Int) : List Byte :=
  if n < 10 then lit "0" ++ natText n.toNat else natText n.toNat

/-- The conversion `%Y` of `strftime`. -/
def yearText (env : Env) (year : Int) : List Byte :=
  if 1000 ≤ year ∧ year ≤ 9999 then natText year.toNat else env.strftimeYear year

/-- The calls `gmtime_r(&timeValue, &tmValue)` and
`strftime(timeBuffer, 11, "%Y-%m-%d", &tmValue)`: the text left in
`timeBuffer`.  When `tm_year` does not fit an `int`, or the text does not fit
the buffer, the buffer is unspecified. -/
def dateText (env : Env) (timeValue : Int) : Except Fault (List Byte) :=
  match civilFromDays (timeValue / 86400) with
  | (year, month, day) =>
    if year - 1900 < -(2 ^ 31) ∨ 2 ^ 31 ≤ year - 1900 then .error .undefinedBehaviour
    else
      let text := yearText env year ++ lit "-" ++ twoDigits month ++ lit "-" ++ twoDigits day
      if text.length < 11 then .ok text else .error .undefinedBehaviour

/-! ## Types and batches -/

/-- Modelled from the spec: the closed enumeration of kinds of a type node
(`TypeKind`, declared in `Vector.hh`); `unknown raw` stands for every value of
the enumeration type that is none of its enumerators. -/
inductive TypeKind where
  | BOOLEAN | BYTE | SHORT | INT | LONG | FLOAT | DOUBLE | STRING | BINARY
  | TIMESTAMP | LIST | MAP | STRUCT | UNION | DECIMAL | DATE | VARCHAR | CHAR
  | unknown (raw : Int)
  deriving DecidableEq, Repr

/-- Modelled from the spec: a type node (`Type`, declared in `Vector.hh`) with
its kind, subtypes, field names, precision and scale. -/
inductive OrcType where
  | mk (kind : TypeKind) (subtypes : List OrcType) (fieldNames : List (List Byte))
      (precision : Nat) (scale : Nat)

/-- Modelled from the spec: `Type::getKind`. -/
def OrcType.getKind : OrcType → TypeKind
  | .mk kind _ _ _ _ => kind

/-- Modelled from the spec: the subtypes behind `Type::getSubtypeCount` and
`Type::getSubtype`. -/
def OrcType.subtypes : OrcType → List OrcType
  | .mk _ subtypes _ _ _ => subtypes

/-- Modelled from the spec: `Type::getFieldName(i)`; no name is readable
past the last one. -/
def OrcType.getFieldName : OrcType → Nat → Option (List Byte)
  | .mk _ _ fieldNames _ _, i => fieldNames[i]?

/-- Modelled from the spec: `Type::getPrecision`. -/
def OrcType.getPrecision : OrcType → Nat
  | .mk _ _ _ precision _ => precision

/-- Modelled from the spec: the fields every vector batch has
(`ColumnVectorBatch`, declared in `Vector.hh`). -/
structure BatchBase where
  numElements : Nat
  hasNulls : Bool
  notNull : List Bool

/-- Modelled from the spec: the vector batches (the subclasses of
`ColumnVectorBatch`, declared in `Vector.hh`), one constructor per runtime
class.  A `double` is kept as its bit pattern. -/
inductive ColumnVectorBatch where
  | long (base : BatchBase) (data : List Int)
  | double (base : BatchBase) (data : List Nat)
  | string (base : BatchBase) (data : List (List Byte)) (length : List Int)
  | decimal64 (base : BatchBase) (values : List Int) (scale : Int)
  | decimal128 (base : BatchBase) (values : List Int) (scale : Int)
  | list (base : BatchBase) (offsets : List Int) (elements : ColumnVectorBatch)
  | map (base : BatchBase) (offsets : List Int) (keys elements : ColumnVectorBatch)
  | union (base : BatchBase) (tags : List Byte) (offsets : List Nat)
      (children : List ColumnVectorBatch)
  | struct (base : BatchBase) (fields : List ColumnVectorBatch)

/-- The common fields of a batch. -/
def ColumnVectorBatch.base : ColumnVectorBatch → BatchBase
  | .long base _ => base
  | .double base _ => base
  | .string base _ _ => base
  | .decimal64 base _ _ => base
  | .decimal128 base _ _ => base
  | .list base _ _ => base
  | .map base _ _ _ => base
  | .union base _ _ _ => base
  | .struct base _ => base

/-! ## Printers -/

/-- The members of the base class `ColumnPrinter`: the type node, and the
view of the null flags of the bound batch (`notNull` is `none` for
`nullptr`). -/
structure PrinterBase where
  type : OrcType
  hasNulls : Bool
  notNull : Option (List Bool)

/-- The constructor `ColumnPrinter::ColumnPrinter`. -/
def PrinterBase.init (type : OrcType) : PrinterBase :=
  { type := type, hasNulls := false, notNull := none }

/-- Source `ColumnPrinter::reset`. -/
def PrinterBase.reset (base : PrinterBase) (batch : BatchBase) : PrinterBase :=
  if batch.hasNulls then
    { type := base.type, hasNulls := batch.hasNulls, notNull := some batch.notNull }
  else
    { type := base.type, hasNulls := batch.hasNulls, notNull := none }

/-- The printer classes with their members, one constructor per class.  An
array view that is not bound yet is the empty list. -/
inductive ColumnPrinter where
  | boolean (base : PrinterBase) (data : List Int)
  | long (base : PrinterBase) (data : List Int)
  | double (base : PrinterBase) (data : List Nat) (isFloat : Bool)
  | timestamp (base : PrinterBase) (data : List Int) (epoch : Int)
  | date (base : PrinterBase) (data : List Int)
  | decimal64 (base : PrinterBase) (data : List Int) (scale : Int)
  | decimal128 (base : PrinterBase) (data : List Int) (scale : Int)
  | string (base : PrinterBase) (start : List (List Byte)) (length : List Int)
  | binary (base : PrinterBase) (start : List (List Byte)) (length : List Int)
  | list (base : PrinterBase) (offsets : List Int) (elementPrinter : ColumnPrinter)
  | map (base : PrinterBase) (offsets : List Int) (keyPrinter elementPrinter : ColumnPrinter)
  | union (base : PrinterBase) (tags : List Byte) (offsets : List Nat)
      (fieldPrinter : List ColumnPrinter)
  | struct (base : PrinterBase) (fieldPrinter : List ColumnPrinter)

/-- The base-class members of a printer. -/
def ColumnPrinter.base : ColumnPrinter → PrinterBase
  | .boolean base _ => base
  | .long base _ => base
  | .double base _ _ => base
  | .timestamp base _ _ => base
  | .date base _ => base
  | .decimal64 base _ _ => base
  | .decimal128 base _ _ => base
  | .string base _ _ => base
  | .binary base _ _ => base
  | .list base _ _ => base
  | .map base _ _ _ => base
  | .union base _ _ _ => base
  | .struct base _ => base

mutual
/-- Source `createColumnPrinter`, with the constructors of the printer
classes inlined. -/
def createColumnPrinter (env : Env) : OrcType → Except Fault ColumnPrinter
  | .mk kind subtypes fieldNames precision scale =>
    let type := OrcType.mk kind subtypes fieldNames precision scale
    match kind with
    | .BOOLEAN => .ok (.boolean (PrinterBase.init type) [])
    | .BYTE | .SHORT | .INT | .LONG => .ok (.long (PrinterBase.init type) [])
    | .FLOAT => .ok (.double (PrinterBase.init type) [] true)
    | .DOUBLE => .ok (.double (PrinterBase.init type) [] false)
    | .STRING | .VARCHAR | .CHAR => .ok (.string (PrinterBase.init type) [] [])
    | .BINARY => .ok (.binary (PrinterBase.init type) [] [])
    | .TIMESTAMP => .ok (.timestamp (PrinterBase.init type) [] env.epoch)
    | .LIST =>
      match subtypes with
      | [] => .error .undefinedBehaviour
      | elem :: _ =>
        match createColumnPrinter env elem with
        | .error e => .error e
        | .ok elementPrinter => .ok (.list (PrinterBase.init type) [] elementPrinter)
    | .MAP =>
      match subtypes with
      | key :: elem :: _ =>
        match createColumnPrinter env key with
        | .error e => .error e
        | .ok keyPrinter =>
          match createColumnPrinter env elem with
          | .error e => .error e
          | .ok elementPrinter => .ok (.map (PrinterBase.init type) [] keyPrinter elementPrinter)
      | [key] =>
        match createColumnPrinter env key with
        | .error e => .error e
        | .ok _ => .error .undefinedBehaviour
      | [] => .error .undefinedBehaviour
    | .STRUCT =>
      match createFieldPrinters env subtypes with
      | .error e => .error e
      | .ok fieldPrinter => .ok (.struct (PrinterBase.init type) fieldPrinter)
    | .DECIMAL =>
      if precision = 0 ∨ precision > 18 then .ok (.decimal128 (PrinterBase.init type) [] 0)
      else .ok (.decimal64 (PrinterBase.init type) [] 0)
    | .DATE => .ok (.date (PrinterBase.init type) [])
    | .UNION =>
      match createFieldPrinters env subtypes with
      | .error e => .error e
      | .ok fieldPrinter => .ok (.union (PrinterBase.init type) [] [] fieldPrinter)
    | .unknown _ => .error .logicError
/-- The loop `for (i = 0; i < type.getSubtypeCount(); ++i)
fieldPrinter.push_back(createColumnPrinter(buffer, type.getSubtype(i)))` of
the union and struct constructors. -/
def createFieldPrinters (env : Env) : List OrcType → Except Fault (List ColumnPrinter)
  | [] => .ok []
  | t :: ts =>
    match createColumnPrinter env t with
    | .error e => .error e
    | .ok p =>
      match createFieldPrinters env ts with
      | .error e => .error e
      | .ok ps => .ok (p :: ps)
end

mutual
/-- Source `reset` of every printer class: the base-class `reset`, the
`dynamic_cast` of the batch to the class the printer expects, the re-binding
of the views, and the `reset` of the child printers.  The result is the
printer after the call. -/
def ColumnPrinter.reset : ColumnPrinter → ColumnVectorBatch → Except Fault ColumnPrinter
  | .boolean base _, batch =>
    match batch with
    | .long bb data => .ok (.boolean (base.reset bb) data)
    | _ => .error .badCast
  | .long base _, batch =>
    match batch with
    | .long bb data => .ok (.long (base.reset bb) data)
    | _ => .error .badCast
  | .double base _ isFloat, batch =>
    match batch with
    | .double bb data => .ok (.double (base.reset bb) data isFloat)
    | _ => .error .badCast
  | .timestamp base _ epoch, batch =>
    match batch with
    | .long bb data => .ok (.timestamp (base.reset bb) data epoch)
    | _ => .error .badCast
  | .date base _, batch =>
    match batch with
    | .long bb data => .ok (.date (base.reset bb) data)
    | _ => .error .badCast
  | .decimal64 base _ _, batch =>
    match batch with
    | .decimal64 bb values scale => .ok (.decimal64 (base.reset bb) values scale)
    | _ => .error .badCast
  | .decimal128 base _ _, batch =>
    match batch with
    | .decimal128 bb values scale => .ok (.decimal128 (base.reset bb) values scale)
    | _ => .error .badCast
  | .string base _ _, batch =>
    match batch with
    | .string bb data length => .ok (.string (base.reset bb) data length)
    | _ => .error .badCast
  | .binary base _ _, batch =>
    match batch with
    | .string bb data length => .ok (.binary (base.reset bb) data length)
    | _ => .error .badCast
  | .list base _ elementPrinter, batch =>
    match batch with
    | .list bb offsets elements =>
      match ColumnPrinter.reset elementPrinter elements with
      | .error e => .error e
      | .ok elementPrinter => .ok (.list (base.reset bb) offsets elementPrinter)
    | _ => .error .badCast
  | .map base _ keyPrinter elementPrinter, batch =>
    match batch with
    | .map bb offsets keys elements =>
      match ColumnPrinter.reset keyPrinter keys with
      | .error e => .error e
      | .ok keyPrinter =>
        match ColumnPrinter.reset elementPrinter elements with
        | .error e => .error e
        | .ok elementPrinter => .ok (.map (base.reset bb) offsets keyPrinter elementPrinter)
    | _ => .error .badCast
  | .union base _ _ fieldPrinter, batch =>
    match batch with
    | .union bb tags offsets children =>
      match resetFields fieldPrinter children with
      | .error e => .error e
      | .ok fieldPrinter => .ok (.union (base.reset bb) tags offsets fieldPrinter)
    | _ => .error .badCast
  | .struct base fieldPrinter, batch =>
    match batch with
    | .struct bb fields =>
      match resetFields fieldPrinter fields with
      | .error e => .error e
      | .ok fieldPrinter => .ok (.struct (base.reset bb) fieldPrinter)
    | _ => .error .badCast
/-- The loop `for (i = 0; i < fieldPrinter.size(); ++i)
fieldPrinter[i]->reset(*(batch.fields[i]))` of the struct and union `reset`;
a batch with fewer children than printers is read past its end. -/
def resetFields : List ColumnPrinter → List ColumnVectorBatch → Except Fault (List ColumnPrinter)
  | [], _ => .ok []
  | _ :: _, [] => .error .undefinedBehaviour
  | p :: ps, b :: bs =>
    match ColumnPrinter.reset p b with
    | .error e => .error e
    | .ok p =>
      match resetFields ps bs with
      | .error e => .error e
      | .ok ps => .ok (p :: ps)
end

mutual
/-- Source `reset` of every printer class as the change of the object it is
called on: the printer after the call, and the exception that left the call,
if one did.  The base-class `reset` comes first; a failed `dynamic_cast`
leaves the views as they were; a child that throws leaves the children after
it as they were. -/
def ColumnPrinter.resetInPlace :
    ColumnPrinter → ColumnVectorBatch → ColumnPrinter × Option Fault
  | .boolean base data, batch =>
    match batch with
    | .long bb newData => (.boolean (base.reset bb) newData, none)
    | other => (.boolean (base.reset other.base) data, some .badCast)
  | .long base data, batch =>
    match batch with
    | .long bb newData => (.long (base.reset bb) newData, none)
    | other => (.long (base.reset other.base) data, some .badCast)
  | .double base data isFloat, batch =>
    match batch with
    | .double bb newData => (.double (base.reset bb) newData isFloat, none)
    | other => (.double (base.reset other.base) data isFloat, some .badCast)
  | .timestamp base data epoch, batch =>
    match batch with
    | .long bb newData => (.timestamp (base.reset bb) newData epoch, none)
    | other => (.timestamp (base.reset other.base) data epoch, some .badCast)
  | .date base data, batch =>
    match batch with
    | .long bb newData => (.date (base.reset bb) newData, none)
    | other => (.date (base.reset other.base) data, some .badCast)
  | .decimal64 base data scale, batch =>
    match batch with
    | .decimal64 bb values newScale => (.decimal64 (base.reset bb) values newScale, none)
    | other => (.decimal64 (base.reset other.base) data scale, some .badCast)
  | .decimal128 base data scale, batch =>
    match batch with
    | .decimal128 bb values newScale => (.decimal128 (base.reset bb) values newScale, none)
    | other => (.decimal128 (base.reset other.base) data scale, some .badCast)
  | .string base start length, batch =>
    match batch with
    | .string bb data newLength => (.string (base.reset bb) data newLength, none)
    | other => (.string (base.reset other.base) start length, some .badCast)
  | .binary base start length, batch =>
    match batch with
    | .string bb data newLength => (.binary (base.reset bb) data newLength, none)
    | other => (.binary (base.reset other.base) start length, some .badCast)
  | .list base offsets elementPrinter, batch =>
    match batch with
    | .list bb newOffsets elements =>
      match ColumnPrinter.resetInPlace elementPrinter elements with
      | (elementPrinter, fault) => (.list (base.reset bb) newOffsets elementPrinter, fault)
    | other => (.list (base.reset other.base) offsets elementPrinter, some .badCast)
  | .map base offsets keyPrinter elementPrinter, batch =>
    match batch with
    | .map bb newOffsets keys elements =>
      match ColumnPrinter.resetInPlace keyPrinter keys with
      | (keyPrinter, some fault) =>
        (.map (base.reset bb) newOffsets keyPrinter elementPrinter, some fault)
      | (keyPrinter, none) =>
        match ColumnPrinter.resetInPlace elementPrinter elements with
        | (elementPrinter, fault) =>
          (.map (base.reset bb) newOffsets keyPrinter elementPrinter, fault)
    | other => (.map (base.reset other.base) offsets keyPrinter elementPrinter, some .badCast)
  | .union base tags offsets fieldPrinter, batch =>
    match batch with
    | .union bb newTags newOffsets children =>
      match resetFieldsInPlace fieldPrinter children with
      | (fieldPrinter, fault) => (.union (base.reset bb) newTags newOffsets fieldPrinter, fault)
    | other => (.union (base.reset other.base) tags offsets fieldPrinter, some .badCast)
  | .struct base fieldPrinter, batch =>
    match batch with
    | .struct bb fields =>
      match resetFieldsInPlace fieldPrinter fields with
      | (fieldPrinter, fault) => (.struct (base.reset bb) fieldPrinter, fault)
    | other => (.struct (base.reset other.base) fieldPrinter, some .badCast)
/-- The loop over the field printers of the struct and union `reset`, as the
change of the vector of printers. -/
def resetFieldsInPlace :
    List ColumnPrinter → List ColumnVectorBatch → List ColumnPrinter × Option Fault
  | [], _ => ([], none)
  | p :: ps, [] => (p :: ps, some .undefinedBehaviour)
  | p :: ps, b :: bs =>
    match ColumnPrinter.resetInPlace p b with
    | (p, some fault) => (p :: ps, some fault)
    | (p, none) =>
      match resetFieldsInPlace ps bs with
      | (ps, fault) => (p :: ps, fault)
end

/-- The test `hasNulls && !notNull[rowId]` that opens every `printRow`. -/
def isNullRow (base : PrinterBase) (rowId : Nat) : Except Fault Bool :=
  if base.hasNulls then
    match base.notNull with
    | none => .error .undefinedBehaviour
    | some notNull =>
      match notNull[rowId]? with
      | none => .error .undefinedBehaviour
      | some present => .ok (!present)
  else .ok false

/-- The read `view[i]` of an array view. -/
def readAt {α : Type} (view : List α) (i : Nat) : Except Fault α :=
  match view[i]? with
  | none => .error .undefinedBehaviour
  | some x => .ok x

/-- The body of the loop of `ListColumnPrinter::printRow`, `print` being
`elementPrinter->printRow`. -/
def listBody (print : Nat → Buffer → Except Fault Buffer) (first : Int) (i : Int)
    (file : Buffer) : Except Fault Buffer :=
  let file := if i ≠ first then writeString file (lit ", ") else file
  print (toUInt64 i) file

/-- The body of the loop of `MapColumnPrinter::printRow`. -/
def mapBody (printKey printElement : Nat → Buffer → Except Fault Buffer) (first : Int) (i : Int)
    (file : Buffer) : Except Fault Buffer :=
  let file := if i ≠ first then writeString file (lit ", ") else file
  let file := writeString file (lit "\x7b\"key\": ")
  match printKey (toUInt64 i) file with
  | .error e => .error e
  | .ok file =>
    let file := writeString file (lit ", \"value\": ")
    match printElement (toUInt64 i) file with
    | .error e => .error e
    | .ok file => .ok (writeChar file (Byte.ofChar '}'))

mutual
/-- Source `printRow` of every printer class; the result is the buffer after
the call. -/
def ColumnPrinter.printRow (env : Env) : ColumnPrinter → Nat → Buffer → Except Fault Buffer
  | .boolean base data, rowId, buffer =>
    match isNullRow base rowId with
    | .error e => .error e
    | .ok true => .ok (writeString buffer (lit "null"))
    | .ok false =>
      match readAt data rowId with
      | .error e => .error e
      | .ok v => .ok (writeString buffer (if v ≠ 0 then lit "true" else lit "false"))
  | .long base data, rowId, buffer =>
    match isNullRow base rowId with
    | .error e => .error e
    | .ok true => .ok (writeString buffer (lit "null"))
    | .ok false =>
      match readAt data rowId with
      | .error e => .error e
      | .ok v => .ok (writeString buffer (int64Text v))
  | .double base data isFloat, rowId, buffer =>
    match isNullRow base rowId with
    | .error e => .error e
    | .ok true => .ok (writeString buffer (lit "null"))
    | .ok false =>
      match readAt data rowId with
      | .error e => .error e
      | .ok v => .ok (writeString buffer (env.formatG isFloat v))
  | .timestamp base data epoch, rowId, buffer =>
    match isNullRow base rowId with
    | .error e => .error e
    | .ok true => .ok (writeString buffer (lit "null"))
    | .ok false =>
      match readAt data rowId with
      | .error e => .error e
      | .ok t =>
        match env.localtimeText (timestampSplit epoch t).1 with
        | none => .error .undefinedBehaviour
        | some timeBuffer =>
          let buffer := writeChar buffer (Byte.ofChar '"')
          let buffer := writeString buffer timeBuffer
          let buffer := writeChar buffer (Byte.ofChar '.')
          match fractionText (timestampSplit epoch t).2 with
          | none => .error .diverges
          | some digits => .ok (writeString buffer (digits ++ lit "\""))
  | .date base data, rowId, buffer =>
    match isNullRow base rowId with
    | .error e => .error e
    | .ok true => .ok (writeString buffer (lit "null"))
    | .ok false =>
      match readAt data rowId with
      | .error e => .error e
      | .ok v =>
        match dateText env (wrapInt64 (v * 24 * 60 * 60)) with
        | .error e => .error e
        | .ok timeBuffer =>
          let buffer := writeChar buffer (Byte.ofChar '"')
          let buffer := writeString buffer timeBuffer
          .ok (writeChar buffer (Byte.ofChar '"'))
  | .decimal64 base data scale, rowId, buffer =>
    match isNullRow base rowId with
    | .error e => .error e
    | .ok true => .ok (writeString buffer (lit "null"))
    | .ok false =>
      match readAt data rowId with
      | .error e => .error e
      | .ok v =>
        match toDecimalString v scale with
        | .error e => .error e
        | .ok text => .ok (writeString buffer text)
  | .decimal128 base data scale, rowId, buffer =>
    match isNullRow base rowId with
    | .error e => .error e
    | .ok true => .ok (writeString buffer (lit "null"))
    | .ok false =>
      match readAt data rowId with
      | .error e => .error e
      | .ok v =>
        match int128ToDecimalString v scale with
        | .error e => .error e
        | .ok text => .ok (writeString buffer text)
  | .string base start length, rowId, buffer =>
    match isNullRow base rowId with
    | .error e => .error e
    | .ok true => .ok (writeString buffer (lit "null"))
    | .ok false =>
      match readAt length rowId with
      | .error e => .error e
      | .ok len =>
        match forRange 0 len (stringBody start rowId) (writeChar buffer (Byte.ofChar '"')) with
        | .error e => .error e
        | .ok buffer => .ok (writeChar buffer (Byte.ofChar '"'))
  | .binary base start length, rowId, buffer =>
    match isNullRow base rowId with
    | .error e => .error e
    | .ok true => .ok (writeString buffer (lit "null"))
    | .ok false =>
      match readAt length rowId with
      | .error e => .error e
      | .ok len =>
        match forRange 0 len (binaryBody start rowId) (writeChar buffer (Byte.ofChar '[')) with
        | .error e => .error e
        | .ok buffer => .ok (writeChar buffer (Byte.ofChar ']'))
  | .list base offsets elementPrinter, rowId, buffer =>
    match isNullRow base rowId with
    | .error e => .error e
    | .ok true => .ok (writeString buffer (lit "null"))
    | .ok false =>
      match readAt offsets rowId with
      | .error e => .error e
      | .ok first =>
        match readAt offsets ((rowId + 1) % 2 ^ 64) with
        | .error e => .error e
        | .ok last =>
          match forRange first last (listBody (ColumnPrinter.printRow env elementPrinter) first)
              (writeChar buffer (Byte.ofChar '[')) with
          | .error e => .error e
          | .ok buffer => .ok (writeChar buffer (Byte.ofChar ']'))
  | .map base offsets keyPrinter elementPrinter, rowId, buffer =>
    match isNullRow base rowId with
    | .error e => .error e
    | .ok true => .ok (writeString buffer (lit "null"))
    | .ok false =>
      match readAt offsets rowId with
      | .error e => .error e
      | .ok first =>
        match readAt offsets ((rowId + 1) % 2 ^ 64) with
        | .error e => .error e
        | .ok last =>
          match forRange first last
              (mapBody (ColumnPrinter.printRow env keyPrinter)
                (ColumnPrinter.printRow env elementPrinter) first)
              (writeChar buffer (Byte.ofChar '[')) with
          | .error e => .error e
          | .ok buffer => .ok (writeChar buffer (Byte.ofChar ']'))
  | .union base tags offsets fieldPrinter, rowId, buffer =>
    match isNullRow base rowId with
    | .error e => .error e
    | .ok true => .ok (writeString buffer (lit "null"))
    | .ok false =>
      match readAt tags rowId with
      | .error e => .error e
      | .ok tag =>
        let buffer := writeString buffer (lit "\x7b\"tag\": ")
        let buffer := writeString buffer (int64Text tag.val)
        let buffer := writeString buffer (lit ", \"value\": ")
        match readAt offsets rowId with
        | .error e => .error e
        | .ok offset =>
          match printField env fieldPrinter tag.val offset buffer with
          | .error e => .error e
          | .ok buffer => .ok (writeChar buffer (Byte.ofChar '}'))
  | .struct base fieldPrinter, rowId, buffer =>
    match isNullRow base rowId with
    | .error e => .error e
    | .ok true => .ok (writeString buffer (lit "null"))
    | .ok false =>
      match printFields env base.type fieldPrinter 0 rowId (writeChar buffer (Byte.ofChar '\x7b')) with
      | .error e => .error e
      | .ok buffer => .ok (writeChar buffer (Byte.ofChar '}'))
/-- The call `fieldPrinter[tag]->printRow(rowId)` of the union printer; a
tag that is not below `fieldPrinter.size()` reads past the end of the
vector. -/
def printField (env : Env) : List ColumnPrinter → Nat → Nat → Buffer → Except Fault Buffer
  | [], _, _, _ => .error .undefinedBehaviour
  | p :: _, 0, rowId, buffer => ColumnPrinter.printRow env p rowId buffer
  | _ :: ps, tag + 1, rowId, buffer => printField env ps tag rowId buffer
/-- The loop `for (i = 0; i < fieldPrinter.size(); ++i)` of
`StructColumnPrinter::printRow`, from the printers not yet visited and the
counter `i`. -/
def printFields (env : Env) (type : OrcType) :
    List ColumnPrinter → Nat → Nat → Buffer → Except Fault Buffer
  | [], _, _, buffer => .ok buffer
  | p :: ps, i, rowId, buffer =>
    let buffer := if i ≠ 0 then writeString buffer (lit ", ") else buffer
    let buffer := writeChar buffer (Byte.ofChar '"')
    match type.getFieldName i with
    | none => .error .undefinedBehaviour
    | some name =>
      let buffer := writeString buffer name
      let buffer := writeString buffer (lit "\": ")
      match ColumnPrinter.printRow env p rowId buffer with
      | .error e => .error e
      | .ok buffer => printFields env type ps (i + 1) rowId buffer
end

/-- The `else` branch of every `printRow`: what the printer writes for a row
that the test `hasNulls && !notNull[rowId]` does not find absent. -/
def ColumnPrinter.printPresent (env : Env) : ColumnPrinter → Nat → Buffer → Except Fault Buffer
  | .boolean _ data, rowId, buffer =>
    match readAt data rowId with
    | .error e => .error e
    | .ok v => .ok (writeString buffer (if v ≠ 0 then lit "true" else lit "false"))
  | .long _ data, rowId, buffer =>
    match readAt data rowId with
    | .error e => .error e
    | .ok v => .ok (writeString buffer (int64Text v))
  | .double _ data isFloat, rowId, buffer =>
    match readAt data rowId with
    | .error e => .error e
    | .ok v => .ok (writeString buffer (env.formatG isFloat v))
  | .timestamp _ data epoch, rowId, buffer =>
    match readAt data rowId with
    | .error e => .error e
    | .ok t =>
      match env.localtimeText (timestampSplit epoch t).1 with
      | none => .error .undefinedBehaviour
      | some timeBuffer =>
        let buffer := writeChar buffer (Byte.ofChar '"')
        let buffer := writeString buffer timeBuffer
        let buffer := writeChar buffer (Byte.ofChar '.')
        match fractionText (timestampSplit epoch t).2 with
        | none => .error .diverges
        | some digits => .ok (writeString buffer (digits ++ lit "\""))
  | .date _ data, rowId, buffer =>
    match readAt data rowId with
    | .error e => .error e
    | .ok v =>
      match dateText env (wrapInt64 (v * 24 * 60 * 60)) with
      | .error e => .error e
      | .ok timeBuffer =>
        let buffer := writeChar buffer (Byte.ofChar '"')
        let buffer := writeString buffer timeBuffer
        .ok (writeChar buffer (Byte.ofChar '"'))
  | .decimal64 _ data scale, rowId, buffer =>
    match readAt data rowId with
    | .error e => .error e
    | .ok v =>
      match toDecimalString v scale with
      | .error e => .error e
      | .ok text => .ok (writeString buffer text)
  | .decimal128 _ data scale, rowId, buffer =>
    match readAt data rowId with
    | .error e => .error e
    | .ok v =>
      match int128ToDecimalString v scale with
      | .error e => .error e
      | .ok text => .ok (writeString buffer text)
  | .string _ start length, rowId, buffer =>
    match readAt length rowId with
    | .error e => .error e
    | .ok len =>
      match forRange 0 len (stringBody start rowId) (writeChar buffer (Byte.ofChar '"')) with
      | .error e => .error e
      | .ok buffer => .ok (writeChar buffer (Byte.ofChar '"'))
  | .binary _ start length, rowId, buffer =>
    match readAt length rowId with
    | .error e => .error e
    | .ok len =>
      match forRange 0 len (binaryBody start rowId) (writeChar buffer (Byte.ofChar '[')) with
      | .error e => .error e
      | .ok buffer => .ok (writeChar buffer (Byte.ofChar ']'))
  | .list _ offsets elementPrinter, rowId, buffer =>
    match readAt offsets rowId with
    | .error e => .error e
    | .ok first =>
      match readAt offsets ((rowId + 1) % 2 ^ 64) with
      | .error e => .error e
      | .ok last =>
        match forRange first last (listBody (elementPrinter.printRow env) first)
            (writeChar buffer (Byte.ofChar '[')) with
        | .error e => .error e
        | .ok buffer => .ok (writeChar buffer (Byte.ofChar ']'))
  | .map _ offsets keyPrinter elementPrinter, rowId, buffer =>
    match readAt offsets rowId with
    | .error e => .error e
    | .ok first =>
      match readAt offsets ((rowId + 1) % 2 ^ 64) with
      | .error e => .error e
      | .ok last =>
        match forRange first last
            (mapBody (keyPrinter.printRow env) (elementPrinter.printRow env) first)
            (writeChar buffer (Byte.ofChar '[')) with
        | .error e => .error e
        | .ok buffer => .ok (writeChar buffer (Byte.ofChar ']'))
  | .union _ tags offsets fieldPrinter, rowId, buffer =>
    match readAt tags rowId with
    | .error e => .error e
    | .ok tag =>
      let buffer := writeString buffer (lit "\x7b\"tag\": ")
      let buffer := writeString buffer (int64Text tag.val)
      let buffer := writeString buffer (lit ", \"value\": ")
      match readAt offsets rowId with
      | .error e => .error e
      | .ok offset =>
        match printField env fieldPrinter tag.val offset buffer with
        | .error e => .error e
        | .ok buffer => .ok (writeChar buffer (Byte.ofChar '}'))
  | .struct base fieldPrinter, rowId, buffer =>
    match printFields env base.type fieldPrinter 0 rowId (writeChar buffer (Byte.ofChar '\x7b')) with
    | .error e => .error e
    | .ok buffer => .ok (writeChar buffer (Byte.ofChar '}'))

/-! ## The printers as objects

`printRow` is a member function of an object whose members it may assign.
The definitions below give every call the object it leaves besides the
buffer, a call of another printer (through `elementPrinter`, `keyPrinter` or
`fieldPrinter[i]`) leaving its object in the member that holds it. -/

/-- A text without its trailing `0` characters. -/
def trimTrailingZeros (s : List Byte) : List Byte :=
  (s.reverse.dropWhile (fun b => b = Byte.ofChar '0')).reverse

/-- The decimal text of `n`, zero-padded on the left to nine digits. -/
def zeroPad9 (n : Nat) : List Byte :=
  List.replicate (9 - (natText n).length) (Byte.ofChar '0') ++ natText n

/-- The timestamp fraction as the specification words it: the nine-digit text
of the remainder without its trailing zeros, and `0` for the remainder 0. -/
def specFraction (n : Nat) : List Byte :=
  if n = 0 then lit "0" else trimTrailingZeros (zeroPad9 n)

/-- The indices `first, first + 1, ..., last - 1`, ascending. -/
def childIndices (first last : Int) : List Int :=
  (List.range (last - first).toNat).map (fun (k : Nat) => first + (k : Int))

/-- The fragments `item i` for the indices `i` of a list, in order; the first
failure is the result. -/
def renderAll (item : Int → Except Fault Buffer) : List Int → Except Fault (List Buffer)
  | [] => .ok []
  | i :: rest =>
    match item i with
    | .error e => .error e
    | .ok x =>
      match renderAll item rest with
      | .error e => .error e
      | .ok xs => .ok (x :: xs)

/-- The fragments joined by `sep`. -/
def joined (sep : List Byte) (items : List Buffer) : List Byte := List.intercalate sep items

/-- The escape table of the specification, by byte value: backslash, backspace,
form feed, newline, carriage return, tab and double quote become a backslash
and a letter; every other byte is itself. -/
def specEsc (b : Byte) : List Byte :=
  if b = 0x5C then [0x5C, 0x5C]
  else if b = 0x08 then [0x5C, 0x62]
  else if b = 0x0C then [0x5C, 0x66]
  else if b = 0x0A then [0x5C, 0x6E]
  else if b = 0x0D then [0x5C, 0x72]
  else if b = 0x09 then [0x5C, 0x74]
  else if b = 0x22 then [0x5C, 0x22]
  else [b]

/-- One entry of a rendered map row: the key and value fragments of child
index `i` inside the `key`/`value` object. -/
def mapEntry (env : Env) (keyPrinter elementPrinter : ColumnPrinter) (i : Int) :
    Except Fault Buffer :=
  match keyPrinter.printRow env (toUInt64 i) [] with
  | .error e => .error e
  | .ok k =>
    match elementPrinter.printRow env (toUInt64 i) [] with
    | .error e => .error e
    | .ok v => .ok (lit "\x7b\"key\": " ++ k ++ lit ", \"value\": " ++ v ++ lit "\x7d")

/-- One item of a rendered struct row: the quoted field name, as the C string
it is written as, and the fragment of the field. -/
def structItem (name : List Byte) (frag : Buffer) : Buffer :=
  lit "\"" ++ cString name ++ lit "\": " ++ frag

/-- A struct row as the specification words it: the items made of the quoted
field name, `: ` and the fragment, joined by `, ` between braces. -/
def specStructRow (names : List (List Byte)) (frags : List Buffer) : List Byte :=
  lit "\x7b" ++ joined (lit ", ")
    (List.zipWith (fun name frag => lit "\"" ++ name ++ lit "\": " ++ frag) names frags)
    ++ lit "\x7d"

/-! ## Concrete rows -/

/-- The text `localtime_r` and `strftime` give on a host in the UTC time
zone whose `%Y` prints a year outside 1000..9999 unpadded. -/
def utcText (seconds : Int) : Option (List Byte) :=
  match civilFromDays (seconds / 86400) with
  | (year, month, day) =>
    let secs := seconds % 86400
    let text := (if 1000 ≤ year ∧ year ≤ 9999 then natText year.toNat else int64Text year)
      ++ lit "-" ++ twoDigits month ++ lit "-" ++ twoDigits day ++ lit " "
      ++ twoDigits (secs / 3600) ++ lit ":" ++ twoDigits (secs % 3600 / 60) ++ lit ":"
      ++ twoDigits (secs % 60)
    if text.length < 20 then some text else none

/-- A host in the UTC time zone.  The function that no concrete row below
reaches, the formatting of a floating value, is a stand-in. -/
def utcEnv : Env :=
  { formatG := fun _ _ => lit "?"
    epoch := 0
    localtimeText := utcText
    strftimeYear := int64Text }

/-- The caller's use of a printer: build it from the type, `reset` it on the
batch, and print one row into the empty buffer. -/
def renderRow (env : Env) (type : OrcType) (batch : ColumnVectorBatch) (rowId : Nat) :
    Except Fault Buffer :=
  match createColumnPrinter env type with
  | .error e => .error e
  | .ok printer =>
    match printer.reset batch with
    | .error e => .error e
    | .ok printer => printer.printRow env rowId []

/-- The type `int`. -/
def intType : OrcType := .mk .INT [] [] 0 0

/-- The type `string`. -/
def stringType : OrcType := .mk .STRING [] [] 0 0

/-- The common fields of a batch of `n` rows without nulls. -/
def noNulls (n : Nat) : BatchBase := { numElements := n, hasNulls := false, notNull := [] }

/-- A printer for `int`, bound to the given values, none of them null. -/
def boundLong (data : List Int) : ColumnPrinter :=
  .long { type := intType, hasNulls := false, notNull := none } data

/-- A printer for `string`, bound to the given payloads, none of them null. -/
def boundString (payloads : List (List Byte)) : ColumnPrinter :=
  .string { type := stringType, hasNulls := false, notNull := none } payloads
    (payloads.map (fun p => (p.length : Int)))

/-- The base-class members of a printer of `type` bound to a batch without
nulls. -/
def boundBase (type : OrcType) : PrinterBase :=
  { type := type, hasNulls := false, notNull := none }

/-- The result of `f` on `buf` is `buf` followed by what `f` writes to the
empty buffer. -/
def Appends (f : Buffer → Except Fault Buffer) : Prop :=
  ∀ buf, f buf = (f []).map (fun out => buf ++ out)

/-! ## Reading decimal text -/

/-- The value of a decimal digit character, if the byte is one. -/
def digitValue (b : Byte) : Option Nat :=
  if 0x30 ≤ b.val ∧ b.val ≤ 0x39 then some (b.val - 0x30) else none

/-- One step of reading a decimal number from the left. -/
def parseStep (acc : Option Nat) (b : Byte) : Option Nat :=
  match acc, digitValue b with
  | some n, some d => some (n * 10 + d)
  | _, _ => none

/-- The natural number a non-empty text of decimal digits denotes. -/
def parseNat (s : List Byte) : Option Nat :=
  if s = [] then none else s.foldl parseStep (some 0)

/-- The integer a decimal text with an optional leading `-` denotes. -/
def parseInt (s : List Byte) : Option Int :=
  match s with
  | [] => none
  | b :: rest =>
    if b = 0x2D then (parseNat rest).map (fun (n : Nat) => -(n : Int))
    else (parseNat (b :: rest)).map (fun (n : Nat) => (n : Int))

/-- The canonical decimal text of an integer: an optional `-` (for negative
values only), then digits without a leading zero unless the only digit. -/
def isCanonicalDecimal (s : List Byte) (x : Int) : Prop :=
  ∃ digits : List Byte,
    s = (if x < 0 then [0x2D] else []) ++ digits
    ∧ digits ≠ []
    ∧ (∀ b ∈ digits, 0x30 ≤ b.val ∧ b.val ≤ 0x39)
    ∧ (digits.head? = some 0x30 → digits = [0x30])

/-! ## The shape of types and printers -/

/-- The variants of a printer, one per printer class (the floating class
serves both FLOAT and DOUBLE). -/
inductive Variant where
  | boolean | integer | floating | timestamp | date | decimal64 | decimal128
  | string | binary | list | map | union | struct
  deriving DecidableEq, Repr

/-- The variant of a printer. -/
def ColumnPrinter.variant : ColumnPrinter → Variant
  | .boolean _ _ => .boolean
  | .long _ _ => .integer
  | .double _ _ _ => .floating
  | .timestamp _ _ _ => .timestamp
  | .date _ _ => .date
  | .decimal64 _ _ _ => .decimal64
  | .decimal128 _ _ _ => .decimal128
  | .string _ _ _ => .string
  | .binary _ _ _ => .binary
  | .list _ _ _ => .list
  | .map _ _ _ _ => .map
  | .union _ _ _ _ => .union
  | .struct _ _ => .struct

/-- The child printers of a printer, in order. -/
def ColumnPrinter.children : ColumnPrinter → List ColumnPrinter
  | .list _ _ elementPrinter => [elementPrinter]
  | .map _ _ keyPrinter elementPrinter => [keyPrinter, elementPrinter]
  | .union _ _ _ fieldPrinter => fieldPrinter
  | .struct _ fieldPrinter => fieldPrinter
  | _ => []

/-- The variant the specification gives a kind: the table of the factory;
none for a value outside the enumeration. -/
def specVariant (kind : TypeKind) (precision : Nat) : Option Variant :=
  match kind with
  | .BOOLEAN => some .boolean
  | .BYTE => some .integer
  | .SHORT => some .integer
  | .INT => some .integer
  | .LONG => some .integer
  | .FLOAT => some .floating
  | .DOUBLE => some .floating
  | .STRING => some .string
  | .VARCHAR => some .string
  | .CHAR => some .string
  | .BINARY => some .binary
  | .TIMESTAMP => some .timestamp
  | .DATE => some .date
  | .DECIMAL => if precision = 0 ∨ precision > 18 then some .decimal128 else some .decimal64
  | .LIST => some .list
  | .MAP => some .map
  | .UNION => some .union
  | .STRUCT => some .struct
  | .unknown _ => none

/-- The subtypes the specification has the factory build children from:
`subtype(0)` of a LIST, `subtype(0)` and `subtype(1)` of a MAP, every subtype
of a UNION or STRUCT, none of a primitive kind. -/
def OrcType.childTypes : OrcType → List OrcType
  | .mk .LIST subtypes _ _ _ => subtypes.take 1
  | .mk .MAP subtypes _ _ _ => subtypes.take 2
  | .mk .UNION subtypes _ _ _ => subtypes
  | .mk .STRUCT subtypes _ _ _ => subtypes
  | _ => []

mutual
/-- A type tree has the subtypes its kinds ask for: a LIST at least one, a MAP
at least two, and so for the subtypes the factory builds children from. -/
def OrcType.arityOk : OrcType → Bool
  | .mk kind subtypes _ _ _ =>
    match kind with
    | .LIST =>
      match subtypes with
      | [] => false
      | elem :: _ => elem.arityOk
    | .MAP =>
      match subtypes with
      | key :: elem :: _ => key.arityOk && elem.arityOk
      | _ => false
    | .STRUCT => allArityOk subtypes
    | .UNION => allArityOk subtypes
    | _ => true
/-- Every type of the list has the subtypes its kinds ask for. -/
def allArityOk : List OrcType → Bool
  | [] => true
  | t :: ts => t.arityOk && allArityOk ts
end

mutual
/-- A node the factory builds a printer for (the node itself, the element of
a LIST, the key or value of a MAP, a subtype of a UNION or STRUCT, at any
depth) has a kind outside the enumeration. -/
def OrcType.hasUnknownKind : OrcType → Bool
  | .mk kind subtypes _ _ _ =>
    match kind with
    | .unknown _ => true
    | .LIST =>
      match subtypes with
      | [] => false
      | elem :: _ => elem.hasUnknownKind
    | .MAP =>
      match subtypes with
      | key :: elem :: _ => key.hasUnknownKind || elem.hasUnknownKind
      | [key] => key.hasUnknownKind
      | [] => false
    | .STRUCT => anyHasUnknownKind subtypes
    | .UNION => anyHasUnknownKind subtypes
    | _ => false
/-- Some type of the list has such a node. -/
def anyHasUnknownKind : List OrcType → Bool
  | [] => false
  | t :: ts => t.hasUnknownKind || anyHasUnknownKind ts
end

/-! ## The shape of batches -/

/-- The child batches of a batch, in order: the elements of a list batch,
the keys and the elements of a map batch, the children of a union batch, the
fields of a struct batch. -/
def ColumnVectorBatch.children : ColumnVectorBatch → List ColumnVectorBatch
  | .list _ _ elements => [elements]
  | .map _ _ keys elements => [keys, elements]
  | .union _ _ _ children => children
  | .struct _ fields => fields
  | _ => []

/-- The runtime shape of the batch is the one the specification has the
variant expect: the int64 batch for boolean, integer, date and timestamp, the
float64 batch for floating, the string batch for string and binary, and the
batch of its own name for the others. -/
def ColumnPrinter.expects : ColumnPrinter → ColumnVectorBatch → Bool
  | .boolean _ _, .long _ _ => true
  | .long _ _, .long _ _ => true
  | .date _ _, .long _ _ => true
  | .timestamp _ _ _, .long _ _ => true
  | .double _ _ _, .double _ _ => true
  | .decimal64 _ _ _, .decimal64 _ _ _ => true
  | .decimal128 _ _ _, .decimal128 _ _ _ => true
  | .string _ _ _, .string _ _ _ => true
  | .binary _ _ _, .string _ _ _ => true
  | .list _ _ _, .list _ _ _ => true
  | .map _ _ _ _, .map _ _ _ _ => true
  | .union _ _ _ _, .union _ _ _ _ => true
  | .struct _ _, .struct _ _ => true
  | _, _ => false

/-- The result of a call from the object it leaves and the exception that
left it. -/
def outcome {α : Type} (result : α × Option Fault) : Except Fault α :=
  match result.2 with
  | none => .ok result.1
  | some fault => .error fault

/-! ## The calendar -/

/-- Leap years of the proleptic Gregorian calendar. -/
def isLeapYear (y : Int) : Prop := (y % 4 = 0 ∧ y % 100 ≠ 0) ∨ y % 400 = 0

instance (y : Int) : Decidable (isLeapYear y) := by unfold isLeapYear; infer_instance

/-- The number of days of month `m` of year `y`. -/
def daysInMonth (y m : Int) : Int :=
  if m = 2 then (if isLeapYear y then 29 else 28)
  else if m = 4 ∨ m = 6 ∨ m = 9 ∨ m = 11 then 30
  else 31

/-- The calendar date after `(y, m, d)`. -/
def nextDay (date : Int × Int × Int) : Int × Int × Int :=
  if date.2.2 < daysInMonth date.1 date.2.1 then (date.1, date.2.1, date.2.2 + 1)
  else if date.2.1 < 12 then (date.1, date.2.1 + 1, 1)
  else (date.1 + 1, 1, 1)

/-- A date of the calendar. -/
def isValidDate (date : Int × Int × Int) : Prop :=
  1 ≤ date.2.1 ∧ date.2.1 ≤ 12 ∧ 1 ≤ date.2.2 ∧ date.2.2 ≤ daysInMonth date.1 date.2.1

/-- The year of the era (400 years from a first of March) of a day of the
era, as `civilFromDays` computes it. -/
def yoeOf (doe : Int) : Int := (doe - doe / 1460 + doe / 36524 - doe / 146096) / 365

/-- The day of the era on which year `k` of the era starts. -/
def yearStart (k : Int) : Int := 365 * k + k / 4 - k / 100

/-- The last day of the era of its year `k`. -/
def yearEnd (k : Int) : Int := if k = 399 then 146096 else yearStart (k + 1) - 1

/-- The check that `yoeOf` is `k` on the first and on the last day of year `k`. -/
def boundaryOk (k : Nat) : Bool :=
  decide (yoeOf (yearStart k) = k) && decide (yoeOf (yearEnd k) = k)

/-- The date of day `doy` of the year that starts on the first of March of
the year `y0`, as `civilFromDays` computes it. -/
def civilOfYearDay (y0 doy : Int) : Int × Int × Int :=
  let mp := (5 * doy + 2) / 153
  let d := doy - (153 * mp + 2) / 5 + 1
  let m := if mp < 10 then mp + 3 else mp - 9
  (if m ≤ 2 then y0 + 1 else y0, m, d)

/-- The date `date` is the calendar date that lies `d` whole days after
1970-01-01 (before it, when `d` is negative): a date of the calendar from
which, or to which, the first of January 1970 is reached in that many steps
to the next day. -/
def isDateAfterEpoch (date : Int × Int × Int) (d : Int) : Prop :=
  isValidDate date
    ∧ (if 0 ≤ d then nextDay^[d.toNat] (1970, 1, 1) = date
        else nextDay^[(-d).toNat] date = (1970, 1, 1))

/-- The character of the last decimal digit of a number. -/
def decimalDigit (n : Int) : Byte := ⟨(0x30 + (n % 10).toNat) % 256, Nat.mod_lt _ (by decide)⟩

/-- The text `YYYY-MM-DD` of a date: four digits of the year, two of the
month, two of the day. -/
def specDateText (date : Int × Int × Int) : List Byte :=
  [decimalDigit (date.1 / 1000), decimalDigit (date.1 / 100), decimalDigit (date.1 / 10),
    decimalDigit date.1, 0x2D, decimalDigit (date.2.1 / 10), decimalDigit date.2.1, 0x2D,
    decimalDigit (date.2.2 / 10), decimalDigit date.2.2]

/-! ## Batches that differ in the null flags only -/

/-- The common fields of a batch with the array of null flags replaced. -/
def BatchBase.withNotNull (bb : BatchBase) (notNull : List Bool) : BatchBase :=
  { numElements := bb.numElements, hasNulls := bb.hasNulls, notNull := notNull }

/-- The batch that differs from `batch` only in the contents of its own
`notNull` array. -/
def ColumnVectorBatch.withNotNull : ColumnVectorBatch → List Bool → ColumnVectorBatch
  | .long bb data, notNull => .long (bb.withNotNull notNull) data
  | .double bb data, notNull => .double (bb.withNotNull notNull) data
  | .string bb data length, notNull => .string (bb.withNotNull notNull) data length
  | .decimal64 bb values scale, notNull => .decimal64 (bb.withNotNull notNull) values scale
  | .decimal128 bb values scale, notNull => .decimal128 (bb.withNotNull notNull) values scale
  | .list bb offsets elements, notNull => .list (bb.withNotNull notNull) offsets elements
  | .map bb offsets keys elements, notNull => .map (bb.withNotNull notNull) offsets keys elements
  | .union bb tags offsets children, notNull =>
    .union (bb.withNotNull notNull) tags offsets children
  | .struct bb fields, notNull => .struct (bb.withNotNull notNull) fields

/-! ## The number a decimal text denotes -/

/-- The rational number a decimal text with an optional `.` denotes: the
integer its characters other than the `.` denote, divided by ten to the
number of digits after the `.`. -/
def decimalValue (text : List Byte) : Option ℚ :=
  match parseInt (text.filter (fun b => b ≠ 0x2E)) with
  | none => none
  | some n => some ((n : ℚ) / 10 ^ ((text.dropWhile (fun b => b ≠ 0x2E)).length - 1))

/-! ## Reading a rendered string back -/

/-- The rendering of a string payload as the specification words it: the
escapes of its bytes between double quotes. -/
def specString (s : List Byte) : List Byte := lit "\"" ++ (s.map specEsc).flatten ++ lit "\""

/-- The byte is one of the seven of the escape table. -/
def isEscaped (b : Byte) : Bool :=
  b = 0x5C || b = 0x08 || b = 0x0C || b = 0x0A || b = 0x0D || b = 0x09 || b = 0x22

/-- The byte a backslash pair stands for, from the character after the
backslash: one of backslash, `b`, `f`, `n`, `r`, `t` and double quote. -/
def unescapeLetter (c : Byte) : Option Byte :=
  if c = 0x5C then some 0x5C
  else if c = 0x62 then some 0x08
  else if c = 0x66 then some 0x0C
  else if c = 0x6E then some 0x0A
  else if c = 0x72 then some 0x0D
  else if c = 0x74 then some 0x09
  else if c = 0x22 then some 0x22
  else none

/-- The text between the quotes read from the left: a backslash pair is the
byte it stands for, every other byte is itself; `pending` says that the byte
before was the backslash of a pair. -/
def unescapeFrom : List Byte → Bool → Option (List Byte)
  | [], pending => if pending then none else some []
  | b :: rest, pending =>
    if pending then
      match unescapeLetter b with
      | none => none
      | some x => (unescapeFrom rest false).map (fun xs => x :: xs)
    else if b = 0x5C then unescapeFrom rest true
    else (unescapeFrom rest false).map (fun xs => b :: xs)

/-- The function `unescape`: drop the surrounding quotes, then read the rest
from the left. -/
def unescape (text : List Byte) : Option (List Byte) :=
  match text with
  | [] => none
  | q :: rest =>
    if q = 0x22 ∧ rest.getLast? = some 0x22 then unescapeFrom rest.dropLast false else none

/-! ## Emitting the rows of a batch -/

/-- The caller's loop over rows: `printRow` for each row of the list, in
order, into the same buffer. -/
def emitRows (env : Env) (p : ColumnPrinter) : List Nat → Buffer → Except Fault Buffer
  | [], buffer => .ok buffer
  | r :: rows, buffer =>
    match p.printRow env r buffer with
    | .error e => .error e
    | .ok buffer => emitRows env p rows buffer

/-- The child indices of row `r` of a list or map batch:
`offsets[r], ..., offsets[r+1] - 1`. -/
def rowIndices (offsets : List Int) (r : Nat) : List Int :=
  childIndices (offsets.getD r 0) (offsets.getD (r + 1) 0)

/-- The fragments `item i` for the indices of each group in turn, group by
group and in order; the first failure is the result. -/
def renderRows (item : Int → Except Fault Buffer) :
    List (List Int) → Except Fault (List (List Buffer))
  | [] => .ok []
  | g :: gs =>
    match renderAll item g with
    | .error e => .error e
    | .ok x =>
      match renderRows item gs with
      | .error e => .error e
      | .ok xs => .ok (x :: xs)

/-! ## Well-formed batches -/

/-- The common fields of a batch are well-formed: `numElements` is a
`uint64_t` value and the validity array has at least that many entries. -/
def BatchBase.wellFormed (bb : BatchBase) : Bool :=
  decide (bb.numElements < 2 ^ 64) && decide (bb.numElements ≤ bb.notNull.length)

/-- The offsets of a list or map batch of `numRows` rows over a child batch of
`childRows` rows are well-formed: there are at least `numRows + 1` of them,
and the first `numRows + 1` are non-negative, non-decreasing and at most
`childRows`. -/
def offsetsOk (numRows : Nat) (offsets : List Int) (childRows : Nat) : Bool :=
  decide (numRows + 1 ≤ offsets.length)
    && (List.range (numRows + 1)).all
        (fun r => decide (0 ≤ offsets.getD r 0) && decide (offsets.getD r 0 ≤ (childRows : Int)))
    && (List.range numRows).all (fun r => decide (offsets.getD r 0 ≤ offsets.getD (r + 1) 0))

/-- The payloads and lengths of a string batch of `numRows` rows are
well-formed: there are at least `numRows` of each, and every length of a row
is non-negative and within the payload of the row. -/
def stringsOk (numRows : Nat) (data : List (List Byte)) (length : List Int) : Bool :=
  decide (numRows ≤ data.length) && decide (numRows ≤ length.length)
    && (List.range numRows).all
        (fun r => decide (0 ≤ length.getD r 0)
          && decide (length.getD r 0 ≤ ((data.getD r []).length : Int)))

/-- The tags and offsets of a union batch of `numRows` rows are well-formed:
there are at least `numRows` of each, every tag of a row is less than the
child count, and the offset of the row is less than the row count of the
child the tag selects. -/
def unionOk (numRows : Nat) (tags : List Byte) (offsets : List Nat)
    (children : List ColumnVectorBatch) : Bool :=
  decide (numRows ≤ tags.length) && decide (numRows ≤ offsets.length)
    && (List.range numRows).all
        (fun r =>
          match children[(tags.getD r 0).val]? with
          | none => false
          | some child => decide (offsets.getD r 0 < child.base.numElements))

mutual
/-- The trusted-input precondition: the type tree has known kinds (its lists,
maps and structs having the subtypes and field names the printers read) and
the batch is well-formed for it.  The shape of the batch matches the kind,
recursively; validity arrays, data arrays and struct children have at least
`numElements` entries; string lengths are non-negative and within their
payloads; the offsets of lists and maps are as `offsetsOk` says; the tags
and offsets of unions are as `unionOk` says.  The batch is one of the data
model: the scale of a decimal batch is non-negative, and the values of a
decimal64 batch are `int64_t` values. -/
def wellFormed : OrcType → ColumnVectorBatch → Bool
  | .mk kind subtypes fieldNames precision _, batch =>
    match kind with
    | .BOOLEAN | .BYTE | .SHORT | .INT | .LONG | .TIMESTAMP | .DATE =>
      match batch with
      | .long bb data => bb.wellFormed && decide (bb.numElements ≤ data.length)
      | _ => false
    | .FLOAT | .DOUBLE =>
      match batch with
      | .double bb data => bb.wellFormed && decide (bb.numElements ≤ data.length)
      | _ => false
    | .STRING | .VARCHAR | .CHAR | .BINARY =>
      match batch with
      | .string bb data length => bb.wellFormed && stringsOk bb.numElements data length
      | _ => false
    | .DECIMAL =>
      match batch with
      | .decimal64 bb values scale =>
        decide (¬ (precision = 0 ∨ precision > 18)) && bb.wellFormed
          && decide (bb.numElements ≤ values.length) && decide (0 ≤ scale)
          && (List.range bb.numElements).all (fun r => decide (isInt64 (values.getD r 0)))
      | .decimal128 bb values scale =>
        decide (precision = 0 ∨ precision > 18) && bb.wellFormed
          && decide (bb.numElements ≤ values.length) && decide (0 ≤ scale)
      | _ => false
    | .LIST =>
      match subtypes with
      | elem :: _ =>
        match batch with
        | .list bb offsets elements =>
          bb.wellFormed && offsetsOk bb.numElements offsets elements.base.numElements
            && wellFormed elem elements
        | _ => false
      | [] => false
    | .MAP =>
      match subtypes with
      | key :: elem :: _ =>
        match batch with
        | .map bb offsets keys elements =>
          bb.wellFormed && offsetsOk bb.numElements offsets keys.base.numElements
            && offsetsOk bb.numElements offsets elements.base.numElements
            && wellFormed key keys && wellFormed elem elements
        | _ => false
      | _ => false
    | .UNION =>
      match batch with
      | .union bb tags offsets children =>
        bb.wellFormed && unionOk bb.numElements tags offsets children
          && wellFormedAll subtypes children 0
      | _ => false
    | .STRUCT =>
      match batch with
      | .struct bb fields =>
        bb.wellFormed && decide (subtypes.length ≤ fieldNames.length)
          && wellFormedAll subtypes fields bb.numElements
      | _ => false
    | .unknown _ => false
/-- The batches are as many as the types, each is well-formed for the type of
its position and each has at least `rows` rows. -/
def wellFormedAll : List OrcType → List ColumnVectorBatch → Nat → Bool
  | [], [], _ => true
  | t :: ts, b :: bs, rows =>
    decide (rows ≤ b.base.numElements) && wellFormed t b && wellFormedAll ts bs rows
  | _, _, _ => false
end

/-- Row `r` of a batch is not marked absent. -/
def rowPresent (bb : BatchBase) (r : Nat) : Bool := !bb.hasNulls || bb.notNull.getD r false

/-- The date text of the day count `d` fits the buffer of 11 bytes that
`DateColumnPrinter::printRow` gives `strftime`: the year that `gmtime_r`
computes from the second count fits `tm_year`, and `%Y` prints it in at most
four characters (month and day take two each). -/
def dateFits (env : Env) (d : Int) : Bool :=
  match civilFromDays (wrapInt64 (d * 24 * 60 * 60) / 86400) with
  | (year, _, _) =>
    decide (-(2 ^ 31) ≤ year - 1900) && decide (year - 1900 < 2 ^ 31)
      && decide ((yearText env year).length ≤ 4)

mutual
/-- The calls of the C library return what `printRow` reads: the date text of
every present row of a date column fits the buffer (`dateFits`), and for
every present row of a timestamp column `localtime_r` and `strftime` return
their text. -/
def renderable (env : Env) : OrcType → ColumnVectorBatch → Bool
  | .mk kind subtypes _ _ _, batch =>
    match kind with
    | .DATE =>
      match batch with
      | .long bb data =>
        (List.range bb.numElements).all
          (fun r => !rowPresent bb r || dateFits env (data.getD r 0))
      | _ => true
    | .TIMESTAMP =>
      match batch with
      | .long bb data =>
        (List.range bb.numElements).all
          (fun r => !rowPresent bb r
            || (env.localtimeText (timestampSplit env.epoch (data.getD r 0)).1).isSome)
      | _ => true
    | .LIST =>
      match subtypes with
      | elem :: _ =>
        match batch with
        | .list _ _ elements => renderable env elem elements
        | _ => true
      | [] => true
    | .MAP =>
      match subtypes with
      | key :: elem :: _ =>
        match batch with
        | .map _ _ keys elements => renderable env key keys && renderable env elem elements
        | _ => true
      | _ => true
    | .UNION =>
      match batch with
      | .union _ _ _ children => renderableAll env subtypes children
      | _ => true
    | .STRUCT =>
      match batch with
      | .struct _ fields => renderableAll env subtypes fields
      | _ => true
    | _ => true
/-- Each batch is renderable for the type of its position. -/
def renderableAll (env : Env) : List OrcType → List ColumnVectorBatch → Bool
  | t :: ts, b :: bs => renderable env t b && renderableAll env ts bs
  | _, _ => true
end

/-- The printer prints every row below `rows` into every buffer. -/
def Prints (env : Env) (p : ColumnPrinter) (rows : Nat) : Prop :=
  ∀ r, r < rows → ∀ buffer : Buffer, ∃ out, p.printRow env r buffer = .ok out

mutual
/-- The depth of nesting of the child printers of a printer. -/
def ColumnPrinter.depth : ColumnPrinter → Nat
  | .list _ _ elementPrinter => elementPrinter.depth + 1
  | .map _ _ keyPrinter elementPrinter => max keyPrinter.depth elementPrinter.depth + 1
  | .union _ _ _ fieldPrinter => depthAll fieldPrinter + 1
  | .struct _ fieldPrinter => depthAll fieldPrinter + 1
  | _ => 0
/-- The largest depth of the printers of a list. -/
def depthAll : List ColumnPrinter → Nat
  | [] => 0
  | p :: ps => max p.depth (depthAll ps)
end

theorem cString_of_no_nul (s : List Byte) (h : ∀ b ∈ s, b ≠ 0) : cString s = s := by
  unfold cString
  rw [List.takeWhile_eq_self_iff]
  intro b hb
  simpa using h b hb

theorem writeString_of_no_nul (file s : List Byte) (h : ∀ b ∈ s, b ≠ 0) :
    writeString file s = file ++ s := by
  unfold writeString
  rw [cString_of_no_nul s h]

theorem digitChar_ne_nul (d : Nat) (h : d < 10) : Byte.ofChar (Nat.digitChar d) ≠ 0 := by
  interval_cases d <;> decide

theorem toDigitsCore_no_nul (fuel : Nat) : ∀ (n : Nat) (ds : List Char),
    (∀ c ∈ ds, Byte.ofChar c ≠ 0) → ∀ c ∈ Nat.toDigitsCore 10 fuel n ds, Byte.ofChar c ≠ 0 := by
  induction fuel with
  | zero => intro n ds h; simpa [Nat.toDigitsCore] using h
  | succ fuel ih =>
    intro n ds h
    have hd : ∀ c ∈ Nat.digitChar (n % 10) :: ds, Byte.ofChar c ≠ 0 := by
      intro c hc
      rcases List.mem_cons.mp hc with rfl | hc
      · exact digitChar_ne_nul _ (Nat.mod_lt _ (by decide))
      · exact h c hc
    simp only [Nat.toDigitsCore]
    split
    · exact hd
    · exact ih _ _ hd

theorem natText_no_nul (n : Nat) : ∀ b ∈ natText n, b ≠ 0 := by
  intro b hb
  unfold natText ofChars at hb
  rcases List.mem_map.mp hb with ⟨c, hc, rfl⟩
  exact toDigitsCore_no_nul _ _ _ (by simp) c hc

theorem int64Text_no_nul (v : Int) : ∀ b ∈ int64Text v, b ≠ 0 := by
  intro b hb
  unfold int64Text at hb
  split at hb
  · rcases List.mem_append.mp hb with h | h
    · have : b = Byte.ofChar '-' := by simpa [lit, ofChars] using h
      rw [this]; decide
    · exact natText_no_nul _ b h
  · exact natText_no_nul _ b hb

/-! ## Printing only appends -/

theorem forLoop_appends (body : Int → Buffer → Except Fault Buffer)
    (h : ∀ i, Appends (body i)) : ∀ n i, Appends (forLoop body n i) := by
  intro n
  induction n with
  | zero => intro i buf; simp [forLoop, Except.map]
  | succ n ih =>
    intro i buf
    simp only [forLoop]
    rw [h i buf]
    cases hb : body i [] with
    | error e => simp [Except.map]
    | ok x =>
      simp only [Except.map]
      rw [ih (i + 1) (buf ++ x), ih (i + 1) x]
      cases forLoop body n (i + 1) [] <;> simp [Except.map]

theorem forRange_appends (first last : Int) (body : Int → Buffer → Except Fault Buffer)
    (h : ∀ i, Appends (body i)) : Appends (forRange first last body) :=
  forLoop_appends body h _ _

theorem escapeChar_eq (file : Buffer) (ch : Byte) : escapeChar file ch = file ++ escapeChar [] ch := by
  unfold escapeChar
  repeat' split
  all_goals simp [writeString, writeChar]

theorem stringBody_appends (start : List (List Byte)) (rowId : Nat) (i : Int) :
    Appends (stringBody start rowId i) := by
  intro buf
  unfold stringBody
  cases readPayload start rowId i with
  | error e => rfl
  | ok ch => simp only [Except.map]; rw [escapeChar_eq]

theorem binaryBody_appends (start : List (List Byte)) (rowId : Nat) (i : Int) :
    Appends (binaryBody start rowId i) := by
  intro buf
  unfold binaryBody
  cases readPayload start rowId i with
  | error e => rfl
  | ok ch => split <;> simp [Except.map, writeString]

theorem listBody_appends (print : Nat → Buffer → Except Fault Buffer) (first i : Int)
    (h : ∀ r, Appends (print r)) : Appends (listBody print first i) := by
  intro buf
  unfold listBody
  split
  · rw [h _ (writeString buf _), h _ (writeString [] _)]
    cases print (toUInt64 i) [] <;> simp [Except.map, writeString]
  · exact h _ buf

theorem mapBody_appends (printKey printElement : Nat → Buffer → Except Fault Buffer)
    (first i : Int) (hk : ∀ r, Appends (printKey r)) (he : ∀ r, Appends (printElement r)) :
    Appends (mapBody printKey printElement first i) := by
  intro buf
  unfold mapBody
  simp only []
  rw [hk _ (writeString (if i ≠ first then writeString buf (lit ", ") else buf) _),
    hk _ (writeString (if i ≠ first then writeString [] (lit ", ") else []) _)]
  cases printKey (toUInt64 i) [] with
  | error e => simp [Except.map]
  | ok k =>
    simp only [Except.map]
    rw [he _ (writeString _ _), he _ (writeString (_ ++ k) _)]
    cases printElement (toUInt64 i) [] with
    | error e => simp [Except.map]
    | ok v => by_cases hi : i = first <;> simp [hi, Except.map, writeString, writeChar]

mutual
theorem printRow_appends (env : Env) : ∀ (p : ColumnPrinter) (rowId : Nat),
    Appends (p.printRow env rowId)
  | .boolean base data, rowId => by
    intro buf
    simp only [ColumnPrinter.printRow]
    cases isNullRow base rowId with
    | error e => rfl
    | ok b =>
      cases b
      · cases readAt data rowId <;> simp [Except.map, writeString]
      · simp [Except.map, writeString]
  | .long base data, rowId => by
    intro buf
    simp only [ColumnPrinter.printRow]
    cases isNullRow base rowId with
    | error e => rfl
    | ok b =>
      cases b
      · cases readAt data rowId <;> simp [Except.map, writeString]
      · simp [Except.map, writeString]
  | .double base data isFloat, rowId => by
    intro buf
    simp only [ColumnPrinter.printRow]
    cases isNullRow base rowId with
    | error e => rfl
    | ok b =>
      cases b
      · cases readAt data rowId <;> simp [Except.map, writeString]
      · simp [Except.map, writeString]
  | .timestamp base data epoch, rowId => by
    intro buf
    simp only [ColumnPrinter.printRow]
    cases isNullRow base rowId with
    | error e => rfl
    | ok b =>
      cases b
      · cases readAt data rowId with
        | error e => rfl
        | ok t =>
          simp only []
          cases env.localtimeText (timestampSplit epoch t).1 with
          | none => rfl
          | some tb =>
            cases fractionText (timestampSplit epoch t).2 <;>
              simp [Except.map, writeString, writeChar]
      · simp [Except.map, writeString]
  | .date base data, rowId => by
    intro buf
    simp only [ColumnPrinter.printRow]
    cases isNullRow base rowId with
    | error e => rfl
    | ok b =>
      cases b
      · cases readAt data rowId with
        | error e => rfl
        | ok v =>
          simp only []
          cases dateText env (wrapInt64 (v * 24 * 60 * 60)) <;>
            simp [Except.map, writeString, writeChar]
      · simp [Except.map, writeString]
  | .decimal64 base data scale, rowId => by
    intro buf
    simp only [ColumnPrinter.printRow]
    cases isNullRow base rowId with
    | error e => rfl
    | ok b =>
      cases b
      · cases readAt data rowId with
        | error e => rfl
        | ok v =>
          simp only []
          cases toDecimalString v scale <;> simp [Except.map, writeString]
      · simp [Except.map, writeString]
  | .decimal128 base data scale, rowId => by
    intro buf
    simp only [ColumnPrinter.printRow]
    cases isNullRow base rowId with
    | error e => rfl
    | ok b =>
      cases b
      · cases readAt data rowId with
        | error e => rfl
        | ok v =>
          simp only []
          cases int128ToDecimalString v scale <;> simp [Except.map, writeString]
      · simp [Except.map, writeString]
  | .string base start length, rowId => by
    intro buf
    simp only [ColumnPrinter.printRow]
    cases isNullRow base rowId with
    | error e => rfl
    | ok b =>
      cases b
      · cases readAt length rowId with
        | error e => rfl
        | ok len =>
          simp only []
          rw [forRange_appends 0 len _ (stringBody_appends start rowId) (writeChar buf _),
            forRange_appends 0 len _ (stringBody_appends start rowId) (writeChar [] _)]
          cases forRange 0 len (stringBody start rowId) [] <;> simp [Except.map, writeChar]
      · simp [Except.map, writeString]
  | .binary base start length, rowId => by
    intro buf
    simp only [ColumnPrinter.printRow]
    cases isNullRow base rowId with
    | error e => rfl
    | ok b =>
      cases b
      · cases readAt length rowId with
        | error e => rfl
        | ok len =>
          simp only []
          rw [forRange_appends 0 len _ (binaryBody_appends start rowId) (writeChar buf _),
            forRange_appends 0 len _ (binaryBody_appends start rowId) (writeChar [] _)]
          cases forRange 0 len (binaryBody start rowId) [] <;> simp [Except.map, writeChar]
      · simp [Except.map, writeString]
  | .list base offsets elementPrinter, rowId => by
    intro buf
    simp only [ColumnPrinter.printRow]
    cases isNullRow base rowId with
    | error e => rfl
    | ok b =>
      cases b
      · cases readAt offsets rowId with
        | error e => rfl
        | ok first =>
          simp only []
          cases readAt offsets ((rowId + 1) % 2 ^ 64) with
          | error e => rfl
          | ok last =>
            simp only []
            have hb : ∀ i, Appends (listBody (ColumnPrinter.printRow env elementPrinter) first i) :=
              fun i => listBody_appends _ _ _ (printRow_appends env elementPrinter)
            rw [forRange_appends first last _ hb (writeChar buf _),
              forRange_appends first last _ hb (writeChar [] _)]
            cases forRange first last (listBody (ColumnPrinter.printRow env elementPrinter) first) []
              <;> simp [Except.map, writeChar]
      · simp [Except.map, writeString]
  | .map base offsets keyPrinter elementPrinter, rowId => by
    intro buf
    simp only [ColumnPrinter.printRow]
    cases isNullRow base rowId with
    | error e => rfl
    | ok b =>
      cases b
      · cases readAt offsets rowId with
        | error e => rfl
        | ok first =>
          simp only []
          cases readAt offsets ((rowId + 1) % 2 ^ 64) with
          | error e => rfl
          | ok last =>
            simp only []
            have hb : ∀ i, Appends (mapBody (ColumnPrinter.printRow env keyPrinter)
                (ColumnPrinter.printRow env elementPrinter) first i) :=
              fun i => mapBody_appends _ _ _ _ (printRow_appends env keyPrinter)
                (printRow_appends env elementPrinter)
            rw [forRange_appends first last _ hb (writeChar buf _),
              forRange_appends first last _ hb (writeChar [] _)]
            cases forRange first last (mapBody (ColumnPrinter.printRow env keyPrinter)
                (ColumnPrinter.printRow env elementPrinter) first) []
              <;> simp [Except.map, writeChar]
      · simp [Except.map, writeString]
  | .union base tags offsets fieldPrinter, rowId => by
    intro buf
    simp only [ColumnPrinter.printRow]
    cases isNullRow base rowId with
    | error e => rfl
    | ok b =>
      cases b
      · cases readAt tags rowId with
        | error e => rfl
        | ok tag =>
          simp only []
          cases readAt offsets rowId with
          | error e => rfl
          | ok offset =>
            simp only []
            rw [printField_appends env fieldPrinter tag.val offset (writeString _ _),
              printField_appends env fieldPrinter tag.val offset (writeString (writeString _ _) _)]
            cases printField env fieldPrinter tag.val offset []
              <;> simp [Except.map, writeChar, writeString]
      · simp [Except.map, writeString]
  | .struct base fieldPrinter, rowId => by
    intro buf
    simp only [ColumnPrinter.printRow]
    cases isNullRow base rowId with
    | error e => rfl
    | ok b =>
      cases b
      · simp only []
        rw [printFields_appends env base.type fieldPrinter 0 rowId (writeChar buf _),
          printFields_appends env base.type fieldPrinter 0 rowId (writeChar [] _)]
        cases printFields env base.type fieldPrinter 0 rowId []
          <;> simp [Except.map, writeChar]
      · simp [Except.map, writeString]
theorem printField_appends (env : Env) : ∀ (ps : List ColumnPrinter) (tag rowId : Nat),
    Appends (printField env ps tag rowId)
  | [], _, _ => by intro buf; simp [printField, Except.map]
  | p :: _, 0, rowId => by
    intro buf
    simp only [printField]
    exact printRow_appends env p rowId buf
  | _ :: ps, tag + 1, rowId => by
    intro buf
    simp only [printField]
    exact printField_appends env ps tag rowId buf
theorem printFields_appends (env : Env) (type : OrcType) :
    ∀ (ps : List ColumnPrinter) (i rowId : Nat), Appends (printFields env type ps i rowId)
  | [], _, _ => by intro buf; simp [printFields, Except.map]
  | p :: ps, i, rowId => by
    intro buf
    simp only [printFields]
    cases type.getFieldName i with
    | none => rfl
    | some name =>
      simp only []
      rw [printRow_appends env p rowId (writeString _ _),
        printRow_appends env p rowId (writeString (writeString (writeChar (if i ≠ 0 then writeString [] (lit ", ") else []) _) _) _)]
      cases ColumnPrinter.printRow env p rowId [] with
      | error e => simp [Except.map]
      | ok x =>
        simp only [Except.map]
        rw [printFields_appends env type ps (i + 1) rowId (_ ++ x),
          printFields_appends env type ps (i + 1) rowId (writeString _ _ ++ x)]
        cases printFields env type ps (i + 1) rowId [] with
        | error e => simp [Except.map]
        | ok y => by_cases hi : i = 0 <;> simp [hi, Except.map, writeString, writeChar]
end

theorem printRow_eq_append (env : Env) (p : ColumnPrinter) (rowId : Nat) (buf : Buffer) :
    p.printRow env rowId buf = (p.printRow env rowId []).map (fun out => buf ++ out) :=
  printRow_appends env p rowId buf

/-! ## Binding and null rows -/

theorem reset_base (p p' : ColumnPrinter) (batch : ColumnVectorBatch)
    (h : p.reset batch = .ok p') : p'.base = p.base.reset batch.base := by
  cases p <;> cases batch <;> simp only [ColumnPrinter.reset] at h <;>
    first
    | (cases h; done)
    | (cases h; rfl)
    | (split at h <;> first
        | (cases h; done)
        | (cases h; rfl)
        | (split at h <;> first | (cases h; done) | (cases h; rfl)))

theorem isNullRow_reset (base : PrinterBase) (bb : BatchBase) (rowId : Nat)
    (hnulls : bb.hasNulls = true) (habsent : bb.notNull[rowId]? = some false) :
    isNullRow (base.reset bb) rowId = .ok true := by
  simp [isNullRow, PrinterBase.reset, hnulls, habsent]

theorem printRow_of_null (env : Env) (p : ColumnPrinter) (rowId : Nat) (buffer : Buffer)
    (h : isNullRow p.base rowId = .ok true) :
    p.printRow env rowId buffer = .ok (buffer ++ lit "null") := by
  have hn : writeString buffer (lit "null") = buffer ++ lit "null" := by
    unfold writeString
    rw [show cString (lit "null") = lit "null" from by decide]
  cases p <;> simp only [ColumnPrinter.base] at h <;> simp only [ColumnPrinter.printRow, h, hn]

/-- C1: a printer bound by `reset` to a batch with `hasNulls = true` renders
every row whose validity entry is false as exactly `null`, whatever the
variant of the printer and whatever the payload, offsets, tags and child
batches of the batch hold. -/
theorem null_row_renders_null (env : Env) (p p' : ColumnPrinter) (batch : ColumnVectorBatch)
    (rowId : Nat) (buffer : Buffer)
    (hreset : p.reset batch = .ok p')
    (hnulls : batch.base.hasNulls = true)
    (habsent : batch.base.notNull[rowId]? = some false) :
    p'.printRow env rowId buffer = .ok (buffer ++ lit "null") := by
  apply printRow_of_null
  rw [reset_base p p' batch hreset]
  exact isNullRow_reset _ _ _ hnulls habsent

/-! ## Decimal digits -/

theorem toDigitsCore_append (fuel : Nat) : ∀ (n : Nat) (ds : List Char),
    Nat.toDigitsCore 10 fuel n ds = Nat.toDigitsCore 10 fuel n [] ++ ds := by
  induction fuel with
  | zero => intro n ds; simp [Nat.toDigitsCore]
  | succ fuel ih =>
    intro n ds
    simp only [Nat.toDigitsCore]
    split
    · simp
    · rw [ih _ (_ :: ds), ih _ [_]]; simp

theorem toDigitsCore_fuel (f1 : Nat) : ∀ (f2 n : Nat), n < f1 → n < f2 →
    Nat.toDigitsCore 10 f1 n [] = Nat.toDigitsCore 10 f2 n [] := by
  induction f1 with
  | zero => intro f2 n h; omega
  | succ f1 ih =>
    intro f2 n h1 h2
    cases f2 with
    | zero => omega
    | succ f2 =>
      simp only [Nat.toDigitsCore]
      split
      · rfl
      · rename_i hne
        rw [toDigitsCore_append f1, toDigitsCore_append f2, ih f2 (n / 10) (by omega) (by omega)]

theorem toDigits_lt_ten (n : Nat) (h : n < 10) : Nat.toDigits 10 n = [Nat.digitChar n] := by
  have h0 : n / 10 = 0 := by omega
  have h1 : n % 10 = n := by omega
  simp [Nat.toDigits, Nat.toDigitsCore, h0, h1]

theorem toDigitsCore_step (fuel n : Nat) (h : n / 10 ≠ 0) :
    Nat.toDigitsCore 10 (fuel + 1) n [] =
      Nat.toDigitsCore 10 fuel (n / 10) [] ++ [Nat.digitChar (n % 10)] := by
  simp only [Nat.toDigitsCore, h, if_false]
  rw [toDigitsCore_append]

theorem toDigits_ge_ten (n : Nat) (h : 10 ≤ n) :
    Nat.toDigits 10 n = Nat.toDigits 10 (n / 10) ++ [Nat.digitChar (n % 10)] := by
  have h0 : n / 10 ≠ 0 := by omega
  unfold Nat.toDigits
  rw [toDigitsCore_step n n h0,
    toDigitsCore_fuel n (n / 10 + 1) (n / 10) (by omega) (by omega)]

theorem natText_lt_ten (n : Nat) (h : n < 10) : natText n = [Byte.ofChar (Nat.digitChar n)] := by
  simp [natText, ofChars, toDigits_lt_ten n h]

theorem natText_ge_ten (n : Nat) (h : 10 ≤ n) :
    natText n = natText (n / 10) ++ [Byte.ofChar (Nat.digitChar (n % 10))] := by
  simp [natText, ofChars, toDigits_ge_ten n h]

/-- The decimal text ends with the digit of `n % 10`. -/
theorem natText_snoc (n : Nat) :
    ∃ front, natText n = front ++ [Byte.ofChar (Nat.digitChar (n % 10))] := by
  by_cases h : n < 10
  · exact ⟨[], by rw [natText_lt_ten n h, Nat.mod_eq_of_lt h]; rfl⟩
  · exact ⟨natText (n / 10), natText_ge_ten n (by omega)⟩

theorem natText_mul_ten (m : Nat) (h : 0 < m) : natText (m * 10) = natText m ++ [Byte.ofChar '0'] := by
  rw [natText_ge_ten (m * 10) (by omega)]
  have h1 : m * 10 / 10 = m := by omega
  have h2 : m * 10 % 10 = 0 := by omega
  rw [h1, h2]; rfl

theorem natText_mul_pow (m : Nat) (h : 0 < m) (k : Nat) :
    natText (m * 10 ^ k) = natText m ++ List.replicate k (Byte.ofChar '0') := by
  induction k with
  | zero => simp
  | succ k ih =>
    rw [pow_succ, ← mul_assoc, natText_mul_ten _ (by positivity), ih, List.append_assoc,
      List.replicate_succ', ]

theorem digitChar_ne_zero_char (d : Nat) (h : d < 10) (h0 : d ≠ 0) :
    Byte.ofChar (Nat.digitChar d) ≠ Byte.ofChar '0' := by
  interval_cases d <;> first | (exact absurd rfl h0) | decide

theorem natText_length_pos (n : Nat) : 0 < (natText n).length := by
  obtain ⟨front, h⟩ := natText_snoc n
  rw [h]; simp

/-! ## The fraction of a timestamp -/

theorem stripLoop_spec (fuel : Nat) : ∀ (n : Nat) (z : Int), 0 < n → n < 10 ^ fuel →
    ∃ m k : Nat, stripLoop fuel (n : Int) z = some ((m : Int), z + k) ∧ n = m * 10 ^ k ∧
      m % 10 ≠ 0 := by
  induction fuel with
  | zero => intro n z h0 h1; simp at h1; omega
  | succ fuel ih =>
    intro n z h0 h1
    have hmod : Int.tmod (n : Int) 10 = ((n % 10 : Nat) : Int) := (Int.ofNat_tmod n 10).symm
    have hdiv : Int.tdiv (n : Int) 10 = ((n / 10 : Nat) : Int) := (Int.ofNat_tdiv n 10).symm
    simp only [stripLoop, hmod, hdiv]
    by_cases h : n % 10 = 0
    · have h2 : n / 10 < 10 ^ fuel := by
        rw [pow_succ] at h1; omega
      obtain ⟨m, k, hs, hn, hm⟩ := ih (n / 10) (z + 1) (by omega) h2
      refine ⟨m, k + 1, ?_, ?_, hm⟩
      · simp only [h, Nat.cast_zero, if_true, hs]
        congr 2; push_cast; ring
      · rw [pow_succ, ← mul_assoc, ← hn]; omega
    · refine ⟨n, 0, ?_, by simp, h⟩
      have : ((n % 10 : Nat) : Int) ≠ 0 := by exact_mod_cast h
      rw [if_neg this]; simp

theorem dropWhile_replicate_append (k : Nat) (d : Byte) (rest : List Byte)
    (hd : d ≠ Byte.ofChar '0') :
    (List.replicate k (Byte.ofChar '0') ++ d :: rest).dropWhile (fun b => b = Byte.ofChar '0')
      = d :: rest := by
  induction k with
  | zero => simp [List.dropWhile, hd]
  | succ k ih => simp [List.replicate_succ, List.dropWhile, ih]

theorem trimTrailingZeros_append (s : List Byte) (d : Byte) (k : Nat)
    (hd : d ≠ Byte.ofChar '0') :
    trimTrailingZeros (s ++ [d] ++ List.replicate k (Byte.ofChar '0')) = s ++ [d] := by
  unfold trimTrailingZeros
  rw [List.reverse_append, List.reverse_replicate, List.reverse_append, List.reverse_singleton,
    List.singleton_append, dropWhile_replicate_append k d _ hd]
  simp

theorem trimTrailingZeros_padded (a k : Nat) (front : List Byte) (d : Byte)
    (hd : d ≠ Byte.ofChar '0') :
    trimTrailingZeros (List.replicate a (Byte.ofChar '0') ++
        (front ++ [d] ++ List.replicate k (Byte.ofChar '0')))
      = List.replicate a (Byte.ofChar '0') ++ (front ++ [d]) := by
  rw [← List.append_assoc, ← List.append_assoc, trimTrailingZeros_append _ _ _ hd,
    List.append_assoc]

theorem fractionText_pos (n : Nat) (h0 : 0 < n) (h9 : n < 10 ^ 9) :
    fractionText (n : Int) = some (specFraction n) := by
  obtain ⟨m, k, hs, hn, hm⟩ := stripLoop_spec STRIP_FUEL n 0 h0
    (lt_of_lt_of_le h9 (by unfold STRIP_FUEL; norm_num))
  have hm0 : 0 < m := by omega
  have hk : k ≤ 8 := by
    by_contra hk
    have : 10 ^ 9 ≤ 10 ^ k := Nat.pow_le_pow_right (by decide) (by omega)
    have : 10 ^ k ≤ n := by rw [hn]; exact Nat.le_mul_of_pos_left _ hm0
    omega
  have hne : (n : Int) ≠ 0 := by exact_mod_cast (by omega : n ≠ 0)
  have hw : wrapInt32 (NANO_DIGITS - (0 + (k : Int))) = 9 - (k : Int) := by
    unfold wrapInt32 NANO_DIGITS; omega
  have htext : natText n = natText m ++ List.replicate k (Byte.ofChar '0') := by
    rw [hn]; exact natText_mul_pow m hm0 k
  obtain ⟨front, hfront⟩ := natText_snoc m
  have hd : Byte.ofChar (Nat.digitChar (m % 10)) ≠ Byte.ofChar '0' :=
    digitChar_ne_zero_char _ (Nat.mod_lt _ (by decide)) hm
  have hneg : ¬ ((m : Int) < 0) := by omega
  have hwidth : ¬ (9 - (k : Int) < 0) := by omega
  simp only [fractionText, stripTrailingZeros, hne, if_false, hs, hw, zeroPadded, hneg, hwidth,
    Int.natAbs_ofNat, List.nil_append, List.length_nil, Nat.zero_add]
  have hn0 : n ≠ 0 := by omega
  simp only [specFraction, hn0, if_false, zeroPad9, htext, List.length_append, List.length_replicate]
  rw [hfront]
  rw [trimTrailingZeros_padded _ _ _ _ hd]
  have hcount : (9 - (k : Int)).toNat - (front ++ [Byte.ofChar (Nat.digitChar (m % 10))]).length
      = 9 - ((front ++ [Byte.ofChar (Nat.digitChar (m % 10))]).length + k) := by omega
  rw [hcount]

theorem fractionText_eq_spec (n : Nat) (h9 : n < 10 ^ 9) :
    fractionText (n : Int) = some (specFraction n) := by
  rcases Nat.eq_zero_or_pos n with h | h
  · subst h; decide
  · exact fractionText_pos n h h9

theorem specFraction_ne_nil (n : Nat) (h9 : n < 10 ^ 9) : specFraction n ≠ [] := by
  intro h
  rcases Nat.eq_zero_or_pos n with h0 | h0
  · subst h0; revert h; decide
  · obtain ⟨m, k, hs, hn, hm⟩ := stripLoop_spec STRIP_FUEL n 0 h0
      (lt_of_lt_of_le h9 (by unfold STRIP_FUEL; norm_num))
    have hm0 : 0 < m := by omega
    have htext : natText n = natText m ++ List.replicate k (Byte.ofChar '0') := by
      rw [hn]; exact natText_mul_pow m hm0 k
    obtain ⟨front, hfront⟩ := natText_snoc m
    have hd : Byte.ofChar (Nat.digitChar (m % 10)) ≠ Byte.ofChar '0' :=
      digitChar_ne_zero_char _ (Nat.mod_lt _ (by decide)) hm
    have hn0 : n ≠ 0 := by omega
    simp only [specFraction, hn0, if_false, zeroPad9, htext, hfront] at h
    rw [trimTrailingZeros_padded _ _ _ _ hd] at h
    simp at h

/-- The nanoseconds `printRow` keeps are a natural number below `10^9`. -/
theorem timestampSplit_nanos (epoch t : Int) :
    ∃ n : Nat, n < 10 ^ 9 ∧ (timestampSplit epoch t).2 = (n : Int) := by
  have hlt : Int.tmod t NANOS_PER_SECOND < NANOS_PER_SECOND :=
    Int.tmod_lt_of_pos t (by unfold NANOS_PER_SECOND; decide)
  have hgt : -NANOS_PER_SECOND < Int.tmod t NANOS_PER_SECOND := by
    have h := Int.tmod_lt_of_pos (-t) (show (0 : Int) < NANOS_PER_SECOND by
      unfold NANOS_PER_SECOND; decide)
    have h1 := Int.tmod_def t NANOS_PER_SECOND
    have h2 := Int.tmod_def (-t) NANOS_PER_SECOND
    rw [Int.neg_tdiv] at h2
    unfold NANOS_PER_SECOND at *
    omega
  unfold NANOS_PER_SECOND at hlt hgt
  unfold timestampSplit
  simp only []
  split
  · rename_i hneg
    refine ⟨(-(Int.tmod t NANOS_PER_SECOND)).toNat, ?_, ?_⟩ <;>
      unfold NANOS_PER_SECOND at * <;> omega
  · rename_i hneg
    refine ⟨(Int.tmod t NANOS_PER_SECOND).toNat, ?_, ?_⟩ <;>
      unfold NANOS_PER_SECOND at * <;> omega

/-! ## Loops that write separated items -/

theorem joined_cons (sep : List Byte) (x : Buffer) (xs : List Buffer) :
    joined sep (x :: xs) = x ++ (xs.map (fun y => sep ++ y)).flatten := by
  unfold joined List.intercalate
  induction xs generalizing x with
  | nil => simp
  | cons y ys ih =>
    rw [List.intersperse_cons_cons, List.flatten_cons, List.flatten_cons, ih y]
    simp

theorem childIndices_succ (first : Int) (n : Nat) :
    (List.range (n + 1)).map (fun (k : Nat) => first + (k : Int))
      = first :: (List.range n).map (fun (k : Nat) => (first + 1) + (k : Int)) := by
  rw [List.range_succ_eq_map, List.map_cons, List.map_map]
  simp only [Nat.cast_zero, add_zero, List.cons.injEq, true_and]
  apply List.map_congr_left
  intro k _
  simp only [Function.comp, Nat.cast_succ]
  ring

/-- A loop whose body writes `sep` and then an item, from a counter that is
not the first one: every round appends `sep` and the item. -/
theorem forLoop_separated_tail (body : Int → Buffer → Except Fault Buffer)
    (item : Int → Except Fault Buffer) (sep : List Byte) (first : Int)
    (hbody : ∀ i buf, i ≠ first → body i buf = (item i).map (fun x => buf ++ sep ++ x)) :
    ∀ (n : Nat) (i : Int) (buf : Buffer), first < i →
      forLoop body n i buf
        = (renderAll item ((List.range n).map (fun (k : Nat) => i + (k : Int)))).map
            (fun xs => buf ++ (xs.map (fun y => sep ++ y)).flatten) := by
  intro n
  induction n with
  | zero => intro i buf _; simp [forLoop, renderAll, Except.map]
  | succ n ih =>
    intro i buf hi
    rw [childIndices_succ]
    simp only [forLoop, renderAll]
    rw [hbody i buf (by omega)]
    cases item i with
    | error e => simp [Except.map]
    | ok x =>
      simp only [Except.map]
      rw [ih (i + 1) _ (by omega)]
      cases renderAll item ((List.range n).map (fun (k : Nat) => i + 1 + (k : Int))) with
      | error e => simp [Except.map]
      | ok xs => simp [Except.map]

/-- A loop of the shape `if (i != first) write(sep); write(item i)`, run from
`first`: it appends the items joined by `sep`. -/
theorem forRange_separated (body : Int → Buffer → Except Fault Buffer)
    (item : Int → Except Fault Buffer) (sep : List Byte) (first last : Int)
    (hfirst : ∀ buf, body first buf = (item first).map (fun x => buf ++ x))
    (hbody : ∀ i buf, i ≠ first → body i buf = (item i).map (fun x => buf ++ sep ++ x))
    (buf : Buffer) :
    forRange first last body buf
      = (renderAll item (childIndices first last)).map (fun xs => buf ++ joined sep xs) := by
  unfold forRange childIndices
  cases (last - first).toNat with
  | zero => simp [forLoop, renderAll, Except.map, joined, List.intercalate]
  | succ n =>
    rw [childIndices_succ]
    simp only [forLoop, renderAll]
    rw [hfirst buf]
    cases item first with
    | error e => simp [Except.map]
    | ok x =>
      simp only [Except.map]
      rw [forLoop_separated_tail body item sep first hbody n (first + 1) _ (by omega)]
      cases renderAll item ((List.range n).map (fun (k : Nat) => first + 1 + (k : Int))) with
      | error e => simp [Except.map]
      | ok xs => simp [Except.map, joined_cons]

/-! ## Rows of lists and maps -/

theorem writeString_sep (buf : Buffer) : writeString buf (lit ", ") = buf ++ lit ", " := by
  unfold writeString
  rw [show cString (lit ", ") = lit ", " from by decide]

theorem listBody_first (print : Nat → Buffer → Except Fault Buffer) (first : Int)
    (h : ∀ r, Appends (print r)) (buf : Buffer) :
    listBody print first first buf = (print (toUInt64 first) []).map (fun x => buf ++ x) := by
  unfold listBody
  simp only [ne_eq, not_true_eq_false, if_false]
  exact h _ buf

theorem listBody_next (print : Nat → Buffer → Except Fault Buffer) (first i : Int)
    (h : ∀ r, Appends (print r)) (buf : Buffer) (hi : i ≠ first) :
    listBody print first i buf = (print (toUInt64 i) []).map (fun x => buf ++ lit ", " ++ x) := by
  unfold listBody
  simp only [ne_eq, hi, not_false_eq_true, if_true, writeString_sep]
  exact h _ _

/-- The indices of a row lie in `[first, last)`, ascend strictly, and are
child indices as they stand when the offsets are not negative. -/
theorem childIndices_spec (first last : Int) :
    (childIndices first last).length = (last - first).toNat
      ∧ (childIndices first last).Pairwise (fun i j => i < j)
      ∧ (∀ i ∈ childIndices first last, first ≤ i ∧ i < last)
      ∧ (∀ i ∈ childIndices first last, 0 ≤ first → last ≤ 2 ^ 63 → (toUInt64 i : Int) = i) := by
  have hmem : ∀ i ∈ childIndices first last, first ≤ i ∧ i < last := by
    intro i hi
    unfold childIndices at hi
    rcases List.mem_map.mp hi with ⟨k, hk, rfl⟩
    have := List.mem_range.mp hk
    omega
  refine ⟨by simp [childIndices], ?_, hmem, ?_⟩
  · unfold childIndices
    rw [List.pairwise_map]
    exact (List.pairwise_lt_range _).imp (fun h => by omega)
  · intro i hi h0 h63
    have := hmem i hi
    unfold toUInt64
    rw [Int.emod_eq_of_lt (by omega) (by omega)]
    omega

/-- C4: a present row of a list printer renders `[`, the fragments of the
element printer at the child indices `offsets[r]`, ..., `offsets[r+1] - 1`
in ascending order joined by `, `, and `]` (and fails as the first failing
element does); the indices are passed as `uint64_t`, which leaves those of
non-negative offsets as they are.  When the two offsets are equal the row
renders `[]`. -/
theorem list_row_renders_elements (env : Env) (base : PrinterBase) (offsets : List Int)
    (elementPrinter : ColumnPrinter) (rowId : Nat) (buffer : Buffer) (first last : Int)
    (hpresent : isNullRow base rowId = .ok false)
    (hrow : rowId + 1 < 2 ^ 64)
    (hfirst : offsets[rowId]? = some first)
    (hlast : offsets[rowId + 1]? = some last) :
    (ColumnPrinter.list base offsets elementPrinter).printRow env rowId buffer
        = (renderAll (fun i => elementPrinter.printRow env (toUInt64 i) [])
            (childIndices first last)).map
            (fun frags => buffer ++ lit "[" ++ joined (lit ", ") frags ++ lit "]")
      ∧ (childIndices first last).Pairwise (fun i j => i < j)
      ∧ (∀ i ∈ childIndices first last, first ≤ i ∧ i < last)
      ∧ (∀ i ∈ childIndices first last, 0 ≤ first → last ≤ 2 ^ 63 → (toUInt64 i : Int) = i)
      ∧ (first = last →
          (ColumnPrinter.list base offsets elementPrinter).printRow env rowId buffer
            = .ok (buffer ++ lit "[]")) := by
  have hmod : (rowId + 1) % 2 ^ 64 = rowId + 1 := Nat.mod_eq_of_lt hrow
  have hmain : (ColumnPrinter.list base offsets elementPrinter).printRow env rowId buffer
        = (renderAll (fun i => elementPrinter.printRow env (toUInt64 i) [])
            (childIndices first last)).map
            (fun frags => buffer ++ lit "[" ++ joined (lit ", ") frags ++ lit "]") := by
    simp only [ColumnPrinter.printRow, hpresent, readAt, hfirst, hmod, hlast]
    rw [forRange_separated _ (fun i => elementPrinter.printRow env (toUInt64 i) []) (lit ", ")
      first last
      (fun buf => listBody_first _ first (printRow_appends env elementPrinter) buf)
      (fun i buf hi => listBody_next _ first i (printRow_appends env elementPrinter) buf hi)]
    cases renderAll (fun i => elementPrinter.printRow env (toUInt64 i) [])
        (childIndices first last) with
    | error e => rfl
    | ok xs => simp [Except.map, writeChar, lit, ofChars]
  refine ⟨hmain, (childIndices_spec first last).2.1, (childIndices_spec first last).2.2.1,
    (childIndices_spec first last).2.2.2, ?_⟩
  intro heq
  rw [hmain, heq]
  simp [childIndices, renderAll, Except.map, joined, List.intercalate, lit, ofChars]

theorem mapBody_first (env : Env) (keyPrinter elementPrinter : ColumnPrinter) (first : Int)
    (buf : Buffer) :
    mapBody (keyPrinter.printRow env) (elementPrinter.printRow env) first first buf
      = (mapEntry env keyPrinter elementPrinter first).map (fun x => buf ++ x) := by
  unfold mapBody mapEntry
  simp only [ne_eq, not_true_eq_false, if_false]
  rw [printRow_eq_append env keyPrinter]
  cases keyPrinter.printRow env (toUInt64 first) [] with
  | error e => rfl
  | ok k =>
    simp only [Except.map]
    rw [printRow_eq_append env elementPrinter]
    cases elementPrinter.printRow env (toUInt64 first) [] with
    | error e => rfl
    | ok v =>
      simp only [Except.map, writeString, writeChar]
      rw [show cString (lit "\x7b\"key\": ") = lit "\x7b\"key\": " from by decide,
        show cString (lit ", \"value\": ") = lit ", \"value\": " from by decide]
      simp [lit, ofChars]

theorem mapBody_next (env : Env) (keyPrinter elementPrinter : ColumnPrinter) (first i : Int)
    (buf : Buffer) (hi : i ≠ first) :
    mapBody (keyPrinter.printRow env) (elementPrinter.printRow env) first i buf
      = (mapEntry env keyPrinter elementPrinter i).map (fun x => buf ++ lit ", " ++ x) := by
  unfold mapBody mapEntry
  simp only [ne_eq, hi, not_false_eq_true, if_true, writeString_sep]
  rw [printRow_eq_append env keyPrinter]
  cases keyPrinter.printRow env (toUInt64 i) [] with
  | error e => rfl
  | ok k =>
    simp only [Except.map]
    rw [printRow_eq_append env elementPrinter]
    cases elementPrinter.printRow env (toUInt64 i) [] with
    | error e => rfl
    | ok v =>
      simp only [Except.map, writeString, writeChar]
      rw [show cString (lit "\x7b\"key\": ") = lit "\x7b\"key\": " from by decide,
        show cString (lit ", \"value\": ") = lit ", \"value\": " from by decide]
      simp [lit, ofChars]

/-- C5: a present row of a map printer renders `[`, for each child index from
`offsets[r]` to `offsets[r+1] - 1` ascending the entry made of the key
fragment and the value fragment at that same index, the entries joined by
`, `, and `]` (and fails as the first failing key or value does). -/
theorem map_row_renders_entries (env : Env) (base : PrinterBase) (offsets : List Int)
    (keyPrinter elementPrinter : ColumnPrinter) (rowId : Nat) (buffer : Buffer)
    (first last : Int)
    (hpresent : isNullRow base rowId = .ok false)
    (hrow : rowId + 1 < 2 ^ 64)
    (hfirst : offsets[rowId]? = some first)
    (hlast : offsets[rowId + 1]? = some last) :
    (ColumnPrinter.map base offsets keyPrinter elementPrinter).printRow env rowId buffer
        = (renderAll (mapEntry env keyPrinter elementPrinter) (childIndices first last)).map
            (fun entries => buffer ++ lit "[" ++ joined (lit ", ") entries ++ lit "]")
      ∧ (childIndices first last).Pairwise (fun i j => i < j)
      ∧ (∀ i ∈ childIndices first last, first ≤ i ∧ i < last)
      ∧ (∀ i ∈ childIndices first last, 0 ≤ first → last ≤ 2 ^ 63 → (toUInt64 i : Int) = i) := by
  have hmod : (rowId + 1) % 2 ^ 64 = rowId + 1 := Nat.mod_eq_of_lt hrow
  refine ⟨?_, (childIndices_spec first last).2.1, (childIndices_spec first last).2.2.1,
    (childIndices_spec first last).2.2.2⟩
  simp only [ColumnPrinter.printRow, hpresent, readAt, hfirst, hmod, hlast]
  rw [forRange_separated _ (mapEntry env keyPrinter elementPrinter) (lit ", ") first last
    (fun buf => mapBody_first env keyPrinter elementPrinter first buf)
    (fun i buf hi => mapBody_next env keyPrinter elementPrinter first i buf hi)]
  cases renderAll (mapEntry env keyPrinter elementPrinter) (childIndices first last) with
  | error e => rfl
  | ok xs => simp [Except.map, writeChar, lit, ofChars]

/-! ## Rows of unions and structs -/

theorem printField_of_getElem (env : Env) : ∀ (ps : List ColumnPrinter) (tag : Nat)
    (child : ColumnPrinter) (rowId : Nat) (buf : Buffer), ps[tag]? = some child →
    printField env ps tag rowId buf = child.printRow env rowId buf
  | [], _, _, _, _, h => by simp at h
  | p :: _, 0, child, rowId, buf, h => by
    simp only [List.getElem?_cons_zero, Option.some.injEq] at h
    subst h
    simp only [printField]
  | _ :: ps, tag + 1, child, rowId, buf, h => by
    simp only [List.getElem?_cons_succ] at h
    simp only [printField]
    exact printField_of_getElem env ps tag child rowId buf h

/-- C6: a present row of a union printer whose tag selects an existing child
printer renders the `tag`/`value` object: the decimal text of the tag byte
(0..255) and the fragment of the selected child at index `offsets[r]`. -/
theorem union_row_renders_tagged_child (env : Env) (base : PrinterBase) (tags : List Byte)
    (offsets : List Nat) (fieldPrinter : List ColumnPrinter) (rowId : Nat) (buffer : Buffer)
    (tag : Byte) (offset : Nat) (child : ColumnPrinter)
    (hpresent : isNullRow base rowId = .ok false)
    (htag : tags[rowId]? = some tag)
    (hoffset : offsets[rowId]? = some offset)
    (hchild : fieldPrinter[tag.val]? = some child) :
    (ColumnPrinter.union base tags offsets fieldPrinter).printRow env rowId buffer
      = (child.printRow env offset []).map
          (fun frag => buffer ++ lit "\x7b\"tag\": " ++ natText tag.val ++ lit ", \"value\": "
            ++ frag ++ lit "\x7d") := by
  have htext : int64Text (tag.val : Int) = natText tag.val := by
    unfold int64Text
    rw [if_neg (by omega)]
    simp
  simp only [ColumnPrinter.printRow, hpresent, readAt, htag, hoffset]
  rw [printField_of_getElem env fieldPrinter tag.val child offset _ hchild,
    printRow_eq_append env child, htext]
  cases child.printRow env offset [] with
  | error e => rfl
  | ok frag =>
    simp only [Except.map, writeChar]
    rw [writeString_of_no_nul _ (natText tag.val) (natText_no_nul _)]
    simp only [writeString]
    rw [show cString (lit "\x7b\"tag\": ") = lit "\x7b\"tag\": " from by decide,
      show cString (lit ", \"value\": ") = lit ", \"value\": " from by decide]
    simp [lit, ofChars]

theorem printFields_tail (env : Env) (type : OrcType) (rowId : Nat) :
    ∀ (ps : List ColumnPrinter) (names : List (List Byte)) (frags : List Buffer) (i : Nat)
      (buf : Buffer), 0 < i →
      List.Forall₂ (fun p frag => p.printRow env rowId [] = .ok frag) ps frags →
      List.Forall₂ (fun (k : Nat) name => type.getFieldName k = some name)
        ((List.range ps.length).map (fun k => i + k)) names →
      printFields env type ps i rowId buf
        = .ok (buf ++ ((List.zipWith structItem names frags).map
            (fun item => lit ", " ++ item)).flatten)
  | [], names, frags, i, buf, _, hf, hn => by
    cases hf
    simp [printFields]
  | p :: ps, names, frags, i, buf, hi, hf, hn => by
    cases hf with
    | cons hp hrest =>
      rename_i frag frags
      rw [List.length_cons, List.range_succ_eq_map, List.map_cons, List.map_map] at hn
      cases hn with
      | cons hname hnames =>
        rename_i name names
        have hnames2 : List.Forall₂ (fun (k : Nat) name => type.getFieldName k = some name)
            ((List.range ps.length).map (fun k => (i + 1) + k)) names := by
          have : (List.map ((fun k => i + k) ∘ Nat.succ) (List.range ps.length))
              = (List.range ps.length).map (fun k => (i + 1) + k) := by
            apply List.map_congr_left
            intro k _
            simp only [Function.comp]
            omega
          rw [this] at hnames
          exact hnames
        simp only [Nat.add_zero] at hname
        simp only [printFields, hname, ne_eq, Nat.pos_iff_ne_zero.mp hi, not_false_eq_true,
          if_true, writeString_sep]
        rw [printRow_eq_append env p, hp]
        simp only [Except.map]
        rw [printFields_tail env type rowId ps names frags (i + 1) _ (by omega) hrest hnames2]
        simp only [writeString, writeChar]
        rw [show cString (lit "\": ") = lit "\": " from by decide]
        simp [lit, ofChars, structItem]

theorem printFields_head (env : Env) (type : OrcType) (rowId : Nat)
    (ps : List ColumnPrinter) (names : List (List Byte)) (frags : List Buffer) (buf : Buffer)
    (hf : List.Forall₂ (fun p frag => p.printRow env rowId [] = .ok frag) ps frags)
    (hn : List.Forall₂ (fun (k : Nat) name => type.getFieldName k = some name)
      (List.range ps.length) names) :
    printFields env type ps 0 rowId buf
      = .ok (buf ++ joined (lit ", ") (List.zipWith structItem names frags)) := by
  cases hf with
  | nil =>
    cases hn
    simp [printFields, joined, List.intercalate]
  | cons hp hrest =>
    rename_i p frag ps frags
    rw [List.length_cons, List.range_succ_eq_map] at hn
    cases hn with
    | cons hname hnames =>
      rename_i name names
      have hnames2 : List.Forall₂ (fun (k : Nat) name => type.getFieldName k = some name)
          ((List.range ps.length).map (fun k => 1 + k)) names := by
        have : List.map Nat.succ (List.range ps.length)
            = (List.range ps.length).map (fun k => 1 + k) := by
          apply List.map_congr_left
          intro k _
          omega
        rw [this] at hnames
        exact hnames
      simp only [printFields, hname, ne_eq, not_true_eq_false, if_false]
      rw [printRow_eq_append env p, hp]
      simp only [Except.map]
      rw [printFields_tail env type rowId ps names frags 1 _ (by omega) hrest hnames2]
      rw [List.zipWith_cons_cons, joined_cons]
      simp only [writeString, writeChar]
      rw [show cString (lit "\": ") = lit "\": " from by decide]
      simp [lit, ofChars, structItem]

/-! ## Rows of strings and binary values -/

set_option maxRecDepth 100000 in
theorem escapeChar_eq_specEsc : ∀ ch : Byte, escapeChar [] ch = specEsc ch := by
  decide

theorem stringBody_item (start : List (List Byte)) (rowId : Nat) (i : Int) (buf : Buffer) :
    stringBody start rowId i buf
      = ((readPayload start rowId i).map specEsc).map (fun x => buf ++ x) := by
  unfold stringBody
  cases h : readPayload start rowId i with
  | error e => rfl
  | ok ch => simp only [Except.map]; rw [escapeChar_eq, escapeChar_eq_specEsc]

theorem joined_empty_sep (items : List Buffer) : joined [] items = items.flatten := by
  cases items with
  | nil => simp [joined, List.intercalate]
  | cons x xs => rw [joined_cons]; simp

theorem readPayload_of_lt (start : List (List Byte)) (rowId : Nat) (payload : List Byte)
    (hstart : start[rowId]? = some payload) (i : Nat) (hi : i < payload.length) :
    readPayload start rowId (i : Int) = .ok payload[i] := by
  unfold readPayload
  simp only [hstart]
  rw [if_neg (by omega)]
  simp [List.getElem?_eq_getElem hi]

theorem renderAll_payload (start : List (List Byte)) (rowId : Nat) (payload : List Byte)
    (f : Byte → Buffer) (hstart : start[rowId]? = some payload) :
    ∀ (n i : Nat), i + n ≤ payload.length →
      renderAll (fun j => (readPayload start rowId j).map f)
          ((List.range n).map (fun (k : Nat) => (i : Int) + (k : Int)))
        = .ok (((payload.drop i).take n).map f) := by
  intro n
  induction n with
  | zero => intro i _; simp [renderAll]
  | succ n ih =>
    intro i hi
    rw [childIndices_succ]
    simp only [renderAll]
    have hcast : ((i : Int) + 1) = ((i + 1 : Nat) : Int) := by push_cast; rfl
    rw [readPayload_of_lt start rowId payload hstart i (by omega), hcast, ih (i + 1) (by omega)]
    simp only [Except.map]
    rw [List.drop_eq_getElem_cons (show i < payload.length by omega), List.take_succ_cons,
      List.map_cons]

theorem renderAll_payload_range (start : List (List Byte)) (rowId : Nat) (payload : List Byte)
    (f : Byte → Buffer) (hstart : start[rowId]? = some payload) (len : Int)
    (hlen : len ≤ payload.length) :
    renderAll (fun j => (readPayload start rowId j).map f) (childIndices 0 len)
      = .ok ((payload.take len.toNat).map f) := by
  unfold childIndices
  have h := renderAll_payload start rowId payload f hstart (len - 0).toNat 0 (by omega)
  simp only [Nat.cast_zero, List.drop_zero] at h
  rw [h]
  simp

/-- C7: a present row of a string printer renders `"`, for each of the
`length[r]` payload bytes in order its escape (the two-byte sequences of the
table for backslash, backspace, form feed, newline, carriage return, tab and
double quote; the byte itself for every other value, NUL and bytes from 0x80
included), and `"`. -/
theorem string_row_renders_escaped (env : Env) (base : PrinterBase)
    (start : List (List Byte)) (length : List Int) (rowId : Nat) (buffer : Buffer)
    (payload : List Byte) (len : Int)
    (hpresent : isNullRow base rowId = .ok false)
    (hlength : length[rowId]? = some len)
    (hstart : start[rowId]? = some payload)
    (hlen : len ≤ payload.length) :
    (ColumnPrinter.string base start length).printRow env rowId buffer
      = .ok (buffer ++ lit "\"" ++ ((payload.take len.toNat).map specEsc).flatten ++ lit "\"") := by
  simp only [ColumnPrinter.printRow, hpresent, readAt, hlength]
  rw [forRange_separated (stringBody start rowId)
    (fun j => (readPayload start rowId j).map specEsc) [] 0 len
    (fun buf => stringBody_item start rowId 0 buf)
    (fun i buf _ => by rw [stringBody_item]; simp)]
  rw [renderAll_payload_range start rowId payload specEsc hstart len hlen]
  simp [Except.map, writeChar, joined_empty_sep, lit, ofChars]

theorem binaryText (ch : Byte) : int64Text (charToInt ch % 256) = natText ch.val := by
  have h : charToInt ch % 256 = (ch.val : Int) := by
    unfold charToInt
    have := ch.isLt
    split <;> omega
  rw [h]
  unfold int64Text
  rw [if_neg (by omega)]
  simp

theorem binaryBody_first (start : List (List Byte)) (rowId : Nat) (buf : Buffer) :
    binaryBody start rowId 0 buf
      = ((readPayload start rowId 0).map (fun b => natText b.val)).map (fun x => buf ++ x) := by
  unfold binaryBody
  simp only [ne_eq, not_true_eq_false, if_false]
  cases h : readPayload start rowId 0 with
  | error e => rfl
  | ok ch =>
    simp only [Except.map, binaryText]
    rw [writeString_of_no_nul _ _ (natText_no_nul _)]

theorem binaryBody_next (start : List (List Byte)) (rowId : Nat) (i : Int) (buf : Buffer)
    (hi : i ≠ 0) :
    binaryBody start rowId i buf
      = ((readPayload start rowId i).map (fun b => natText b.val)).map
          (fun x => buf ++ lit ", " ++ x) := by
  unfold binaryBody
  simp only [ne_eq, hi, not_false_eq_true, if_true, writeString_sep]
  cases h : readPayload start rowId i with
  | error e => rfl
  | ok ch =>
    simp only [Except.map, binaryText]
    rw [writeString_of_no_nul _ _ (natText_no_nul _)]

/-- C8: a present row of a binary printer renders `[`, the decimal texts of
the `length[r]` payload bytes as unsigned values 0..255 in order joined by
`, `, and `]`; an empty payload renders `[]`. -/
theorem binary_row_renders_unsigned_bytes (env : Env) (base : PrinterBase)
    (start : List (List Byte)) (length : List Int) (rowId : Nat) (buffer : Buffer)
    (payload : List Byte) (len : Int)
    (hpresent : isNullRow base rowId = .ok false)
    (hlength : length[rowId]? = some len)
    (hstart : start[rowId]? = some payload)
    (hlen : len ≤ payload.length) :
    (ColumnPrinter.binary base start length).printRow env rowId buffer
        = .ok (buffer ++ lit "[" ++
            joined (lit ", ") ((payload.take len.toNat).map (fun b => natText b.val)) ++ lit "]")
      ∧ (len = 0 →
          (ColumnPrinter.binary base start length).printRow env rowId buffer
            = .ok (buffer ++ lit "[]")) := by
  have hmain : (ColumnPrinter.binary base start length).printRow env rowId buffer
        = .ok (buffer ++ lit "[" ++
            joined (lit ", ") ((payload.take len.toNat).map (fun b => natText b.val)) ++ lit "]") := by
    simp only [ColumnPrinter.printRow, hpresent, readAt, hlength]
    rw [forRange_separated (binaryBody start rowId)
      (fun j => (readPayload start rowId j).map (fun b => natText b.val)) (lit ", ") 0 len
      (fun buf => binaryBody_first start rowId buf)
      (fun i buf hi => binaryBody_next start rowId i buf hi)]
    rw [renderAll_payload_range start rowId payload _ hstart len hlen]
    simp [Except.map, writeChar, lit, ofChars]
  refine ⟨hmain, ?_⟩
  intro h0
  rw [hmain, h0]
  simp [joined, List.intercalate, lit, ofChars]

/-- C3, amended: a present row of a struct printer renders the opening brace,
for each field in schema order the item made of the quoted field name (the
name as a C string, that is up to its first NUL byte), `: ` and the fragment
of the field printer at the same row, the items joined by `, `, and the
closing brace; without fields the row is the two braces. -/
theorem struct_row_renders_fields (env : Env) (base : PrinterBase)
    (fieldPrinter : List ColumnPrinter) (rowId : Nat) (buffer : Buffer)
    (names : List (List Byte)) (frags : List Buffer)
    (hpresent : isNullRow base rowId = .ok false)
    (hnames : List.Forall₂ (fun (k : Nat) name => base.type.getFieldName k = some name)
      (List.range fieldPrinter.length) names)
    (hfrags : List.Forall₂ (fun p frag => p.printRow env rowId [] = .ok frag)
      fieldPrinter frags) :
    (ColumnPrinter.struct base fieldPrinter).printRow env rowId buffer
      = .ok (buffer ++ lit "\x7b" ++ joined (lit ", ") (List.zipWith structItem names frags)
          ++ lit "\x7d") := by
  simp only [ColumnPrinter.printRow, hpresent]
  rw [printFields_head env base.type rowId fieldPrinter names frags _ hfrags hnames]
  simp [writeChar, lit, ofChars]

/-! ## The claims at concrete rows -/

/-- Witness of C1: a union printer without children, reset on a union batch
whose arrays are all empty but whose row 0 is marked absent, prints `null`. -/
theorem null_row_renders_null_witness :
    (ColumnPrinter.union (PrinterBase.init (.mk .UNION [] [] 0 0)) [] [] []).reset
        (.union { numElements := 1, hasNulls := true, notNull := [false] } [] [] [])
      = .ok (.union { type := .mk .UNION [] [] 0 0, hasNulls := true, notNull := some [false] }
          [] [] [])
    ∧ (ColumnPrinter.union
          { type := .mk .UNION [] [] 0 0, hasNulls := true, notNull := some [false] }
          [] [] []).printRow utcEnv 0 (lit "x") = .ok (lit "x" ++ lit "null") :=
  ⟨rfl, null_row_renders_null utcEnv
    (ColumnPrinter.union (PrinterBase.init (.mk .UNION [] [] 0 0)) [] [] []) _
    (.union { numElements := 1, hasNulls := true, notNull := [false] } [] [] []) 0 (lit "x")
    rfl rfl rfl⟩

/-- C2, at the failing input: for the minimum value and scale 2 the source
function returns a text with two minus signs, the Decimal Codec of the
specification the text with one. -/
theorem toDecimalString_min_value_differs :
    toDecimalString (-(2 ^ 63)) 2 = .ok (lit "--92233720368547758.08")
    ∧ specDecimal (-(2 ^ 63)) 2 = lit "-92233720368547758.08"
    ∧ toDecimalString (-(2 ^ 63)) 2 ≠ .ok (specDecimal (-(2 ^ 63)) 2) := by
  decide

/-- Counterexample to C3 as stated: a struct with the single `int` field named
`a`, NUL, `b` and the value 5 renders with the name `a` only, not with the
three bytes of the field name. -/
theorem struct_field_name_stops_at_nul :
    renderRow utcEnv (.mk .STRUCT [intType] [[97, 0, 98]] 0 0)
        (.struct (noNulls 1) [.long (noNulls 1) [5]]) 0
      = .ok (lit "\x7b\"a\": 5\x7d")
    ∧ renderRow utcEnv intType (.long (noNulls 1) [5]) 0 = .ok (lit "5")
    ∧ renderRow utcEnv (.mk .STRUCT [intType] [[97, 0, 98]] 0 0)
        (.struct (noNulls 1) [.long (noNulls 1) [5]]) 0
      ≠ .ok (specStructRow [[97, 0, 98]] [lit "5"]) := by
  decide

/-- Witness of C3, amended: `struct{a: int, b: string}` with `a = 5`,
`b = "hi"`. -/
theorem struct_row_renders_fields_witness :
    (ColumnPrinter.struct
        (boundBase (.mk .STRUCT [intType, stringType] [lit "a", lit "b"] 0 0))
        [boundLong [5], boundString [lit "hi"]]).printRow utcEnv 0 []
      = .ok ([] ++ lit "\x7b"
          ++ joined (lit ", ") (List.zipWith structItem [lit "a", lit "b"] [lit "5", lit "\"hi\""])
          ++ lit "\x7d")
    ∧ [] ++ lit "\x7b"
          ++ joined (lit ", ") (List.zipWith structItem [lit "a", lit "b"] [lit "5", lit "\"hi\""])
          ++ lit "\x7d"
      = lit "\x7b\"a\": 5, \"b\": \"hi\"\x7d" :=
  ⟨struct_row_renders_fields utcEnv
      (boundBase (.mk .STRUCT [intType, stringType] [lit "a", lit "b"] 0 0))
      [boundLong [5], boundString [lit "hi"]] 0 [] [lit "a", lit "b"] [lit "5", lit "\"hi\""]
      rfl (.cons rfl (.cons rfl .nil)) (.cons (by decide) (.cons (by decide) .nil)),
    by decide⟩

/-- Witness of C4: offsets `[0, 3]` over the integer elements `[1, 2, 3]`. -/
theorem list_row_renders_elements_witness :
    (ColumnPrinter.list (boundBase (.mk .LIST [intType] [] 0 0)) [0, 3]
        (boundLong [1, 2, 3])).printRow utcEnv 0 []
      = .ok (lit "[1, 2, 3]") := by
  have h := (list_row_renders_elements utcEnv (boundBase (.mk .LIST [intType] [] 0 0)) [0, 3]
    (boundLong [1, 2, 3]) 0 [] 0 3 rfl (by decide) rfl rfl).1
  rw [h]
  decide

/-- Witness of C5: `map<int,int>` with offsets `[0, 2]`, keys `[1, 2]` and
values `[10, 20]`. -/
theorem map_row_renders_entries_witness :
    (ColumnPrinter.map (boundBase (.mk .MAP [intType, intType] [] 0 0)) [0, 2]
        (boundLong [1, 2]) (boundLong [10, 20])).printRow utcEnv 0 []
      = .ok (lit "[\x7b\"key\": 1, \"value\": 10\x7d, \x7b\"key\": 2, \"value\": 20\x7d]") := by
  have h := (map_row_renders_entries utcEnv (boundBase (.mk .MAP [intType, intType] [] 0 0))
    [0, 2] (boundLong [1, 2]) (boundLong [10, 20]) 0 [] 0 2 rfl (by decide) rfl rfl).1
  rw [h]
  decide

/-- Witness of C6: tag 1 over the subtypes `[int, string]` with offset 4. -/
theorem union_row_renders_tagged_child_witness :
    (ColumnPrinter.union (boundBase (.mk .UNION [intType, stringType] [] 0 0)) [1] [4]
        [boundLong [], boundString [[], [], [], [], lit "hi"]]).printRow utcEnv 0 []
      = .ok (lit "\x7b\"tag\": 1, \"value\": \"hi\"\x7d") := by
  have h := union_row_renders_tagged_child utcEnv
    (boundBase (.mk .UNION [intType, stringType] [] 0 0)) [1] [4]
    [boundLong [], boundString [[], [], [], [], lit "hi"]] 0 [] 1 4
    (boundString [[], [], [], [], lit "hi"]) rfl rfl rfl rfl
  rw [h]
  decide

/-- Witness of C7: the payload backslash, NUL, `a`, 0x80, double quote. -/
theorem string_row_renders_escaped_witness :
    (boundString [[0x5C, 0x00, 0x61, 0x80, 0x22]]).printRow utcEnv 0 []
      = .ok [0x22, 0x5C, 0x5C, 0x00, 0x61, 0x80, 0x5C, 0x22, 0x22] := by
  have h := string_row_renders_escaped utcEnv (boundBase stringType)
    [[0x5C, 0x00, 0x61, 0x80, 0x22]] [5] 0 [] [0x5C, 0x00, 0x61, 0x80, 0x22] 5
    rfl rfl rfl (by decide)
  exact h.trans (by decide)

/-- Witness of C8: the payload bytes 1, 200 and 255. -/
theorem binary_row_renders_unsigned_bytes_witness :
    (ColumnPrinter.binary (boundBase (.mk .BINARY [] [] 0 0)) [[1, 200, 255]] [3]).printRow
        utcEnv 0 []
      = .ok (lit "[1, 200, 255]") := by
  have h := (binary_row_renders_unsigned_bytes utcEnv (boundBase (.mk .BINARY [] [] 0 0))
    [[1, 200, 255]] [3] 0 [] [1, 200, 255] 3 rfl rfl rfl (by decide)).1
  exact h.trans (by decide)

/-! ## Rows of timestamps -/

theorem zeroPadded_no_nul (width v : Int) : ∀ b ∈ zeroPadded width v, b ≠ 0 := by
  intro b hb
  have hsign : ∀ b ∈ (if v < 0 then lit "-" else []), b ≠ 0 := by
    intro b hb
    split at hb
    · have : b = Byte.ofChar '-' := by simpa [lit, ofChars] using hb
      rw [this]; decide
    · simp at hb
  unfold zeroPadded at hb
  simp only [] at hb
  split at hb
  · simp only [List.mem_append, List.mem_replicate] at hb
    rcases hb with (h | h) | h
    · exact hsign b h
    · exact natText_no_nul _ b h
    · rw [h.2]; decide
  · simp only [List.mem_append, List.mem_replicate] at hb
    rcases hb with (h | h) | h
    · exact hsign b h
    · rw [h.2]; decide
    · exact natText_no_nul _ b h

theorem fractionText_no_nul (nanos : Int) (digits : List Byte)
    (h : fractionText nanos = some digits) : ∀ b ∈ digits, b ≠ 0 := by
  unfold fractionText at h
  split at h
  · cases h
  · cases h
    exact zeroPadded_no_nul _ _

set_option maxRecDepth 100000 in
/-- C9: the digits a present timestamp row gets after the `.` are the
nine-digit zero-padded text of the nanoseconds `printRow` holds, without
trailing zeros, and the single digit `0` for no nanoseconds; they are never
empty.  Here for a row with the stored value `t`, whatever text the C library
gives for the seconds. -/
theorem timestamp_fraction_is_trimmed (env : Env) (base : PrinterBase) (data : List Int)
    (epoch : Int) (rowId : Nat) (buffer : Buffer) (t : Int) (timeBuffer : List Byte)
    (hpresent : isNullRow base rowId = .ok false)
    (hdata : data[rowId]? = some t)
    (htime : env.localtimeText (timestampSplit epoch t).1 = some timeBuffer) :
    (ColumnPrinter.timestamp base data epoch).printRow env rowId buffer
        = .ok (buffer ++ lit "\"" ++ cString timeBuffer ++ lit "."
            ++ specFraction (timestampSplit epoch t).2.toNat ++ lit "\"")
      ∧ specFraction (timestampSplit epoch t).2.toNat ≠ []
      ∧ specFraction 0 = lit "0"
      ∧ specFraction 500000000 = lit "5"
      ∧ specFraction 123000000 = lit "123"
      ∧ specFraction 1000 = lit "000001" := by
  obtain ⟨n, hn9, hn⟩ := timestampSplit_nanos epoch t
  have hfrac : fractionText (timestampSplit epoch t).2 = some (specFraction n) := by
    rw [hn]; exact fractionText_eq_spec n hn9
  have hnul : ∀ b ∈ specFraction n ++ lit "\"", b ≠ 0 := by
    intro b hb
    rcases List.mem_append.mp hb with h | h
    · exact fractionText_no_nul _ _ hfrac b h
    · have : b = Byte.ofChar '"' := by simpa [lit, ofChars] using h
      rw [this]; decide
  have htoNat : (timestampSplit epoch t).2.toNat = n := by rw [hn]; simp
  refine ⟨?_, ?_, by decide, by decide, by decide, by decide⟩
  · simp only [ColumnPrinter.printRow, hpresent, readAt, hdata, htime, hfrac, htoNat]
    rw [writeString_of_no_nul _ _ hnul]
    simp [writeString, writeChar, lit, ofChars]
  · rw [htoNat]; exact specFraction_ne_nil n hn9

set_option maxRecDepth 100000 in
/-- Witness of C9: the stored value 1000 nanoseconds on a host in the UTC
time zone. -/
theorem timestamp_fraction_is_trimmed_witness :
    (ColumnPrinter.timestamp (boundBase (.mk .TIMESTAMP [] [] 0 0)) [1000] 0).printRow utcEnv 0 []
      = .ok (lit "\"1970-01-01 00:00:00.000001\"") := by
  have h := (timestamp_fraction_is_trimmed utcEnv (boundBase (.mk .TIMESTAMP [] [] 0 0)) [1000]
    0 0 [] 1000 (lit "1970-01-01 00:00:00") rfl rfl (by decide)).1
  exact h.trans (by decide)

set_option maxRecDepth 100000 in
/-- C10, at the failing input: for the stored value of one nanosecond before
the epoch `printRow` keeps the seconds `-1` and the nanoseconds `1`, which do
not add up to the stored value; borrowing one second asks for the
nanoseconds `999999999`. -/
theorem timestampSplit_negative_remainder :
    timestampSplit 0 (-1) = (-1, 1)
    ∧ (timestampSplit 0 (-1)).1 * 10 ^ 9 + (timestampSplit 0 (-1)).2 ≠ -1
    ∧ (timestampSplit 0 (-1)).1 * 10 ^ 9 + 999999999 = -1
    ∧ (ColumnPrinter.timestamp (boundBase (.mk .TIMESTAMP [] [] 0 0)) [-1] 0).printRow utcEnv 0 []
        = .ok (lit "\"1969-12-31 23:59:59.000000001\"") := by
  decide

/-! ## The decimal codec away from the minimum value -/

theorem natText_length_le (n : Nat) (h : n < 10 ^ 19) : (natText n).length ≤ 19 := by
  unfold natText ofChars Nat.toDigits
  rw [List.length_map]
  exact Nat.toDigitsCore_length 10 (by decide) (n + 1) n 19 h (by decide)

theorem appendZeros_eq (n : Nat) : ∀ result : List Byte,
    appendZeros n result = result ++ List.replicate n (Byte.ofChar '0') := by
  induction n with
  | zero => intro result; simp [appendZeros]
  | succ n ih =>
    intro result
    rw [appendZeros, ih, List.replicate_succ, List.append_assoc]
    rfl

theorem int64Text_of_nonneg (v : Int) (h : 0 ≤ v) : int64Text v = natText v.natAbs := by
  unfold int64Text
  rw [if_neg (by omega)]

/-- Away from the minimum value, and for a scale that is an `int32_t`, the
source function is the Decimal Codec of the specification. -/
theorem toDecimalString_eq_specDecimal (v : Int) (scale : Nat)
    (hmin : -(2 ^ 63) < v) (hmax : v < 2 ^ 63) (hscale : (scale : Int) < 2 ^ 31) :
    toDecimalString v scale = .ok (specDecimal v scale) := by
  have habs : v.natAbs < 10 ^ 19 := by omega
  have hlen := natText_length_le v.natAbs habs
  have hpos := natText_length_pos v.natAbs
  by_cases h0 : scale = 0
  · subst h0
    unfold toDecimalString
    rw [if_pos (by simp)]
    unfold specDecimal int64Text
    rw [if_pos rfl]
    split <;> rfl
  · have hs0 : (scale : Int) ≠ 0 := by exact_mod_cast h0
    have hvalue : (if v < 0 then wrapInt64 (-v) else v) = (v.natAbs : Int) := by
      split
      · unfold wrapInt64; omega
      · omega
    have htext : int64Text (v.natAbs : Int) = natText v.natAbs := by
      rw [int64Text_of_nonneg _ (by omega), Int.natAbs_ofNat]
    unfold toDecimalString specDecimal
    simp only [hs0, h0, if_false, hvalue, htext]
    by_cases hgt : (natText v.natAbs).length > scale
    · have hgt2 : ((natText v.natAbs).length : Int) > (scale : Int) := by exact_mod_cast hgt
      have hw : toUInt64 (wrapInt32 (((natText v.natAbs).length : Int) - (scale : Int)))
          = (natText v.natAbs).length - scale := by
        unfold toUInt64 wrapInt32; omega
      have hsc : toUInt64 (scale : Int) = scale := by
        unfold toUInt64; omega
      simp only [hgt2, hgt, if_true, hw, hsc, substr]
      rw [if_neg (by omega), if_neg (by omega)]
      simp only [List.drop_zero]
      rw [List.take_of_length_le (l := List.drop _ _) (by rw [List.length_drop]; omega)]
      rfl
    · have hgt2 : ¬ ((natText v.natAbs).length : Int) > (scale : Int) := by
        intro h; exact hgt (by exact_mod_cast h)
      simp only [hgt2, hgt, if_false]
      by_cases heq : (natText v.natAbs).length = scale
      · have heq2 : ((natText v.natAbs).length : Int) = (scale : Int) := by exact_mod_cast heq
        simp only [heq2, heq, if_true]
        rfl
      · have heq2 : ¬ ((natText v.natAbs).length : Int) = (scale : Int) := by
          intro h; exact heq (by exact_mod_cast h)
        have hw : (wrapInt32 ((scale : Int) - ((natText v.natAbs).length : Int))).toNat
            = scale - (natText v.natAbs).length := by
          unfold wrapInt32; omega
        simp only [heq2, heq, if_false, hw, appendZeros_eq]
        simp [lit, ofChars]

/-! ## Rows of integers, booleans and 64-bit decimals -/

theorem stripTrailingZeros_spec (n : Nat) (h9 : n < 10 ^ 9) :
    ∃ m k : Nat, stripTrailingZeros (n : Int) = some ((m : Int), (k : Int)) ∧ k ≤ 8
      ∧ n = m * 10 ^ k ∧ (n ≠ 0 → m % 10 ≠ 0) ∧ (n = 0 → k = 8) := by
  rcases Nat.eq_zero_or_pos n with h0 | h0
  · subst h0
    exact ⟨0, 8, by decide, le_refl _, by simp, fun h => absurd rfl h, fun _ => rfl⟩
  · obtain ⟨m, k, hs, hn, hm⟩ := stripLoop_spec STRIP_FUEL n 0 h0
      (lt_of_lt_of_le h9 (by unfold STRIP_FUEL; norm_num))
    have hm0 : 0 < m := by omega
    have hk : k ≤ 8 := by
      by_contra hk
      have : 10 ^ 9 ≤ 10 ^ k := Nat.pow_le_pow_right (by decide) (by omega)
      have : 10 ^ k ≤ n := by rw [hn]; exact Nat.le_mul_of_pos_left _ hm0
      omega
    have hne : (n : Int) ≠ 0 := by exact_mod_cast (by omega : n ≠ 0)
    refine ⟨m, k, ?_, hk, hn, fun _ => hm, fun h => by omega⟩
    simp only [stripTrailingZeros, hne, if_false, hs, zero_add]

/-- C11: for every stored value `t` the nanoseconds that `printRow` formats
lie in `[0, 10^9)`, the stripping of zeros ends, and the field width
`NANO_DIGITS - zeroDigits` it passes to `snprintf` lies between 1 and 9. -/
theorem timestamp_nanos_in_range (epoch t : Int) :
    0 ≤ (timestampSplit epoch t).2 ∧ (timestampSplit epoch t).2 < 10 ^ 9
      ∧ ∃ nanos zeroDigits : Int,
          stripTrailingZeros (timestampSplit epoch t).2 = some (nanos, zeroDigits)
          ∧ 1 ≤ wrapInt32 (NANO_DIGITS - zeroDigits)
          ∧ wrapInt32 (NANO_DIGITS - zeroDigits) ≤ 9 := by
  obtain ⟨n, hn9, hn⟩ := timestampSplit_nanos epoch t
  obtain ⟨m, k, hs, hk, -, -, -⟩ := stripTrailingZeros_spec n hn9
  rw [hn]
  refine ⟨by omega, by exact_mod_cast hn9, (m : Int), (k : Int), hs, ?_, ?_⟩ <;>
    (unfold wrapInt32 NANO_DIGITS; omega)

theorem isNullRow_reset_present (base : PrinterBase) (bb : BatchBase) (rowId : Nat)
    (h : bb.hasNulls = false ∨ bb.notNull[rowId]? = some true) :
    isNullRow (base.reset bb) rowId = .ok false := by
  unfold isNullRow PrinterBase.reset
  cases hn : bb.hasNulls with
  | false => simp
  | true =>
    rcases h with h | h
    · rw [hn] at h; cases h
    · simp [h]

theorem toDecimalString_no_nul (v scale : Int) (text : List Byte)
    (h : toDecimalString v scale = .ok text) : ∀ b ∈ text, b ≠ 0 := by
  have hsign : ∀ b ∈ (if v < 0 then lit "-" else lit ""), b ≠ 0 := by
    intro b hb
    split at hb
    · have : b = Byte.ofChar '-' := by simpa [lit, ofChars] using hb
      rw [this]; decide
    · simp [lit, ofChars] at hb
  have hdot : ∀ b ∈ lit ".", b ≠ 0 := by
    intro b hb
    have : b = Byte.ofChar '.' := by simpa [lit, ofChars] using hb
    rw [this]; decide
  have hzero : ∀ b ∈ lit "0.", b ≠ 0 := by
    intro b hb
    have : b = Byte.ofChar '0' ∨ b = Byte.ofChar '.' := by simpa [lit, ofChars] using hb
    rcases this with h | h <;> (rw [h]; decide)
  unfold toDecimalString at h
  by_cases hs : scale = 0
  · rw [if_pos hs] at h
    cases h
    exact int64Text_no_nul _
  · rw [if_neg hs] at h
    simp only [] at h
    have hstr := int64Text_no_nul (if v < 0 then wrapInt64 (-v) else v)
    generalize int64Text (if v < 0 then wrapInt64 (-v) else v) = str at h hstr
    generalize (if v < 0 then lit "-" else lit "") = sign at h hsign
    by_cases h1 : (str.length : Int) > scale
    · rw [if_pos h1] at h
      unfold substr at h
      rw [if_neg (Nat.not_lt_zero _)] at h
      simp only [] at h
      split at h
      · cases h
      · rename_i fracPart hf
        split at hf
        · cases hf
        · cases hf
          cases h
          intro b hb
          simp only [List.mem_append] at hb
          rcases hb with ((hb | hb) | hb) | hb
          · exact hsign b hb
          · exact hstr b (List.mem_of_mem_drop (List.mem_of_mem_take hb))
          · exact hdot b hb
          · exact hstr b (List.mem_of_mem_drop (List.mem_of_mem_take hb))
    · rw [if_neg h1] at h
      by_cases h2 : (str.length : Int) = scale
      · rw [if_pos h2] at h
        cases h
        intro b hb
        simp only [List.mem_append] at hb
        rcases hb with (hb | hb) | hb
        · exact hsign b hb
        · exact hzero b hb
        · exact hstr b hb
      · rw [if_neg h2] at h
        cases h
        intro b hb
        rw [appendZeros_eq] at hb
        simp only [List.mem_append, List.mem_replicate] at hb
        rcases hb with ((hb | hb) | hb) | hb
        · exact hsign b hb
        · exact hzero b hb
        · rw [hb.2]; decide
        · exact hstr b hb

theorem toDigitsCore_forall (P : Char → Prop) (hP : ∀ d, d < 10 → P (Nat.digitChar d))
    (fuel : Nat) : ∀ (n : Nat) (ds : List Char),
    (∀ c ∈ ds, P c) → ∀ c ∈ Nat.toDigitsCore 10 fuel n ds, P c := by
  induction fuel with
  | zero => intro n ds h; simpa [Nat.toDigitsCore] using h
  | succ fuel ih =>
    intro n ds h
    have hd : ∀ c ∈ Nat.digitChar (n % 10) :: ds, P c := by
      intro c hc
      rcases List.mem_cons.mp hc with rfl | hc
      · exact hP _ (Nat.mod_lt _ (by decide))
      · exact h c hc
    simp only [Nat.toDigitsCore]
    split
    · exact hd
    · exact ih _ _ hd

theorem natText_digits (n : Nat) : ∀ b ∈ natText n, 0x30 ≤ b.val ∧ b.val ≤ 0x39 := by
  intro b hb
  unfold natText ofChars at hb
  rcases List.mem_map.mp hb with ⟨c, hc, rfl⟩
  refine toDigitsCore_forall (fun c => 0x30 ≤ (Byte.ofChar c).val ∧ (Byte.ofChar c).val ≤ 0x39)
    ?_ _ _ _ (by simp) c hc
  intro d hd
  interval_cases d <;> decide

theorem digitValue_digitChar (d : Nat) (h : d < 10) :
    digitValue (Byte.ofChar (Nat.digitChar d)) = some d := by
  interval_cases d <;> decide

theorem foldl_parseStep_natText (n : Nat) :
    (natText n).foldl parseStep (some 0) = some n := by
  induction n using Nat.strong_induction_on with
  | _ n ih =>
    by_cases h : n < 10
    · rw [natText_lt_ten n h]
      simp [parseStep, digitValue_digitChar n h]
    · rw [natText_ge_ten n (by omega), List.foldl_append, ih (n / 10) (by omega)]
      simp only [List.foldl_cons, List.foldl_nil, parseStep,
        digitValue_digitChar _ (Nat.mod_lt n (by decide : 0 < 10))]
      congr 1
      omega

theorem parseNat_natText (n : Nat) : parseNat (natText n) = some n := by
  unfold parseNat
  rw [if_neg (by
    intro h
    have := natText_length_pos n
    rw [h] at this
    simp at this)]
  exact foldl_parseStep_natText n

theorem natText_head_ne_zero (n : Nat) (hn : n ≠ 0) : (natText n).head? ≠ some 0x30 := by
  induction n using Nat.strong_induction_on with
  | _ n ih =>
    by_cases h : n < 10
    · rw [natText_lt_ten n h]
      simp only [List.head?_cons, ne_eq, Option.some.injEq]
      interval_cases n <;> first | (exact absurd rfl hn) | decide
    · rw [natText_ge_ten n (by omega)]
      have hlen := natText_length_pos (n / 10)
      cases hfront : natText (n / 10) with
      | nil => rw [hfront] at hlen; simp at hlen
      | cons b rest =>
        have := ih (n / 10) (by omega) (by omega)
        rw [hfront] at this
        simpa using this

theorem parseInt_int64Text (x : Int) : parseInt (int64Text x) = some x := by
  unfold int64Text
  split
  · rename_i hneg
    have : lit "-" ++ natText x.natAbs = (0x2D : Byte) :: natText x.natAbs := rfl
    rw [this]
    simp only [parseInt, if_true, parseNat_natText, Option.map_some']
    exact congrArg some (by omega)
  · rename_i hneg
    have hlen := natText_length_pos x.natAbs
    cases htext : natText x.natAbs with
    | nil => rw [htext] at hlen; simp at hlen
    | cons b rest =>
      have hb := natText_digits x.natAbs b (by rw [htext]; simp)
      have hne : b ≠ 0x2D := by
        intro h
        rw [h] at hb
        revert hb
        decide
      simp only [parseInt, hne, if_false]
      rw [← htext, parseNat_natText]
      simp only [Option.map_some']
      exact congrArg some (by omega)

theorem int64Text_canonical (x : Int) : isCanonicalDecimal (int64Text x) x := by
  refine ⟨natText x.natAbs, ?_, ?_, natText_digits _, ?_⟩
  · unfold int64Text
    split <;> rfl
  · intro h
    have := natText_length_pos x.natAbs
    rw [h] at this
    simp at this
  · intro h
    by_cases h0 : x.natAbs = 0
    · rw [h0]; decide
    · exact absurd h (natText_head_ne_zero _ h0)

/-- C12: a 64-bit decimal printer that `reset` binds to a decimal64 batch
renders a present row `r` as `toDecimalString(values[r], scale)` with the
scale of that batch, whatever scale the printer held before and whatever the
type node says (and fails as `toDecimalString` does). -/
theorem decimal64_row_uses_batch_scale (env : Env) (base : PrinterBase) (data : List Int)
    (oldScale : Int) (bb : BatchBase) (values : List Int) (scale : Int) (rowId : Nat)
    (buffer : Buffer) (v : Int)
    (hpresent : bb.hasNulls = false ∨ bb.notNull[rowId]? = some true)
    (hvalue : values[rowId]? = some v) :
    ∃ bound, (ColumnPrinter.decimal64 base data oldScale).reset (.decimal64 bb values scale)
        = .ok bound
      ∧ bound.printRow env rowId buffer
        = (toDecimalString v scale).map (fun text => buffer ++ text) := by
  refine ⟨.decimal64 (base.reset bb) values scale, rfl, ?_⟩
  simp only [ColumnPrinter.printRow, isNullRow_reset_present base bb rowId hpresent, readAt,
    hvalue]
  cases h : toDecimalString v scale with
  | error e => rfl
  | ok text =>
    simp only [Except.map]
    rw [writeString_of_no_nul _ _ (toDecimalString_no_nul v scale text h)]

/-- Witness of C12: scale 2 and the value -123. -/
theorem decimal64_row_uses_batch_scale_witness :
    ∃ bound, (ColumnPrinter.decimal64 (PrinterBase.init (.mk .DECIMAL [] [] 10 7)) [] 0).reset
        (.decimal64 (noNulls 1) [-123] 2) = .ok bound
      ∧ bound.printRow utcEnv 0 [] = .ok (lit "-1.23") := by
  obtain ⟨bound, hreset, hprint⟩ := decimal64_row_uses_batch_scale utcEnv
    (PrinterBase.init (.mk .DECIMAL [] [] 10 7)) [] 0 (noNulls 1) [-123] 2 0 [] (-123)
    (Or.inl rfl) (by decide)
  exact ⟨bound, hreset, hprint.trans (by decide)⟩

/-- C13: a present row of an integer printer holding `x` renders the decimal
text of `x`; that text is canonical (a `-` for negative values only, digits
without a leading zero unless the only digit, no `+`), and reading it back as
a decimal integer gives `x`. -/
theorem long_row_renders_decimal (env : Env) (base : PrinterBase) (data : List Int)
    (rowId : Nat) (buffer : Buffer) (x : Int)
    (hpresent : isNullRow base rowId = .ok false)
    (hdata : data[rowId]? = some x) :
    (ColumnPrinter.long base data).printRow env rowId buffer = .ok (buffer ++ int64Text x)
      ∧ isCanonicalDecimal (int64Text x) x
      ∧ parseInt (int64Text x) = some x := by
  refine ⟨?_, int64Text_canonical x, parseInt_int64Text x⟩
  simp only [ColumnPrinter.printRow, hpresent, readAt, hdata]
  rw [writeString_of_no_nul _ _ (int64Text_no_nul x)]

/-- Witness of C13: the minimum value of `int64_t`. -/
theorem long_row_renders_decimal_witness :
    (boundLong [-(2 ^ 63)]).printRow utcEnv 0 [] = .ok (lit "-9223372036854775808")
      ∧ parseInt (lit "-9223372036854775808") = some (-(2 ^ 63)) := by
  have h := long_row_renders_decimal utcEnv (boundBase intType) [-(2 ^ 63)] 0 [] (-(2 ^ 63))
    rfl (by decide)
  exact ⟨h.1.trans (by decide), by decide⟩

/-- C14: a present row of a boolean printer renders `true` when the stored
integer is not zero and `false` when it is zero, and nothing else. -/
theorem boolean_row_renders_truth (env : Env) (base : PrinterBase) (data : List Int)
    (rowId : Nat) (buffer : Buffer) (v : Int)
    (hpresent : isNullRow base rowId = .ok false)
    (hdata : data[rowId]? = some v) :
    (ColumnPrinter.boolean base data).printRow env rowId buffer
      = .ok (buffer ++ (if v ≠ 0 then lit "true" else lit "false")) := by
  simp only [ColumnPrinter.printRow, hpresent, readAt, hdata]
  split
  · rw [show writeString buffer (lit "true") = buffer ++ lit "true" from by
      unfold writeString; rw [show cString (lit "true") = lit "true" from by decide]]
  · rw [show writeString buffer (lit "false") = buffer ++ lit "false" from by
      unfold writeString; rw [show cString (lit "false") = lit "false" from by decide]]

/-- Witness of C14: the stored values -7 and 0. -/
theorem boolean_row_renders_truth_witness :
    (ColumnPrinter.boolean (boundBase (.mk .BOOLEAN [] [] 0 0)) [-7, 0]).printRow utcEnv 0 []
        = .ok (lit "true")
      ∧ (ColumnPrinter.boolean (boundBase (.mk .BOOLEAN [] [] 0 0)) [-7, 0]).printRow utcEnv 1
          (lit "x") = .ok (lit "xfalse") :=
  ⟨(boolean_row_renders_truth utcEnv (boundBase (.mk .BOOLEAN [] [] 0 0)) [-7, 0] 0 [] (-7)
      rfl (by decide)).trans (by decide),
    (boolean_row_renders_truth utcEnv (boundBase (.mk .BOOLEAN [] [] 0 0)) [-7, 0] 1 (lit "x") 0
      rfl (by decide)).trans (by decide)⟩

/-! ## The factory -/

mutual
theorem createColumnPrinter_spec (env : Env) : ∀ (t : OrcType), t.arityOk = true →
    (t.hasUnknownKind = true → createColumnPrinter env t = .error .logicError)
    ∧ (t.hasUnknownKind = false → ∃ p, createColumnPrinter env t = .ok p)
  | .mk kind subtypes fieldNames precision scale, harity => by
    cases kind
    case LIST =>
      cases subtypes with
      | nil => simp [OrcType.arityOk] at harity
      | cons elem rest =>
        simp only [OrcType.arityOk] at harity
        have ih := createColumnPrinter_spec env elem harity
        simp only [OrcType.hasUnknownKind, createColumnPrinter]
        constructor
        · intro h; rw [ih.1 h]
        · intro h; obtain ⟨p, hp⟩ := ih.2 h; rw [hp]; exact ⟨_, rfl⟩
    case MAP =>
      cases subtypes with
      | nil => simp [OrcType.arityOk] at harity
      | cons key rest =>
        cases rest with
        | nil => simp [OrcType.arityOk] at harity
        | cons elem rest =>
          simp only [OrcType.arityOk, Bool.and_eq_true] at harity
          have ihk := createColumnPrinter_spec env key harity.1
          have ihe := createColumnPrinter_spec env elem harity.2
          simp only [OrcType.hasUnknownKind, createColumnPrinter, Bool.or_eq_true,
            Bool.or_eq_false_iff]
          constructor
          · intro h
            cases hk : key.hasUnknownKind with
            | true => rw [ihk.1 hk]
            | false =>
              obtain ⟨p, hp⟩ := ihk.2 hk
              rw [hp]
              have he : elem.hasUnknownKind = true := by
                rcases h with h | h
                · rw [hk] at h; cases h
                · exact h
              simp only [ihe.1 he]
          · intro h
            obtain ⟨p, hp⟩ := ihk.2 h.1
            obtain ⟨q, hq⟩ := ihe.2 h.2
            rw [hp]
            simp only [hq]
            exact ⟨_, rfl⟩
    case STRUCT =>
      simp only [OrcType.arityOk] at harity
      have ih := createFieldPrinters_spec env subtypes harity
      simp only [OrcType.hasUnknownKind, createColumnPrinter]
      constructor
      · intro h; rw [ih.1 h]
      · intro h; obtain ⟨ps, hps⟩ := ih.2 h; rw [hps]; exact ⟨_, rfl⟩
    case UNION =>
      simp only [OrcType.arityOk] at harity
      have ih := createFieldPrinters_spec env subtypes harity
      simp only [OrcType.hasUnknownKind, createColumnPrinter]
      constructor
      · intro h; rw [ih.1 h]
      · intro h; obtain ⟨ps, hps⟩ := ih.2 h; rw [hps]; exact ⟨_, rfl⟩
    case DECIMAL =>
      refine ⟨fun h => ?_, fun _ => ?_⟩
      · simp [OrcType.hasUnknownKind] at h
      · simp only [createColumnPrinter]
        split <;> exact ⟨_, rfl⟩
    case unknown raw =>
      refine ⟨fun _ => ?_, fun h => ?_⟩
      · simp only [createColumnPrinter]
      · simp [OrcType.hasUnknownKind] at h
    all_goals
      refine ⟨fun h => ?_, fun _ => ?_⟩
      · simp [OrcType.hasUnknownKind] at h
      · simp only [createColumnPrinter]
        exact ⟨_, rfl⟩
theorem createFieldPrinters_spec (env : Env) : ∀ (ts : List OrcType), allArityOk ts = true →
    (anyHasUnknownKind ts = true → createFieldPrinters env ts = .error .logicError)
    ∧ (anyHasUnknownKind ts = false → ∃ ps, createFieldPrinters env ts = .ok ps)
  | [], _ => by
    refine ⟨fun h => ?_, fun _ => ?_⟩
    · simp [anyHasUnknownKind] at h
    · simp only [createFieldPrinters]
      exact ⟨_, rfl⟩
  | t :: ts, harity => by
    simp only [allArityOk, Bool.and_eq_true] at harity
    have iht := createColumnPrinter_spec env t harity.1
    have ihts := createFieldPrinters_spec env ts harity.2
    simp only [anyHasUnknownKind, createFieldPrinters, Bool.or_eq_true, Bool.or_eq_false_iff]
    constructor
    · intro h
      cases ht : t.hasUnknownKind with
      | true => rw [iht.1 ht]
      | false =>
        obtain ⟨p, hp⟩ := iht.2 ht
        rw [hp]
        have hts : anyHasUnknownKind ts = true := by
          rcases h with h | h
          · rw [ht] at h; cases h
          · exact h
        simp only [ihts.1 hts]
    · intro h
      obtain ⟨p, hp⟩ := iht.2 h.1
      obtain ⟨ps, hps⟩ := ihts.2 h.2
      rw [hp]
      simp only [hps]
      exact ⟨_, rfl⟩
end

mutual
theorem createColumnPrinter_not_ok (env : Env) : ∀ (t : OrcType), t.hasUnknownKind = true →
    ∀ p, createColumnPrinter env t ≠ .ok p
  | .mk kind subtypes fieldNames precision scale, h, p => by
    cases kind
    case LIST =>
      cases subtypes with
      | nil => simp [OrcType.hasUnknownKind] at h
      | cons elem rest =>
        simp only [OrcType.hasUnknownKind] at h
        have ih := createColumnPrinter_not_ok env elem h
        simp only [createColumnPrinter]
        cases he : createColumnPrinter env elem with
        | error e => simp
        | ok q => exact absurd he (ih q)
    case MAP =>
      cases subtypes with
      | nil => simp [OrcType.hasUnknownKind] at h
      | cons key rest =>
        cases rest with
        | nil =>
          simp only [OrcType.hasUnknownKind] at h
          have ih := createColumnPrinter_not_ok env key h
          simp only [createColumnPrinter]
          cases hk : createColumnPrinter env key with
          | error e => simp
          | ok q => exact absurd hk (ih q)
        | cons elem rest =>
          simp only [OrcType.hasUnknownKind, Bool.or_eq_true] at h
          simp only [createColumnPrinter]
          cases hk : createColumnPrinter env key with
          | error e => simp
          | ok q =>
            cases he : createColumnPrinter env elem with
            | error e => simp
            | ok r =>
              rcases h with h | h
              · exact absurd hk (createColumnPrinter_not_ok env key h q)
              · exact absurd he (createColumnPrinter_not_ok env elem h r)
    case STRUCT =>
      simp only [OrcType.hasUnknownKind] at h
      have ih := createFieldPrinters_not_ok env subtypes h
      simp only [createColumnPrinter]
      cases hs : createFieldPrinters env subtypes with
      | error e => simp
      | ok ps => exact absurd hs (ih ps)
    case UNION =>
      simp only [OrcType.hasUnknownKind] at h
      have ih := createFieldPrinters_not_ok env subtypes h
      simp only [createColumnPrinter]
      cases hs : createFieldPrinters env subtypes with
      | error e => simp
      | ok ps => exact absurd hs (ih ps)
    case unknown raw => simp [createColumnPrinter]
    all_goals simp [OrcType.hasUnknownKind] at h
theorem createFieldPrinters_not_ok (env : Env) : ∀ (ts : List OrcType),
    anyHasUnknownKind ts = true → ∀ ps, createFieldPrinters env ts ≠ .ok ps
  | [], h, _ => by simp [anyHasUnknownKind] at h
  | t :: ts, h, ps => by
    simp only [anyHasUnknownKind, Bool.or_eq_true] at h
    simp only [createFieldPrinters]
    cases ht : createColumnPrinter env t with
    | error e => simp
    | ok q =>
      cases hts : createFieldPrinters env ts with
      | error e => simp
      | ok qs =>
        rcases h with h | h
        · exact absurd ht (createColumnPrinter_not_ok env t h q)
        · exact absurd hts (createFieldPrinters_not_ok env ts h qs)
end

theorem createFieldPrinters_ok (env : Env) : ∀ (ts : List OrcType) (ps : List ColumnPrinter),
    createFieldPrinters env ts = .ok ps →
    List.Forall₂ (fun sub child => createColumnPrinter env sub = .ok child) ts ps := by
  intro ts
  induction ts with
  | nil =>
    intro ps h
    simp only [createFieldPrinters, Except.ok.injEq] at h
    subst h
    exact .nil
  | cons t ts ih =>
    intro ps h
    simp only [createFieldPrinters] at h
    cases ht : createColumnPrinter env t with
    | error e => rw [ht] at h; cases h
    | ok q =>
      rw [ht] at h
      cases hts : createFieldPrinters env ts with
      | error e => rw [hts] at h; cases h
      | ok qs =>
        rw [hts] at h
        simp only [Except.ok.injEq] at h
        subst h
        exact .cons ht (ih qs hts)

theorem allArityOk_mem : ∀ (ts : List OrcType), allArityOk ts = true →
    ∀ t ∈ ts, t.arityOk = true := by
  intro ts
  induction ts with
  | nil => intro _ t ht; simp at ht
  | cons a ts ih =>
    intro h t ht
    simp only [allArityOk, Bool.and_eq_true] at h
    rcases List.mem_cons.mp ht with rfl | ht
    · exact h.1
    · exact ih h.2 t ht

theorem anyHasUnknownKind_mem : ∀ (ts : List OrcType), anyHasUnknownKind ts = false →
    ∀ t ∈ ts, t.hasUnknownKind = false := by
  intro ts
  induction ts with
  | nil => intro _ t ht; simp at ht
  | cons a ts ih =>
    intro h t ht
    simp only [anyHasUnknownKind, Bool.or_eq_false_iff] at h
    rcases List.mem_cons.mp ht with rfl | ht
    · exact h.1
    · exact ih h.2 t ht

/-- C16: when the type node `createColumnPrinter` is applied to, or a node
it builds a child printer for at any depth, has a kind outside the
enumeration, no printer is returned; and for a type tree whose lists and maps
have their subtypes the failure is the `std::logic_error`. -/
theorem factory_rejects_unknown_kind (env : Env) (t : OrcType)
    (hunknown : t.hasUnknownKind = true) :
    (∀ p, createColumnPrinter env t ≠ .ok p)
      ∧ (t.arityOk = true → createColumnPrinter env t = .error .logicError) :=
  ⟨createColumnPrinter_not_ok env t hunknown,
    fun harity => (createColumnPrinter_spec env t harity).1 hunknown⟩

/-- Witness of C16: a struct whose second field is a list of maps, the value
of the map having the kind value 99. -/
theorem factory_rejects_unknown_kind_witness :
    createColumnPrinter utcEnv
      (.mk .STRUCT
        [intType,
          .mk .LIST [.mk .MAP [stringType, .mk (.unknown 99) [] [] 0 0] [] 0 0] [] 0 0]
        [lit "a", lit "b"] 0 0)
      = .error .logicError :=
  (factory_rejects_unknown_kind utcEnv
    (.mk .STRUCT
      [intType, .mk .LIST [.mk .MAP [stringType, .mk (.unknown 99) [] [] 0 0] [] 0 0] [] 0 0]
      [lit "a", lit "b"] 0 0) rfl).2 rfl

/-- C17: for a type tree whose nodes all have a known kind (and whose lists
and maps have their subtypes) `createColumnPrinter` returns a printer: its
variant is the one of the table for the kind of the node, its type is the
node, it is not bound yet, and its children are the printers that
`createColumnPrinter` returns for `subtype(0)` of a LIST, `subtype(0)` and
`subtype(1)` of a MAP, the subtypes of a UNION or STRUCT in order, and none
otherwise; the same holds again of each child. -/
theorem factory_mirrors_type (env : Env) (t : OrcType)
    (harity : t.arityOk = true) (hknown : t.hasUnknownKind = false) :
    ∃ p, createColumnPrinter env t = .ok p
      ∧ specVariant t.getKind t.getPrecision = some p.variant
      ∧ p.base = PrinterBase.init t
      ∧ List.Forall₂ (fun sub child => createColumnPrinter env sub = .ok child)
          t.childTypes p.children
      ∧ (∀ sub ∈ t.childTypes, sub.arityOk = true ∧ sub.hasUnknownKind = false) := by
  obtain ⟨kind, subtypes, fieldNames, precision, scale⟩ := t
  cases kind
  case LIST =>
    cases subtypes with
    | nil => simp [OrcType.arityOk] at harity
    | cons elem rest =>
      simp only [OrcType.arityOk] at harity
      simp only [OrcType.hasUnknownKind] at hknown
      obtain ⟨e, he⟩ := (createColumnPrinter_spec env elem harity).2 hknown
      refine ⟨.list (PrinterBase.init (.mk .LIST (elem :: rest) fieldNames precision scale)) [] e,
        by simp only [createColumnPrinter, he], rfl, rfl, ?_, ?_⟩
      · simp only [OrcType.childTypes, ColumnPrinter.children, List.take_succ_cons,
          List.take_zero]
        exact .cons he .nil
      · intro sub hsub
        simp only [OrcType.childTypes, List.take_succ_cons, List.take_zero,
          List.mem_singleton] at hsub
        subst hsub
        exact ⟨harity, hknown⟩
  case MAP =>
    cases subtypes with
    | nil => simp [OrcType.arityOk] at harity
    | cons key rest =>
      cases rest with
      | nil => simp [OrcType.arityOk] at harity
      | cons elem rest =>
        simp only [OrcType.arityOk, Bool.and_eq_true] at harity
        simp only [OrcType.hasUnknownKind, Bool.or_eq_false_iff] at hknown
        obtain ⟨k, hk⟩ := (createColumnPrinter_spec env key harity.1).2 hknown.1
        obtain ⟨e, he⟩ := (createColumnPrinter_spec env elem harity.2).2 hknown.2
        refine ⟨.map (PrinterBase.init (.mk .MAP (key :: elem :: rest) fieldNames precision scale))
          [] k e, by simp only [createColumnPrinter, hk, he], rfl, rfl, ?_, ?_⟩
        · simp only [OrcType.childTypes, ColumnPrinter.children, List.take_succ_cons,
            List.take_zero]
          exact .cons hk (.cons he .nil)
        · intro sub hsub
          simp only [OrcType.childTypes, List.take_succ_cons, List.take_zero, List.mem_cons,
            List.mem_singleton, List.not_mem_nil, or_false] at hsub
          rcases hsub with rfl | rfl
          · exact ⟨harity.1, hknown.1⟩
          · exact ⟨harity.2, hknown.2⟩
  case STRUCT =>
    simp only [OrcType.arityOk] at harity
    simp only [OrcType.hasUnknownKind] at hknown
    obtain ⟨ps, hps⟩ := (createFieldPrinters_spec env subtypes harity).2 hknown
    refine ⟨.struct (PrinterBase.init (.mk .STRUCT subtypes fieldNames precision scale)) ps,
      by simp only [createColumnPrinter, hps], rfl, rfl, createFieldPrinters_ok env _ _ hps, ?_⟩
    intro sub hsub
    exact ⟨allArityOk_mem _ harity sub hsub, anyHasUnknownKind_mem _ hknown sub hsub⟩
  case UNION =>
    simp only [OrcType.arityOk] at harity
    simp only [OrcType.hasUnknownKind] at hknown
    obtain ⟨ps, hps⟩ := (createFieldPrinters_spec env subtypes harity).2 hknown
    refine ⟨.union (PrinterBase.init (.mk .UNION subtypes fieldNames precision scale)) [] [] ps,
      by simp only [createColumnPrinter, hps], rfl, rfl, createFieldPrinters_ok env _ _ hps, ?_⟩
    intro sub hsub
    exact ⟨allArityOk_mem _ harity sub hsub, anyHasUnknownKind_mem _ hknown sub hsub⟩
  case DECIMAL =>
    by_cases hp : precision = 0 ∨ precision > 18
    · refine ⟨.decimal128 (PrinterBase.init (.mk .DECIMAL subtypes fieldNames precision scale))
        [] 0, by simp only [createColumnPrinter, hp, if_true], ?_, rfl, .nil,
        fun sub hsub => by simp [OrcType.childTypes] at hsub⟩
      simp [specVariant, OrcType.getKind, OrcType.getPrecision, hp, ColumnPrinter.variant]
    · refine ⟨.decimal64 (PrinterBase.init (.mk .DECIMAL subtypes fieldNames precision scale))
        [] 0, by simp only [createColumnPrinter, hp, if_false], ?_, rfl, .nil,
        fun sub hsub => by simp [OrcType.childTypes] at hsub⟩
      simp [specVariant, OrcType.getKind, OrcType.getPrecision, hp, ColumnPrinter.variant]
  case unknown raw => simp [OrcType.hasUnknownKind] at hknown
  all_goals
    obtain ⟨p, hp⟩ := (createColumnPrinter_spec env _ harity).2 hknown
    have hp2 := hp
    simp only [createColumnPrinter, Except.ok.injEq] at hp2
    subst hp2
    exact ⟨_, hp, rfl, rfl, .nil, fun sub hsub => by simp [OrcType.childTypes] at hsub⟩

/-- Witness of C17: the type `map<int,string>`. -/
theorem factory_mirrors_type_witness :
    ∃ p, createColumnPrinter utcEnv (.mk .MAP [intType, stringType] [] 0 0) = .ok p
      ∧ p.variant = .map
      ∧ List.Forall₂ (fun sub child => createColumnPrinter utcEnv sub = .ok child)
          [intType, stringType] p.children := by
  obtain ⟨p, hp, hv, _, hc, _⟩ := factory_mirrors_type utcEnv
    (.mk .MAP [intType, stringType] [] 0 0) rfl rfl
  refine ⟨p, hp, ?_, hc⟩
  have : specVariant (OrcType.mk .MAP [intType, stringType] [] 0 0).getKind
      (OrcType.mk .MAP [intType, stringType] [] 0 0).getPrecision = some .map := rfl
  rw [this] at hv
  exact (Option.some.inj hv).symm

/-- C18: for a DECIMAL node `createColumnPrinter` returns the 128-bit
decimal printer exactly when the precision is 0 or above 18 and the 64-bit
decimal printer exactly when it is between 1 and 18; the variant is the same
for every scale of the node. -/
theorem decimal_variant_by_precision (env : Env) (subtypes : List OrcType)
    (fieldNames : List (List Byte)) (precision scale : Nat) :
    ∃ p, createColumnPrinter env (.mk .DECIMAL subtypes fieldNames precision scale) = .ok p
      ∧ (p.variant = .decimal128 ↔ precision = 0 ∨ precision > 18)
      ∧ (p.variant = .decimal64 ↔ 1 ≤ precision ∧ precision ≤ 18)
      ∧ ∀ otherScale, ∃ q,
          createColumnPrinter env (.mk .DECIMAL subtypes fieldNames precision otherScale) = .ok q
          ∧ q.variant = p.variant := by
  by_cases hp : precision = 0 ∨ precision > 18
  · refine ⟨.decimal128 (PrinterBase.init (.mk .DECIMAL subtypes fieldNames precision scale))
      [] 0, by simp only [createColumnPrinter, hp, if_true], ?_, ?_, ?_⟩
    · simp [ColumnPrinter.variant, hp]
    · simp only [ColumnPrinter.variant]
      constructor
      · intro h; cases h
      · intro h; omega
    · intro otherScale
      exact ⟨.decimal128
        (PrinterBase.init (.mk .DECIMAL subtypes fieldNames precision otherScale)) [] 0,
        by simp only [createColumnPrinter, hp, if_true], rfl⟩
  · refine ⟨.decimal64 (PrinterBase.init (.mk .DECIMAL subtypes fieldNames precision scale))
      [] 0, by simp only [createColumnPrinter, hp, if_false], ?_, ?_, ?_⟩
    · simp only [ColumnPrinter.variant]
      constructor
      · intro h; cases h
      · intro h; exact absurd h hp
    · simp only [ColumnPrinter.variant, true_iff]
      omega
    · intro otherScale
      exact ⟨.decimal64
        (PrinterBase.init (.mk .DECIMAL subtypes fieldNames precision otherScale)) [] 0,
        by simp only [createColumnPrinter, hp, if_false], rfl⟩

/-! ## Binding a printer to a batch -/

mutual
theorem reset_eq_outcome : ∀ (p : ColumnPrinter) (batch : ColumnVectorBatch),
    p.reset batch = outcome (p.resetInPlace batch)
  | .boolean base data, batch => by
    cases batch <;> simp [ColumnPrinter.reset, ColumnPrinter.resetInPlace, outcome]
  | .long base data, batch => by
    cases batch <;> simp [ColumnPrinter.reset, ColumnPrinter.resetInPlace, outcome]
  | .double base data isFloat, batch => by
    cases batch <;> simp [ColumnPrinter.reset, ColumnPrinter.resetInPlace, outcome]
  | .timestamp base data epoch, batch => by
    cases batch <;> simp [ColumnPrinter.reset, ColumnPrinter.resetInPlace, outcome]
  | .date base data, batch => by
    cases batch <;> simp [ColumnPrinter.reset, ColumnPrinter.resetInPlace, outcome]
  | .decimal64 base data scale, batch => by
    cases batch <;> simp [ColumnPrinter.reset, ColumnPrinter.resetInPlace, outcome]
  | .decimal128 base data scale, batch => by
    cases batch <;> simp [ColumnPrinter.reset, ColumnPrinter.resetInPlace, outcome]
  | .string base start length, batch => by
    cases batch <;> simp [ColumnPrinter.reset, ColumnPrinter.resetInPlace, outcome]
  | .binary base start length, batch => by
    cases batch <;> simp [ColumnPrinter.reset, ColumnPrinter.resetInPlace, outcome]
  | .list base offsets elementPrinter, batch => by
    cases batch
    case list bb newOffsets elements =>
      have ih := reset_eq_outcome elementPrinter elements
      simp only [ColumnPrinter.reset, ColumnPrinter.resetInPlace, ih, outcome]
      cases h : (elementPrinter.resetInPlace elements).2 <;> simp [h]
    all_goals simp [ColumnPrinter.reset, ColumnPrinter.resetInPlace, outcome]
  | .map base offsets keyPrinter elementPrinter, batch => by
    cases batch
    case map bb newOffsets keys elements =>
      have ihk := reset_eq_outcome keyPrinter keys
      have ihe := reset_eq_outcome elementPrinter elements
      simp only [ColumnPrinter.reset, ColumnPrinter.resetInPlace, ihk, ihe, outcome]
      rcases hk : keyPrinter.resetInPlace keys with ⟨k, _ | fk⟩
      · rcases he : elementPrinter.resetInPlace elements with ⟨e, _ | fe⟩ <;> simp
      · simp
    all_goals simp [ColumnPrinter.reset, ColumnPrinter.resetInPlace, outcome]
  | .union base tags offsets fieldPrinter, batch => by
    cases batch
    case union bb newTags newOffsets children =>
      have ih := resetFields_eq_outcome fieldPrinter children
      simp only [ColumnPrinter.reset, ColumnPrinter.resetInPlace, ih, outcome]
      cases h : (resetFieldsInPlace fieldPrinter children).2 <;> simp [h]
    all_goals simp [ColumnPrinter.reset, ColumnPrinter.resetInPlace, outcome]
  | .struct base fieldPrinter, batch => by
    cases batch
    case struct bb fields =>
      have ih := resetFields_eq_outcome fieldPrinter fields
      simp only [ColumnPrinter.reset, ColumnPrinter.resetInPlace, ih, outcome]
      cases h : (resetFieldsInPlace fieldPrinter fields).2 <;> simp [h]
    all_goals simp [ColumnPrinter.reset, ColumnPrinter.resetInPlace, outcome]
theorem resetFields_eq_outcome : ∀ (ps : List ColumnPrinter) (bs : List ColumnVectorBatch),
    resetFields ps bs = outcome (resetFieldsInPlace ps bs)
  | [], _ => by simp [resetFields, resetFieldsInPlace, outcome]
  | _ :: _, [] => by simp [resetFields, resetFieldsInPlace, outcome]
  | p :: ps, b :: bs => by
    have ihp := reset_eq_outcome p b
    have ihps := resetFields_eq_outcome ps bs
    simp only [resetFields, resetFieldsInPlace, ihp, ihps, outcome]
    rcases hp : p.resetInPlace b with ⟨q, _ | fq⟩
    · rcases hps : resetFieldsInPlace ps bs with ⟨qs, _ | fqs⟩ <;> simp
    · simp
end

/-- Whatever happens later in the call, the base-class members after `reset`
are those of the batch: the base step is the first one. -/
theorem resetInPlace_base (p : ColumnPrinter) (batch : ColumnVectorBatch) :
    (p.resetInPlace batch).1.base = p.base.reset batch.base := by
  cases p
  case list base offsets elementPrinter =>
    cases batch
    case list bb newOffsets elements =>
      simp only [ColumnPrinter.resetInPlace]
      rcases elementPrinter.resetInPlace elements with ⟨e, fault⟩
      rfl
    all_goals rfl
  case map base offsets keyPrinter elementPrinter =>
    cases batch
    case map bb newOffsets keys elements =>
      simp only [ColumnPrinter.resetInPlace]
      rcases keyPrinter.resetInPlace keys with ⟨k, _ | fk⟩
      · rcases elementPrinter.resetInPlace elements with ⟨e, fault⟩
        rfl
      · rfl
    all_goals rfl
  case union base tags offsets fieldPrinter =>
    cases batch
    case union bb newTags newOffsets children =>
      simp only [ColumnPrinter.resetInPlace]
      rcases resetFieldsInPlace fieldPrinter children with ⟨ps, fault⟩
      rfl
    all_goals rfl
  case struct base fieldPrinter =>
    cases batch
    case struct bb fields =>
      simp only [ColumnPrinter.resetInPlace]
      rcases resetFieldsInPlace fieldPrinter fields with ⟨ps, fault⟩
      rfl
    all_goals rfl
  all_goals (cases batch <;> rfl)

theorem resetFields_child_fails : ∀ (ps : List ColumnPrinter) (bs : List ColumnVectorBatch)
    (i : Nat) (child : ColumnPrinter) (childBatch : ColumnVectorBatch),
    ps[i]? = some child → bs[i]? = some childBatch →
    (∀ q, child.reset childBatch ≠ .ok q) → ∀ qs, resetFields ps bs ≠ .ok qs
  | [], _, i, _, _, hp, _, _, _ => by simp at hp
  | _ :: _, [], i, _, _, _, hb, _, _ => by simp at hb
  | p :: ps, b :: bs, 0, child, childBatch, hp, hb, hfail, qs => by
    simp only [List.getElem?_cons_zero, Option.some.injEq] at hp hb
    subst hp hb
    simp only [resetFields]
    cases h : p.reset b with
    | error e => simp
    | ok q => exact absurd h (hfail q)
  | p :: ps, b :: bs, i + 1, child, childBatch, hp, hb, hfail, qs => by
    simp only [List.getElem?_cons_succ] at hp hb
    have ih := resetFields_child_fails ps bs i child childBatch hp hb hfail
    simp only [resetFields]
    cases h : p.reset b with
    | error e => simp
    | ok q =>
      cases hs : resetFields ps bs with
      | error e => simp
      | ok rs => exact absurd hs (ih rs)

theorem reset_mismatch (p : ColumnPrinter) (batch : ColumnVectorBatch)
    (h : p.expects batch = false) : p.reset batch = .error .badCast := by
  cases p <;> cases batch <;>
    first
    | (simp [ColumnPrinter.expects] at h; done)
    | simp [ColumnPrinter.reset]

theorem reset_child_fails (p : ColumnPrinter) (batch : ColumnVectorBatch) (i : Nat)
    (child : ColumnPrinter) (childBatch : ColumnVectorBatch)
    (hp : p.children[i]? = some child) (hb : batch.children[i]? = some childBatch)
    (hfail : ∀ q, child.reset childBatch ≠ .ok q) : ∀ q, p.reset batch ≠ .ok q := by
  intro q
  have hmis : p.expects batch = false → p.reset batch ≠ .ok q := by
    intro hexp
    rw [reset_mismatch p batch hexp]
    simp
  cases p
  case list base offsets elementPrinter =>
    cases batch
    case list bb newOffsets elements =>
      simp only [ColumnPrinter.children, ColumnVectorBatch.children] at hp hb
      cases i with
      | zero =>
        simp only [List.getElem?_cons_zero, Option.some.injEq] at hp hb
        subst hp hb
        simp only [ColumnPrinter.reset]
        cases h : elementPrinter.reset elements with
        | error e => simp
        | ok r => exact absurd h (hfail r)
      | succ i => simp at hp
    all_goals exact hmis rfl
  case map base offsets keyPrinter elementPrinter =>
    cases batch
    case map bb newOffsets keys elements =>
      simp only [ColumnPrinter.children, ColumnVectorBatch.children] at hp hb
      simp only [ColumnPrinter.reset]
      cases hk : keyPrinter.reset keys with
      | error e => simp
      | ok k =>
        cases he : elementPrinter.reset elements with
        | error e => simp
        | ok e =>
          cases i with
          | zero =>
            simp only [List.getElem?_cons_zero, Option.some.injEq] at hp hb
            subst hp hb
            exact absurd hk (hfail k)
          | succ i =>
            cases i with
            | zero =>
              simp only [List.getElem?_cons_succ, List.getElem?_cons_zero,
                Option.some.injEq] at hp hb
              subst hp hb
              exact absurd he (hfail e)
            | succ i => simp at hp
    all_goals exact hmis rfl
  case union base tags offsets fieldPrinter =>
    cases batch
    case union bb newTags newOffsets children =>
      simp only [ColumnPrinter.children, ColumnVectorBatch.children] at hp hb
      simp only [ColumnPrinter.reset]
      cases h : resetFields fieldPrinter children with
      | error e => simp
      | ok rs => exact absurd h (resetFields_child_fails _ _ i child childBatch hp hb hfail rs)
    all_goals exact hmis rfl
  case struct base fieldPrinter =>
    cases batch
    case struct bb fields =>
      simp only [ColumnPrinter.children, ColumnVectorBatch.children] at hp hb
      simp only [ColumnPrinter.reset]
      cases h : resetFields fieldPrinter fields with
      | error e => simp
      | ok rs => exact absurd h (resetFields_child_fails _ _ i child childBatch hp hb hfail rs)
    all_goals exact hmis rfl
  all_goals simp [ColumnPrinter.children] at hp

/-- C19: `reset` on a batch whose runtime shape is not the one the variant
expects throws `std::bad_cast` and does not return; and the `reset` of a
composite printer does not return when the `reset` of one of its child
printers on the child batch of the same position does not. -/
theorem reset_fails_on_mismatch (p : ColumnPrinter) (batch : ColumnVectorBatch) :
    (p.expects batch = false →
        p.reset batch = .error .badCast ∧ (p.resetInPlace batch).2 = some .badCast)
      ∧ (∀ (i : Nat) (child : ColumnPrinter) (childBatch : ColumnVectorBatch),
          p.children[i]? = some child → batch.children[i]? = some childBatch →
          (∀ q, child.reset childBatch ≠ .ok q) → ∀ q, p.reset batch ≠ .ok q) := by
  refine ⟨fun h => ?_, fun i child childBatch hp hb hfail =>
    reset_child_fails p batch i child childBatch hp hb hfail⟩
  have hr := reset_mismatch p batch h
  refine ⟨hr, ?_⟩
  rw [reset_eq_outcome] at hr
  unfold outcome at hr
  cases h2 : (p.resetInPlace batch).2 with
  | none => rw [h2] at hr; cases hr
  | some f =>
    rw [h2] at hr
    simp only [Except.error.injEq] at hr
    rw [hr]

/-- Witness of C19: an integer printer on a string batch, and a list printer
whose element printer is one for integers on a list batch of strings. -/
theorem reset_fails_on_mismatch_witness :
    (boundLong []).reset (.string (noNulls 0) [] []) = .error .badCast
      ∧ ∀ q, (ColumnPrinter.list (boundBase (.mk .LIST [intType] [] 0 0)) [] (boundLong [])).reset
          (.list (noNulls 0) [0] (.string (noNulls 0) [] [])) ≠ .ok q :=
  ⟨((reset_fails_on_mismatch (boundLong []) (.string (noNulls 0) [] [])).1 rfl).1,
    (reset_fails_on_mismatch
      (ColumnPrinter.list (boundBase (.mk .LIST [intType] [] 0 0)) [] (boundLong []))
      (.list (noNulls 0) [0] (.string (noNulls 0) [] []))).2 0 (boundLong [])
      (.string (noNulls 0) [] []) rfl rfl (fun q h => by
        rw [show (boundLong []).reset (.string (noNulls 0) [] []) = .error .badCast from rfl] at h
        cases h)⟩

theorem resetFields_ok : ∀ (ps : List ColumnPrinter) (bs : List ColumnVectorBatch)
    (qs : List ColumnPrinter), resetFields ps bs = .ok qs →
    List.Forall₂ (fun (pair : ColumnPrinter × ColumnVectorBatch) bound =>
        pair.1.reset pair.2 = .ok bound) (ps.zip bs) qs
      ∧ qs.length = ps.length
  | [], _, qs, h => by
    simp only [resetFields, Except.ok.injEq] at h
    subst h
    exact ⟨by simp, rfl⟩
  | _ :: _, [], qs, h => by simp [resetFields] at h
  | p :: ps, b :: bs, qs, h => by
    simp only [resetFields] at h
    cases hp : p.reset b with
    | error e => rw [hp] at h; cases h
    | ok q =>
      rw [hp] at h
      cases hs : resetFields ps bs with
      | error e => rw [hs] at h; cases h
      | ok rs =>
        rw [hs] at h
        simp only [Except.ok.injEq] at h
        subst h
        have ih := resetFields_ok ps bs rs hs
        exact ⟨by rw [List.zip_cons_cons]; exact .cons hp ih.1, by simp [ih.2]⟩

theorem reset_children (p bound : ColumnPrinter) (batch : ColumnVectorBatch)
    (h : p.reset batch = .ok bound) :
    List.Forall₂ (fun (pair : ColumnPrinter × ColumnVectorBatch) child =>
        pair.1.reset pair.2 = .ok child) (p.children.zip batch.children) bound.children
      ∧ bound.children.length = p.children.length
      ∧ bound.variant = p.variant := by
  cases p
  case list base offsets elementPrinter =>
    cases batch
    case list bb newOffsets elements =>
      simp only [ColumnPrinter.reset] at h
      cases he : elementPrinter.reset elements with
      | error e => rw [he] at h; cases h
      | ok e =>
        rw [he] at h
        simp only [Except.ok.injEq] at h
        subst h
        exact ⟨.cons he .nil, rfl, rfl⟩
    all_goals simp [ColumnPrinter.reset] at h
  case map base offsets keyPrinter elementPrinter =>
    cases batch
    case map bb newOffsets keys elements =>
      simp only [ColumnPrinter.reset] at h
      cases hk : keyPrinter.reset keys with
      | error e => rw [hk] at h; cases h
      | ok k =>
        rw [hk] at h
        cases he : elementPrinter.reset elements with
        | error e => rw [he] at h; cases h
        | ok e =>
          rw [he] at h
          simp only [Except.ok.injEq] at h
          subst h
          exact ⟨.cons hk (.cons he .nil), rfl, rfl⟩
    all_goals simp [ColumnPrinter.reset] at h
  case union base tags offsets fieldPrinter =>
    cases batch
    case union bb newTags newOffsets children =>
      simp only [ColumnPrinter.reset] at h
      cases hs : resetFields fieldPrinter children with
      | error e => rw [hs] at h; cases h
      | ok rs =>
        rw [hs] at h
        simp only [Except.ok.injEq] at h
        subst h
        exact ⟨(resetFields_ok _ _ _ hs).1, (resetFields_ok _ _ _ hs).2, rfl⟩
    all_goals simp [ColumnPrinter.reset] at h
  case struct base fieldPrinter =>
    cases batch
    case struct bb fields =>
      simp only [ColumnPrinter.reset] at h
      cases hs : resetFields fieldPrinter fields with
      | error e => rw [hs] at h; cases h
      | ok rs =>
        rw [hs] at h
        simp only [Except.ok.injEq] at h
        subst h
        exact ⟨(resetFields_ok _ _ _ hs).1, (resetFields_ok _ _ _ hs).2, rfl⟩
    all_goals simp [ColumnPrinter.reset] at h
  all_goals
    cases batch <;> simp only [ColumnPrinter.reset] at h <;>
      first
      | (cases h; done)
      | (cases h; exact ⟨.nil, rfl, rfl⟩)

/-- C20: after a `reset` that returns, the printer has `hasNulls` of the batch
and, as its view of the null flags, the `notNull` array of the batch when
`hasNulls` is true and the null pointer when it is false; its children are
its former children, each after its own `reset` on the child batch of the
same position (list: the elements; map: the keys, then the elements; union
and struct: child `i`).  The base step comes first: whatever batch `reset` is
given, and also when the call throws, the object is left with the base
members of that batch; and in a map the key printer is reset before the
element printer, which a throwing key printer leaves untouched. -/
theorem reset_rebinds (p bound : ColumnPrinter) (batch : ColumnVectorBatch)
    (h : p.reset batch = .ok bound) :
    bound.base.hasNulls = batch.base.hasNulls
      ∧ bound.base.notNull
          = (if batch.base.hasNulls = true then some batch.base.notNull else none)
      ∧ bound.base.type = p.base.type
      ∧ bound.variant = p.variant
      ∧ List.Forall₂ (fun (pair : ColumnPrinter × ColumnVectorBatch) child =>
            pair.1.reset pair.2 = .ok child) (p.children.zip batch.children) bound.children
      ∧ bound.children.length = p.children.length
      ∧ (∀ other : ColumnVectorBatch,
          (p.resetInPlace other).1.base = p.base.reset other.base
          ∧ p.reset other = outcome (p.resetInPlace other))
      ∧ (∀ (base : PrinterBase) (offsets : List Int) (keyPrinter elementPrinter : ColumnPrinter)
          (bb : BatchBase) (newOffsets : List Int) (keys elements : ColumnVectorBatch)
          (fault : Fault), (keyPrinter.resetInPlace keys).2 = some fault →
          (ColumnPrinter.map base offsets keyPrinter elementPrinter).resetInPlace
              (.map bb newOffsets keys elements)
            = (.map (base.reset bb) newOffsets (keyPrinter.resetInPlace keys).1 elementPrinter,
                some fault)) := by
  have hbase := reset_base p bound batch h
  obtain ⟨hchildren, hlen, hvariant⟩ := reset_children p bound batch h
  refine ⟨?_, ?_, ?_, hvariant, hchildren, hlen,
    fun other => ⟨resetInPlace_base p other, reset_eq_outcome p other⟩, ?_⟩
  · rw [hbase]; unfold PrinterBase.reset; split <;> rfl
  · rw [hbase]; unfold PrinterBase.reset; split <;> simp_all
  · rw [hbase]; unfold PrinterBase.reset; split <;> rfl
  · intro base offsets keyPrinter elementPrinter bb newOffsets keys elements fault hk
    simp only [ColumnPrinter.resetInPlace]
    rcases hkey : keyPrinter.resetInPlace keys with ⟨k, _ | fk⟩
    · rw [hkey] at hk; cases hk
    · rw [hkey] at hk
      simp only [Option.some.injEq] at hk
      subst hk
      rfl

/-- Witness of C20: a map printer reset on a map batch with nulls, whose key
batch has none. -/
theorem reset_rebinds_witness :
    (ColumnPrinter.map (boundBase (.mk .MAP [intType, intType] [] 0 0)) [] (boundLong [])
        (boundLong [])).reset
      (.map { numElements := 1, hasNulls := true, notNull := [true] } [0, 1]
        (.long (noNulls 1) [7]) (.long { numElements := 1, hasNulls := true, notNull := [false] }
          [8]))
      = .ok (.map
          { type := .mk .MAP [intType, intType] [] 0 0, hasNulls := true, notNull := some [true] }
          [0, 1] (boundLong [7])
          (.long { type := intType, hasNulls := true, notNull := some [false] } [8]))
    ∧ (ColumnPrinter.map
          { type := .mk .MAP [intType, intType] [] 0 0, hasNulls := true, notNull := some [true] }
          [0, 1] (boundLong [7])
          (.long { type := intType, hasNulls := true, notNull := some [false] } [8])).base.notNull
        = some [true] :=
  ⟨rfl, (reset_rebinds
    (ColumnPrinter.map (boundBase (.mk .MAP [intType, intType] [] 0 0)) [] (boundLong [])
      (boundLong [])) _
    (.map { numElements := 1, hasNulls := true, notNull := [true] } [0, 1]
      (.long (noNulls 1) [7]) (.long { numElements := 1, hasNulls := true, notNull := [false] }
        [8])) rfl).2.1⟩

/-! ## The calendar date of a day count -/

theorem civilFromDays_eq (z : Int) :
    civilFromDays z
      = civilOfYearDay
          (yoeOf (z + 719468 - (z + 719468) / 146097 * 146097) + (z + 719468) / 146097 * 400)
          (z + 719468 - (z + 719468) / 146097 * 146097
            - yearStart (yoeOf (z + 719468 - (z + 719468) / 146097 * 146097))) := rfl

theorem yoeNum_mono (x : Int) :
    x - x / 1460 + x / 36524 - x / 146096
      ≤ (x + 1) - (x + 1) / 1460 + (x + 1) / 36524 - (x + 1) / 146096 := by
  omega

theorem yoeOf_mono_nat (x : Int) (n : Nat) : yoeOf x ≤ yoeOf (x + n) := by
  induction n with
  | zero => simp
  | succ n ih =>
    refine le_trans ih ?_
    unfold yoeOf
    have h := yoeNum_mono (x + n)
    have e : x + ((n + 1 : Nat) : Int) = x + n + 1 := by push_cast; ring
    rw [e]
    exact Int.ediv_le_ediv (by decide) h

theorem yoeOf_mono (x y : Int) (h : x ≤ y) : yoeOf x ≤ yoeOf y := by
  have := yoeOf_mono_nat x (y - x).toNat
  rwa [show x + ((y - x).toNat : Int) = y from by omega] at this

set_option maxRecDepth 100000 in
set_option maxHeartbeats 4000000 in
theorem boundary_all : (List.range 400).all boundaryOk = true := by decide

theorem yoeOf_boundary (k : Int) (h0 : 0 ≤ k) (h1 : k ≤ 399) :
    yoeOf (yearStart k) = k ∧ yoeOf (yearEnd k) = k := by
  have h := List.all_eq_true.mp boundary_all k.toNat (List.mem_range.mpr (by omega))
  unfold boundaryOk at h
  rw [Bool.and_eq_true, decide_eq_true_eq, decide_eq_true_eq] at h
  rwa [show ((k.toNat : Nat) : Int) = k from by omega] at h

theorem yoeOf_of_year (k doe : Int) (h0 : 0 ≤ k) (h1 : k ≤ 399)
    (hs : yearStart k ≤ doe) (he : doe ≤ yearEnd k) : yoeOf doe = k := by
  have hb := yoeOf_boundary k h0 h1
  have h2 := yoeOf_mono _ _ hs
  have h3 := yoeOf_mono _ _ he
  omega

theorem yearStart_step (k : Int) :
    yearStart k + 365 ≤ yearStart (k + 1) ∧ yearStart (k + 1) ≤ yearStart k + 366 := by
  unfold yearStart
  omega

theorem year_exists (n : Nat) : n < 146097 →
    ∃ k : Int, 0 ≤ k ∧ k ≤ 399 ∧ yearStart k ≤ n ∧ (n : Int) ≤ yearEnd k := by
  induction n with
  | zero =>
    intro _
    refine ⟨0, le_refl _, by decide, by decide, by decide⟩
  | succ n ih =>
    intro hn
    obtain ⟨k, h0, h1, hs, he⟩ := ih (by omega)
    by_cases hlt : ((n + 1 : Nat) : Int) ≤ yearEnd k
    · exact ⟨k, h0, h1, by push_cast; omega, hlt⟩
    · have hk : k ≠ 399 := by
        intro hk
        rw [hk] at hlt
        have : yearEnd 399 = 146096 := by decide
        rw [this] at hlt
        push_cast at hlt
        omega
      have hend : yearEnd k = yearStart (k + 1) - 1 := by
        unfold yearEnd; rw [if_neg hk]
      have hn1 : ((n + 1 : Nat) : Int) = yearStart (k + 1) := by
        push_cast at hlt ⊢; omega
      refine ⟨k + 1, by omega, by omega, by omega, ?_⟩
      rw [hn1]
      by_cases hk2 : k + 1 = 399
      · rw [hk2]; decide
      · unfold yearEnd
        rw [if_neg hk2]
        have := (yearStart_step (k + 1)).1
        omega

theorem yoeOf_spec (doe : Int) (h0 : 0 ≤ doe) (h1 : doe < 146097) :
    0 ≤ yoeOf doe ∧ yoeOf doe ≤ 399 ∧ yearStart (yoeOf doe) ≤ doe ∧ doe ≤ yearEnd (yoeOf doe) := by
  obtain ⟨k, hk0, hk1, hs, he⟩ := year_exists doe.toNat (by omega)
  rw [show ((doe.toNat : Nat) : Int) = doe from by omega] at hs he
  rw [yoeOf_of_year k doe hk0 hk1 hs he]
  exact ⟨hk0, hk1, hs, he⟩

theorem isLeapYear_shift (y era : Int) : isLeapYear (y + era * 400) ↔ isLeapYear y := by
  unfold isLeapYear
  omega

/-- The length of year `k` of the era tells whether the calendar year that
holds its end is a leap year. -/
theorem yearEnd_leap (k : Int) (h0 : 0 ≤ k) (h1 : k ≤ 399) :
    (isLeapYear (k + 1) → yearEnd k = yearStart k + 365)
      ∧ (¬ isLeapYear (k + 1) → yearEnd k = yearStart k + 364) := by
  by_cases hk : k = 399
  · subst hk; decide
  · unfold yearEnd isLeapYear yearStart
    rw [if_neg hk]
    omega

set_option maxHeartbeats 2000000 in
theorem civilOfYearDay_step (y0 doy : Int) (h0 : 0 ≤ doy)
    (h1 : doy + 1 ≤ 364 ∨ (doy + 1 = 365 ∧ isLeapYear (y0 + 1))) :
    civilOfYearDay y0 (doy + 1) = nextDay (civilOfYearDay y0 doy) := by
  have hmp : 0 ≤ (5 * doy + 2) / 153 ∧ (5 * doy + 2) / 153 ≤ 11 := by omega
  obtain ⟨hmp0, hmp11⟩ := hmp
  have hmp' : (5 * (doy + 1) + 2) / 153 = (5 * doy + 2) / 153
      ∨ (5 * (doy + 1) + 2) / 153 = (5 * doy + 2) / 153 + 1 := by omega
  unfold civilOfYearDay nextDay daysInMonth
  simp only []
  rcases hmp' with h | h <;> rw [h] <;> generalize hq : (5 * doy + 2) / 153 = mp at * <;>
    interval_cases mp <;> norm_num <;> (try split_ifs) <;>
    (try simp only [Prod.mk.injEq, Prod.mk_eq_one, true_and, and_true]) <;> (try omega)
  rcases h1 with h1 | ⟨h1, hl⟩
  · omega
  · contradiction

theorem civilOfYearDay_rollover (y0 : Int) :
    (¬ isLeapYear (y0 + 1) → civilOfYearDay (y0 + 1) 0 = nextDay (civilOfYearDay y0 364))
      ∧ (isLeapYear (y0 + 1) → civilOfYearDay (y0 + 1) 0 = nextDay (civilOfYearDay y0 365)) := by
  unfold civilOfYearDay nextDay daysInMonth
  constructor <;> intro hl <;> norm_num [hl]

theorem civilOfYearDay_valid (y0 doy : Int) (h0 : 0 ≤ doy)
    (h1 : doy ≤ 364 ∨ (doy = 365 ∧ isLeapYear (y0 + 1))) :
    isValidDate (civilOfYearDay y0 doy) := by
  have hmp : 0 ≤ (5 * doy + 2) / 153 ∧ (5 * doy + 2) / 153 ≤ 11 := by omega
  obtain ⟨hmp0, hmp11⟩ := hmp
  unfold isValidDate civilOfYearDay daysInMonth
  simp only []
  generalize hq : (5 * doy + 2) / 153 = mp at *
  interval_cases mp <;> norm_num <;> (try split_ifs) <;> (try omega)
  rcases h1 with h1 | ⟨h1, hl⟩
  · omega
  · contradiction

theorem civilFromDays_of (z era doe : Int) (h0 : 0 ≤ doe) (h1 : doe < 146097)
    (hz : z + 719468 = era * 146097 + doe) :
    civilFromDays z = civilOfYearDay (yoeOf doe + era * 400) (doe - yearStart (yoeOf doe)) := by
  have he : (z + 719468) / 146097 = era := by omega
  have hd : z + 719468 - era * 146097 = doe := by omega
  rw [civilFromDays_eq, he, hd]

/-- The day of the year of a day of the era lies inside the year, the last
day of a year of 366 days being one of a leap year. -/
theorem dayOfYear_bounds (era doe : Int) (h0 : 0 ≤ doe) (h1 : doe < 146097) :
    0 ≤ doe - yearStart (yoeOf doe)
      ∧ (doe - yearStart (yoeOf doe) ≤ 364
        ∨ (doe - yearStart (yoeOf doe) = 365 ∧ isLeapYear (yoeOf doe + era * 400 + 1))) := by
  obtain ⟨hk0, hk1, hs, he⟩ := yoeOf_spec doe h0 h1
  have hl := yearEnd_leap (yoeOf doe) hk0 hk1
  refine ⟨by omega, ?_⟩
  by_cases hleap : isLeapYear (yoeOf doe + 1)
  · have := hl.1 hleap
    have hshift : isLeapYear (yoeOf doe + era * 400 + 1) := by
      rw [show yoeOf doe + era * 400 + 1 = yoeOf doe + 1 + era * 400 from by ring]
      exact (isLeapYear_shift _ _).mpr hleap
    by_cases h365 : doe - yearStart (yoeOf doe) = 365
    · exact Or.inr ⟨h365, hshift⟩
    · exact Or.inl (by omega)
  · have := hl.2 hleap
    exact Or.inl (by omega)

theorem civilFromDays_valid (z : Int) : isValidDate (civilFromDays z) := by
  have h0 : 0 ≤ z + 719468 - (z + 719468) / 146097 * 146097 := by omega
  have h1 : z + 719468 - (z + 719468) / 146097 * 146097 < 146097 := by omega
  rw [civilFromDays_of z ((z + 719468) / 146097)
    (z + 719468 - (z + 719468) / 146097 * 146097) h0 h1 (by ring)]
  obtain ⟨hd0, hd1⟩ := dayOfYear_bounds ((z + 719468) / 146097) _ h0 h1
  exact civilOfYearDay_valid _ _ hd0 hd1

theorem civilFromDays_succ (z : Int) : civilFromDays (z + 1) = nextDay (civilFromDays z) := by
  obtain ⟨era, doe, h0, h1, hz⟩ : ∃ era doe : Int, 0 ≤ doe ∧ doe < 146097
      ∧ z + 719468 = era * 146097 + doe :=
    ⟨(z + 719468) / 146097, z + 719468 - (z + 719468) / 146097 * 146097,
      by omega, by omega, by ring⟩
  obtain ⟨hk0, hk1, hs, he⟩ := yoeOf_spec doe h0 h1
  obtain ⟨hd0, hd1⟩ := dayOfYear_bounds era doe h0 h1
  have hl := yearEnd_leap (yoeOf doe) hk0 hk1
  rw [civilFromDays_of z era doe h0 h1 hz]
  by_cases hlast : doe = 146096
  · -- the last day of the era
    subst hlast
    have hk : yoeOf 146096 = 399 := by decide
    rw [civilFromDays_of (z + 1) (era + 1) 0 (le_refl _) (by decide) (by omega)]
    rw [hk, show yoeOf 0 = 0 from by decide, show yearStart 0 = 0 from by decide,
      show yearStart 399 = 145731 from by decide]
    have hleap : isLeapYear (399 + era * 400 + 1) := by
      unfold isLeapYear; omega
    have := (civilOfYearDay_rollover (399 + era * 400)).2 hleap
    rw [show (0 : Int) + (era + 1) * 400 = 399 + era * 400 + 1 from by ring,
      show (0 : Int) - 0 = 0 from by decide, show (146096 : Int) - 145731 = 365 from by decide]
    exact this
  · by_cases hin : doe + 1 ≤ yearEnd (yoeOf doe)
    · -- the next day lies in the same year
      have hk : yoeOf (doe + 1) = yoeOf doe := yoeOf_of_year _ _ hk0 hk1 (by omega) hin
      rw [civilFromDays_of (z + 1) era (doe + 1) (by omega) (by omega) (by omega), hk,
        show doe + 1 - yearStart (yoeOf doe) = doe - yearStart (yoeOf doe) + 1 from by ring]
      refine civilOfYearDay_step _ _ hd0 ?_
      by_cases hleap : isLeapYear (yoeOf doe + 1)
      · have := hl.1 hleap
        have hshift : isLeapYear (yoeOf doe + era * 400 + 1) := by
          rw [show yoeOf doe + era * 400 + 1 = yoeOf doe + 1 + era * 400 from by ring]
          exact (isLeapYear_shift _ _).mpr hleap
        by_cases h365 : doe - yearStart (yoeOf doe) + 1 = 365
        · exact Or.inr ⟨h365, hshift⟩
        · exact Or.inl (by omega)
      · have := hl.2 hleap
        exact Or.inl (by omega)
    · -- the next day opens the next year of the era
      have hk399 : yoeOf doe ≠ 399 := by
        intro h
        rw [h, show yearEnd 399 = 146096 from by decide] at he hin
        omega
      have hend : yearEnd (yoeOf doe) = yearStart (yoeOf doe + 1) - 1 := by
        unfold yearEnd; rw [if_neg hk399]
      have hnext : doe + 1 = yearStart (yoeOf doe + 1) := by omega
      have hl' := yearEnd_leap (yoeOf doe + 1) (by omega) (by omega)
      have hk : yoeOf (doe + 1) = yoeOf doe + 1 := by
        refine yoeOf_of_year _ _ (by omega) (by omega) (by omega) ?_
        by_cases hleap' : isLeapYear (yoeOf doe + 1 + 1)
        · have := hl'.1 hleap'; omega
        · have := hl'.2 hleap'; omega
      rw [civilFromDays_of (z + 1) era (doe + 1) (by omega) (by omega) (by omega), hk,
        show doe + 1 - yearStart (yoeOf doe + 1) = 0 from by omega,
        show yoeOf doe + 1 + era * 400 = yoeOf doe + era * 400 + 1 from by ring]
      by_cases hleap : isLeapYear (yoeOf doe + 1)
      · have hlen := hl.1 hleap
        have hshift : isLeapYear (yoeOf doe + era * 400 + 1) := by
          rw [show yoeOf doe + era * 400 + 1 = yoeOf doe + 1 + era * 400 from by ring]
          exact (isLeapYear_shift _ _).mpr hleap
        rw [show doe - yearStart (yoeOf doe) = 365 from by omega]
        exact (civilOfYearDay_rollover _).2 hshift
      · have hlen := hl.2 hleap
        have hshift : ¬ isLeapYear (yoeOf doe + era * 400 + 1) := by
          rw [show yoeOf doe + era * 400 + 1 = yoeOf doe + 1 + era * 400 from by ring]
          exact fun h => hleap ((isLeapYear_shift _ _).mp h)
        rw [show doe - yearStart (yoeOf doe) = 364 from by omega]
        exact (civilOfYearDay_rollover _).1 hshift

theorem civilFromDays_iterate (z : Int) (n : Nat) :
    nextDay^[n] (civilFromDays z) = civilFromDays (z + n) := by
  induction n with
  | zero => simp
  | succ n ih =>
    rw [Function.iterate_succ_apply', ih, ← civilFromDays_succ]
    congr 1
    push_cast
    ring

theorem nextDay_year_le (date : Int × Int × Int) : date.1 ≤ (nextDay date).1 := by
  unfold nextDay
  split_ifs <;> simp

theorem civilFromDays_year_mono (z w : Int) (h : z ≤ w) :
    (civilFromDays z).1 ≤ (civilFromDays w).1 := by
  have key : ∀ n : Nat, (civilFromDays z).1 ≤ (civilFromDays (z + n)).1 := by
    intro n
    induction n with
    | zero => simp
    | succ n ih =>
      refine le_trans ih ?_
      rw [show z + ((n + 1 : Nat) : Int) = z + n + 1 from by push_cast; ring,
        civilFromDays_succ]
      exact nextDay_year_le _
  have := key (w - z).toNat
  rwa [show z + ((w - z).toNat : Int) = w from by omega] at this

/-! ## Rows of dates -/

theorem civilFromDays_isDateAfterEpoch (d : Int) : isDateAfterEpoch (civilFromDays d) d := by
  refine ⟨civilFromDays_valid d, ?_⟩
  have hepoch : civilFromDays 0 = (1970, 1, 1) := by decide
  split
  · rw [← hepoch, civilFromDays_iterate]
    congr 1
    omega
  · rw [civilFromDays_iterate, ← hepoch]
    congr 1
    omega

theorem civilFromDays_year_range (d : Int) (hlo : -354285 ≤ d) (hhi : d ≤ 2932896) :
    1000 ≤ (civilFromDays d).1 ∧ (civilFromDays d).1 ≤ 9999 := by
  have h1 := civilFromDays_year_mono _ _ hlo
  have h2 := civilFromDays_year_mono _ _ hhi
  rw [show civilFromDays (-354285) = (1000, 1, 1) from by decide] at h1
  rw [show civilFromDays 2932896 = (9999, 12, 31) from by decide] at h2
  exact ⟨h1, h2⟩

theorem digitByte_eq (k : Nat) (h : k < 10) :
    (⟨(0x30 + k) % 256, Nat.mod_lt _ (by decide)⟩ : Byte) = Byte.ofChar (Nat.digitChar k) := by
  interval_cases k <;> decide

theorem decimalDigit_eq (n : Int) :
    decimalDigit n = Byte.ofChar (Nat.digitChar (n % 10).toNat) :=
  digitByte_eq _ (by omega)

theorem decimalDigit_ne_zero (n : Int) : decimalDigit n ≠ 0 := by
  rw [decimalDigit_eq]
  exact digitChar_ne_nul _ (by omega)

theorem natText_four_digits (y : Int) (h0 : 1000 ≤ y) (h1 : y ≤ 9999) :
    natText y.toNat
      = [decimalDigit (y / 1000), decimalDigit (y / 100), decimalDigit (y / 10),
          decimalDigit y] := by
  rw [natText_ge_ten y.toNat (by omega), natText_ge_ten (y.toNat / 10) (by omega),
    natText_ge_ten (y.toNat / 10 / 10) (by omega),
    natText_lt_ten (y.toNat / 10 / 10 / 10) (by omega)]
  simp only [decimalDigit_eq, List.cons_append, List.nil_append]
  rw [show (y / 1000 % 10).toNat = y.toNat / 10 / 10 / 10 from by omega,
    show (y / 100 % 10).toNat = y.toNat / 10 / 10 % 10 from by omega,
    show (y / 10 % 10).toNat = y.toNat / 10 % 10 from by omega,
    show (y % 10).toNat = y.toNat % 10 from by omega]

theorem twoDigits_eq (n : Int) (h0 : 0 ≤ n) (h1 : n ≤ 99) :
    twoDigits n = [decimalDigit (n / 10), decimalDigit n] := by
  unfold twoDigits
  split
  · rw [natText_lt_ten n.toNat (by omega)]
    simp only [decimalDigit_eq]
    rw [show (n / 10 % 10).toNat = 0 from by omega,
      show (n % 10).toNat = n.toNat from by omega]
    rfl
  · rw [natText_ge_ten n.toNat (by omega), natText_lt_ten (n.toNat / 10) (by omega)]
    simp only [decimalDigit_eq, List.cons_append, List.nil_append]
    rw [show (n / 10 % 10).toNat = n.toNat / 10 from by omega,
      show (n % 10).toNat = n.toNat % 10 from by omega]

theorem daysInMonth_le (y m : Int) : daysInMonth y m ≤ 31 := by
  unfold daysInMonth
  split_ifs <;> decide

theorem dateText_of_day (env : Env) (d : Int) (hlo : -354285 ≤ d) (hhi : d ≤ 2932896) :
    dateText env (d * 86400) = .ok (specDateText (civilFromDays d)) := by
  obtain ⟨hy0, hy1⟩ := civilFromDays_year_range d hlo hhi
  obtain ⟨hm0, hm1, hd0, hd1⟩ := civilFromDays_valid d
  have hd31 := daysInMonth_le (civilFromDays d).1 (civilFromDays d).2.1
  unfold dateText
  rw [Int.mul_ediv_cancel d (by decide : (86400 : Int) ≠ 0)]
  rcases hc : civilFromDays d with ⟨year, month, day⟩
  rw [hc] at hy0 hy1 hm0 hm1 hd0 hd1 hd31
  simp only [] at hy0 hy1 hm0 hm1 hd0 hd1 hd31 ⊢
  rw [if_neg (by omega)]
  have hyear : yearText env year = natText year.toNat := by
    unfold yearText
    rw [if_pos ⟨hy0, hy1⟩]
  simp only [hyear, natText_four_digits year hy0 hy1, twoDigits_eq month (by omega) (by omega),
    twoDigits_eq day (by omega) (by omega)]
  rw [if_pos (by simp [lit, ofChars])]
  rfl

theorem specDateText_no_nul (date : Int × Int × Int) : ∀ b ∈ specDateText date, b ≠ 0 := by
  intro b hb
  unfold specDateText at hb
  simp only [List.mem_cons, List.mem_singleton, List.not_mem_nil, or_false] at hb
  rcases hb with h | h | h | h | h | h | h | h | h | h <;> rw [h] <;>
    first
    | exact decimalDigit_ne_zero _
    | decide

/-- C15, amended: a present row of a date printer holding a day count `d`
from -354285 to 2932896 (the days of the years 1000 to 9999) renders, between
double quotes, the text `YYYY-MM-DD` of the date of the proleptic Gregorian
calendar that lies `d` whole days after 1970-01-01 (that many days before it
when `d` is negative), computed from the second count `d * 86400`. -/
theorem date_row_renders_calendar_date (env : Env) (base : PrinterBase) (data : List Int)
    (rowId : Nat) (buffer : Buffer) (d : Int)
    (hpresent : isNullRow base rowId = .ok false)
    (hdata : data[rowId]? = some d)
    (hlo : -354285 ≤ d) (hhi : d ≤ 2932896) :
    (ColumnPrinter.date base data).printRow env rowId buffer
        = .ok (buffer ++ lit "\"" ++ specDateText (civilFromDays d) ++ lit "\"")
      ∧ isDateAfterEpoch (civilFromDays d) d
      ∧ 1000 ≤ (civilFromDays d).1 ∧ (civilFromDays d).1 ≤ 9999 := by
  refine ⟨?_, civilFromDays_isDateAfterEpoch d, civilFromDays_year_range d hlo hhi⟩
  have hwrap : wrapInt64 (d * 24 * 60 * 60) = d * 86400 := by
    unfold wrapInt64; omega
  simp only [ColumnPrinter.printRow, hpresent, readAt, hdata, hwrap,
    dateText_of_day env d hlo hhi]
  rw [writeString_of_no_nul _ _ (specDateText_no_nul _)]
  simp [writeChar, lit, ofChars]

/-- Witness of C15, amended: the day counts 0, -1 and 365. -/
theorem date_row_renders_calendar_date_witness :
    (ColumnPrinter.date (boundBase (.mk .DATE [] [] 0 0)) [0, -1, 365]).printRow utcEnv 0 []
        = .ok (lit "\"1970-01-01\"")
      ∧ (ColumnPrinter.date (boundBase (.mk .DATE [] [] 0 0)) [0, -1, 365]).printRow utcEnv 1 []
        = .ok (lit "\"1969-12-31\"")
      ∧ (ColumnPrinter.date (boundBase (.mk .DATE [] [] 0 0)) [0, -1, 365]).printRow utcEnv 2 []
        = .ok (lit "\"1971-01-01\"") :=
  ⟨(date_row_renders_calendar_date utcEnv (boundBase (.mk .DATE [] [] 0 0)) [0, -1, 365] 0 [] 0
      rfl (by decide) (by decide) (by decide)).1.trans (by decide),
    (date_row_renders_calendar_date utcEnv (boundBase (.mk .DATE [] [] 0 0)) [0, -1, 365] 1 []
      (-1) rfl (by decide) (by decide) (by decide)).1.trans (by decide),
    (date_row_renders_calendar_date utcEnv (boundBase (.mk .DATE [] [] 0 0)) [0, -1, 365] 2 []
      365 rfl (by decide) (by decide) (by decide)).1.trans (by decide)⟩

/-- Counterexample to C15 as stated: the day count 2932897 is the first of
January of the year 10000, whose text does not fit the buffer of 11 bytes that
`strftime` is given, and the row renders no date; and for the day count
106751991167301 the second count leaves the `int64_t` range. -/
theorem date_row_beyond_year_9999 :
    isDateAfterEpoch (10000, 1, 1) 2932897
      ∧ (ColumnPrinter.date (boundBase (.mk .DATE [] [] 0 0)) [2932897]).printRow utcEnv 0 []
        = .error .undefinedBehaviour
      ∧ wrapInt64 (106751991167301 * 24 * 60 * 60) ≠ 106751991167301 * 86400
      ∧ (ColumnPrinter.date (boundBase (.mk .DATE [] [] 0 0)) [106751991167301]).printRow
          utcEnv 0 [] = .error .undefinedBehaviour := by
  refine ⟨?_, by decide, by decide, by decide⟩
  have h := civilFromDays_isDateAfterEpoch 2932897
  rwa [show civilFromDays 2932897 = (10000, 1, 1) from by decide] at h

/-! ## The frame of `printRow`, and what a `reset` keeps -/

/-- C22: `printRow` only appends to the buffer.  When printing row `r1` to the
prior content and then row `r2` returns, each row has one fragment (what it
writes to the empty buffer) that it appends to any prior content unchanged,
and the buffer is the prior content followed by the two fragments, with
nothing before, between or after them. -/
theorem printRow_only_appends (env : Env) (p : ColumnPrinter) (r1 r2 : Nat)
    (prior out1 out2 : Buffer)
    (h1 : p.printRow env r1 prior = .ok out1) (h2 : p.printRow env r2 out1 = .ok out2) :
    ∃ f1 f2 : Buffer,
      p.printRow env r1 [] = .ok f1 ∧ p.printRow env r2 [] = .ok f2
        ∧ (∀ buf, p.printRow env r1 buf = .ok (buf ++ f1))
        ∧ (∀ buf, p.printRow env r2 buf = .ok (buf ++ f2))
        ∧ out1 = prior ++ f1 ∧ out2 = prior ++ f1 ++ f2 := by
  rw [printRow_eq_append] at h1 h2
  cases hf1 : p.printRow env r1 [] with
  | error e => rw [hf1] at h1; cases h1
  | ok f1 =>
    cases hf2 : p.printRow env r2 [] with
    | error e => rw [hf2] at h2; cases h2
    | ok f2 =>
      rw [hf1] at h1
      rw [hf2] at h2
      simp only [Except.map, Except.ok.injEq] at h1 h2
      refine ⟨f1, f2, rfl, rfl, fun buf => ?_, fun buf => ?_, h1.symm, ?_⟩
      · rw [printRow_eq_append, hf1]; rfl
      · rw [printRow_eq_append, hf2]; rfl
      · rw [← h2, ← h1]

/-- Witness of C22: the rows 1 and 0 of an integer column after the text `x`. -/
theorem printRow_only_appends_witness :
    ∃ f1 f2 : Buffer,
      (boundLong [5, -7]).printRow utcEnv 1 [] = .ok f1
        ∧ (boundLong [5, -7]).printRow utcEnv 0 [] = .ok f2
        ∧ (∀ buf, (boundLong [5, -7]).printRow utcEnv 1 buf = .ok (buf ++ f1))
        ∧ (∀ buf, (boundLong [5, -7]).printRow utcEnv 0 buf = .ok (buf ++ f2))
        ∧ lit "x-7" = lit "x" ++ f1 ∧ lit "x-75" = lit "x" ++ f1 ++ f2 :=
  printRow_only_appends utcEnv (boundLong [5, -7]) 1 0 (lit "x") (lit "x-7") (lit "x-75")
    (by decide) (by decide)

theorem base_reset_reset (base : PrinterBase) (b1 b2 : BatchBase) :
    (base.reset b1).reset b2 = base.reset b2 := by
  unfold PrinterBase.reset
  cases b1.hasNulls <;> cases b2.hasNulls <;> rfl

mutual
theorem reset_after_reset : ∀ (p p1 : ColumnPrinter) (b1 b2 : ColumnVectorBatch),
    p.reset b1 = .ok p1 → p1.reset b2 = p.reset b2
  | .boolean base data, p1, b1, b2, h => by
    cases b1 <;> simp only [ColumnPrinter.reset, Except.ok.injEq] at h <;> try cases h
    cases b2 <;> simp only [ColumnPrinter.reset, base_reset_reset]
  | .long base data, p1, b1, b2, h => by
    cases b1 <;> simp only [ColumnPrinter.reset, Except.ok.injEq] at h <;> try cases h
    cases b2 <;> simp only [ColumnPrinter.reset, base_reset_reset]
  | .double base data isFloat, p1, b1, b2, h => by
    cases b1 <;> simp only [ColumnPrinter.reset, Except.ok.injEq] at h <;> try cases h
    cases b2 <;> simp only [ColumnPrinter.reset, base_reset_reset]
  | .timestamp base data epoch, p1, b1, b2, h => by
    cases b1 <;> simp only [ColumnPrinter.reset, Except.ok.injEq] at h <;> try cases h
    cases b2 <;> simp only [ColumnPrinter.reset, base_reset_reset]
  | .date base data, p1, b1, b2, h => by
    cases b1 <;> simp only [ColumnPrinter.reset, Except.ok.injEq] at h <;> try cases h
    cases b2 <;> simp only [ColumnPrinter.reset, base_reset_reset]
  | .decimal64 base data scale, p1, b1, b2, h => by
    cases b1 <;> simp only [ColumnPrinter.reset, Except.ok.injEq] at h <;> try cases h
    cases b2 <;> simp only [ColumnPrinter.reset, base_reset_reset]
  | .decimal128 base data scale, p1, b1, b2, h => by
    cases b1 <;> simp only [ColumnPrinter.reset, Except.ok.injEq] at h <;> try cases h
    cases b2 <;> simp only [ColumnPrinter.reset, base_reset_reset]
  | .string base start length, p1, b1, b2, h => by
    cases b1 <;> simp only [ColumnPrinter.reset, Except.ok.injEq] at h <;> try cases h
    cases b2 <;> simp only [ColumnPrinter.reset, base_reset_reset]
  | .binary base start length, p1, b1, b2, h => by
    cases b1 <;> simp only [ColumnPrinter.reset, Except.ok.injEq] at h <;> try cases h
    cases b2 <;> simp only [ColumnPrinter.reset, base_reset_reset]
  | .list base offsets elementPrinter, p1, b1, b2, h => by
    cases b1 <;> simp only [ColumnPrinter.reset] at h <;> try cases h
    rename_i bb off1 elements
    cases he : elementPrinter.reset elements with
    | error e => rw [he] at h; cases h
    | ok e1 =>
      rw [he] at h
      simp only [Except.ok.injEq] at h
      subst h
      have ih := fun b => reset_after_reset elementPrinter e1 elements b he
      cases b2 <;> simp only [ColumnPrinter.reset, base_reset_reset, ih]
  | .map base offsets keyPrinter elementPrinter, p1, b1, b2, h => by
    cases b1 <;> simp only [ColumnPrinter.reset] at h <;> try cases h
    rename_i bb off1 keys elements
    cases hk : keyPrinter.reset keys with
    | error e => rw [hk] at h; cases h
    | ok k1 =>
      rw [hk] at h
      cases he : elementPrinter.reset elements with
      | error e => rw [he] at h; cases h
      | ok e1 =>
        rw [he] at h
        simp only [Except.ok.injEq] at h
        subst h
        have ihk := fun b => reset_after_reset keyPrinter k1 keys b hk
        have ihe := fun b => reset_after_reset elementPrinter e1 elements b he
        cases b2 <;> simp only [ColumnPrinter.reset, base_reset_reset, ihk, ihe]
  | .union base tags offsets fieldPrinter, p1, b1, b2, h => by
    cases b1 <;> simp only [ColumnPrinter.reset] at h <;> try cases h
    rename_i bb tags1 off1 children
    cases hf : resetFields fieldPrinter children with
    | error e => rw [hf] at h; cases h
    | ok f1 =>
      rw [hf] at h
      simp only [Except.ok.injEq] at h
      subst h
      have ih := fun bs => resetFields_after_reset fieldPrinter f1 children bs hf
      cases b2 <;> simp only [ColumnPrinter.reset, base_reset_reset, ih]
  | .struct base fieldPrinter, p1, b1, b2, h => by
    cases b1 <;> simp only [ColumnPrinter.reset] at h <;> try cases h
    rename_i bb fields
    cases hf : resetFields fieldPrinter fields with
    | error e => rw [hf] at h; cases h
    | ok f1 =>
      rw [hf] at h
      simp only [Except.ok.injEq] at h
      subst h
      have ih := fun bs => resetFields_after_reset fieldPrinter f1 fields bs hf
      cases b2 <;> simp only [ColumnPrinter.reset, base_reset_reset, ih]
theorem resetFields_after_reset : ∀ (ps ps1 : List ColumnPrinter)
    (bs1 bs2 : List ColumnVectorBatch),
    resetFields ps bs1 = .ok ps1 → resetFields ps1 bs2 = resetFields ps bs2
  | [], ps1, bs1, bs2, h => by
    simp only [resetFields, Except.ok.injEq] at h
    subst h
    simp only [resetFields]
  | p :: ps, ps1, [], bs2, h => by
    simp only [resetFields] at h
    cases h
  | p :: ps, ps1, b :: bs, bs2, h => by
    simp only [resetFields] at h
    cases hp : p.reset b with
    | error e => rw [hp] at h; cases h
    | ok q =>
      rw [hp] at h
      cases hps : resetFields ps bs with
      | error e => rw [hps] at h; cases h
      | ok qs =>
        rw [hps] at h
        simp only [Except.ok.injEq] at h
        subst h
        cases bs2 with
        | nil => simp only [resetFields]
        | cons b2 bs2 =>
          simp only [resetFields, reset_after_reset p q b b2 hp,
            resetFields_after_reset ps qs bs bs2 hps]
end

/-- C21: a printer tree built for a type and reset on a batch `b1` (and used
to print rows, which changes no printer) is, after a reset on `b2`, the
printer tree that the freshly built one is after a reset on `b2` alone, also
when that reset throws; so every row of `b2` renders as from the fresh tree
and nothing of `b1` is left. -/
theorem reset_replaces_view (env : Env) (t : OrcType) (fresh used : ColumnPrinter)
    (b1 b2 : ColumnVectorBatch)
    (hcreate : createColumnPrinter env t = .ok fresh)
    (h1 : fresh.reset b1 = .ok used) :
    used.reset b2 = fresh.reset b2
      ∧ ∀ rowId : Nat,
          (match used.reset b2 with
            | .error e => .error e
            | .ok rebound => rebound.printRow env rowId [])
          = renderRow env t b2 rowId := by
  have h := reset_after_reset fresh used b1 b2 h1
  refine ⟨h, fun rowId => ?_⟩
  unfold renderRow
  rw [h, hcreate]

/-- Witness of C21: a list of integers, reset on a batch with a null row and
then on a batch of two rows. -/
theorem reset_replaces_view_witness :
    (ColumnPrinter.list (PrinterBase.reset (PrinterBase.init (.mk .LIST [intType] [] 0 0))
          { numElements := 1, hasNulls := true, notNull := [false] }) [0, 1]
        (.long (PrinterBase.reset (PrinterBase.init intType) (noNulls 1)) [9])).reset
        (.list (noNulls 2) [0, 2, 3] (.long (noNulls 3) [4, 5, 6]))
      = (ColumnPrinter.list (PrinterBase.init (.mk .LIST [intType] [] 0 0)) []
          (.long (PrinterBase.init intType) [])).reset
          (.list (noNulls 2) [0, 2, 3] (.long (noNulls 3) [4, 5, 6]))
      ∧ renderRow utcEnv (.mk .LIST [intType] [] 0 0)
          (.list (noNulls 2) [0, 2, 3] (.long (noNulls 3) [4, 5, 6])) 0 = .ok (lit "[4, 5]") :=
  ⟨(reset_replaces_view utcEnv (.mk .LIST [intType] [] 0 0)
      (.list (PrinterBase.init (.mk .LIST [intType] [] 0 0)) []
        (.long (PrinterBase.init intType) []))
      (.list (PrinterBase.reset (PrinterBase.init (.mk .LIST [intType] [] 0 0))
          { numElements := 1, hasNulls := true, notNull := [false] }) [0, 1]
        (.long (PrinterBase.reset (PrinterBase.init intType) (noNulls 1)) [9]))
      (.list { numElements := 1, hasNulls := true, notNull := [false] } [0, 1]
        (.long (noNulls 1) [9]))
      (.list (noNulls 2) [0, 2, 3] (.long (noNulls 3) [4, 5, 6])) rfl rfl).1,
    by decide⟩

theorem reset_withNotNull (p : ColumnPrinter) (batch : ColumnVectorBatch) (notNull : List Bool)
    (hn : batch.base.hasNulls = false) : p.reset (batch.withNotNull notNull) = p.reset batch := by
  have hbase : ∀ (base : PrinterBase) (bb : BatchBase), bb.hasNulls = false →
      base.reset (bb.withNotNull notNull) = base.reset bb := by
    intro base bb hbb
    simp [PrinterBase.reset, BatchBase.withNotNull, hbb]
  cases p <;> cases batch <;>
    simp only [ColumnVectorBatch.base] at hn <;>
    simp only [ColumnPrinter.reset, ColumnVectorBatch.withNotNull, hbase _ _ hn]

/-! ## The fraction of a timestamp, read back -/

theorem stripLoop_exact : ∀ (k fuel m : Nat) (z : Int), m % 10 ≠ 0 → k < fuel →
    stripLoop fuel ((m * 10 ^ k : Nat) : Int) z = some ((m : Int), z + k) := by
  intro k
  induction k with
  | zero =>
    intro fuel m z hm hfuel
    obtain ⟨f, rfl⟩ : ∃ f, fuel = f + 1 := ⟨fuel - 1, by omega⟩
    have hmod : Int.tmod ((m * 10 ^ 0 : Nat) : Int) 10 = ((m % 10 : Nat) : Int) := by
      rw [pow_zero, Nat.mul_one]; exact (Int.ofNat_tmod m 10).symm
    have : ((m % 10 : Nat) : Int) ≠ 0 := by exact_mod_cast hm
    simp only [stripLoop, hmod, if_neg this]
    simp
  | succ k ih =>
    intro fuel m z hm hfuel
    obtain ⟨f, rfl⟩ : ∃ f, fuel = f + 1 := ⟨fuel - 1, by omega⟩
    have hmul : m * 10 ^ (k + 1) = (m * 10 ^ k) * 10 := by rw [pow_succ, Nat.mul_assoc]
    have hmod : Int.tmod ((m * 10 ^ (k + 1) : Nat) : Int) 10 = 0 := by
      have h : Int.tmod ((m * 10 ^ (k + 1) : Nat) : Int) 10
          = ((m * 10 ^ (k + 1) % 10 : Nat) : Int) := (Int.ofNat_tmod _ 10).symm
      rw [h, hmul, Nat.mul_mod_left]; rfl
    have hdiv : Int.tdiv ((m * 10 ^ (k + 1) : Nat) : Int) 10 = ((m * 10 ^ k : Nat) : Int) := by
      have h : Int.tdiv ((m * 10 ^ (k + 1) : Nat) : Int) 10
          = ((m * 10 ^ (k + 1) / 10 : Nat) : Int) := (Int.ofNat_tdiv _ 10).symm
      rw [h, hmul, Nat.mul_div_cancel _ (by decide : 0 < 10)]
    simp only [stripLoop, hmod, if_true, hdiv]
    rw [ih f m (z + 1) hm (by omega)]
    congr 2
    push_cast
    ring

theorem stripLoop_short : ∀ (fuel k m : Nat) (z : Int), fuel ≤ k →
    stripLoop fuel ((m * 10 ^ k : Nat) : Int) z = none := by
  intro fuel
  induction fuel with
  | zero => intro k m z _; rfl
  | succ fuel ih =>
    intro k m z hfuel
    obtain ⟨j, rfl⟩ : ∃ j, k = j + 1 := ⟨k - 1, by omega⟩
    have hmul : m * 10 ^ (j + 1) = (m * 10 ^ j) * 10 := by rw [pow_succ, Nat.mul_assoc]
    have hmod : Int.tmod ((m * 10 ^ (j + 1) : Nat) : Int) 10 = 0 := by
      have h : Int.tmod ((m * 10 ^ (j + 1) : Nat) : Int) 10
          = ((m * 10 ^ (j + 1) % 10 : Nat) : Int) := (Int.ofNat_tmod _ 10).symm
      rw [h, hmul, Nat.mul_mod_left]; rfl
    have hdiv : Int.tdiv ((m * 10 ^ (j + 1) : Nat) : Int) 10 = ((m * 10 ^ j : Nat) : Int) := by
      have h : Int.tdiv ((m * 10 ^ (j + 1) : Nat) : Int) 10
          = ((m * 10 ^ (j + 1) / 10 : Nat) : Int) := (Int.ofNat_tdiv _ 10).symm
      rw [h, hmul, Nat.mul_div_cancel _ (by decide : 0 < 10)]
    simp only [stripLoop, hmod, if_true, hdiv]
    exact ih j m (z + 1) (by omega)

theorem stripLoop_zero : ∀ (fuel : Nat) (z : Int), stripLoop fuel 0 z = none := by
  intro fuel
  induction fuel with
  | zero => intro z; rfl
  | succ fuel ih =>
    intro z
    simp only [stripLoop]
    rw [show Int.tmod 0 10 = 0 from rfl, if_pos rfl, show Int.tdiv 0 10 = 0 from rfl]
    exact ih _

/-- C30: the stripping of trailing zeros ends for every stored value `t`.  For
the remainder 0 the loop is not entered (it would not end) and `zeroDigits`
is 8; for another remainder the loop makes `zeroDigits` rounds, at most 8,
whatever number of tests above that it is allowed, and leaves a remainder
that is not divisible by 10. -/
theorem strip_loop_terminates (epoch t : Int) :
    ∃ nanos zeroDigits : Nat,
      stripTrailingZeros (timestampSplit epoch t).2 = some ((nanos : Int), (zeroDigits : Int))
        ∧ zeroDigits ≤ 8
        ∧ ((timestampSplit epoch t).2 = 0 →
            nanos = 0 ∧ zeroDigits = 8 ∧ ∀ fuel z, stripLoop fuel 0 z = none)
        ∧ ((timestampSplit epoch t).2 ≠ 0 →
            (∀ fuel, zeroDigits < fuel →
              stripLoop fuel (timestampSplit epoch t).2 0 = some ((nanos : Int), (zeroDigits : Int)))
            ∧ (∀ fuel, fuel ≤ zeroDigits → stripLoop fuel (timestampSplit epoch t).2 0 = none)
            ∧ nanos % 10 ≠ 0
            ∧ (timestampSplit epoch t).2 = nanos * 10 ^ zeroDigits) := by
  obtain ⟨n, hn9, hn⟩ := timestampSplit_nanos epoch t
  obtain ⟨m, k, hs, hk, hmk, hm, hk8⟩ := stripTrailingZeros_spec n hn9
  rw [hn]
  refine ⟨m, k, hs, hk, fun h0 => ?_, fun h0 => ?_⟩
  · have hn0 : n = 0 := by exact_mod_cast h0
    have hk := hk8 hn0
    subst hk
    refine ⟨?_, rfl, stripLoop_zero⟩
    rw [hn0] at hmk
    rcases Nat.mul_eq_zero.mp hmk.symm with h | h
    · exact h
    · exact absurd h (by positivity)
  · have hn0 : n ≠ 0 := by
      intro h; apply h0; rw [h]; rfl
    have hm10 := hm hn0
    refine ⟨fun fuel hfuel => ?_, ?_, hm10, by exact_mod_cast hmk⟩
    · have := stripLoop_exact k fuel m 0 hm10 hfuel
      rw [← hmk] at this
      rw [this, zero_add]
    · intro fuel hfuel
      rw [hmk]
      exact stripLoop_short fuel k m 0 hfuel

theorem natText_length_le_of_lt (n d : Nat) (hd : 0 < d) (h : n < 10 ^ d) :
    (natText n).length ≤ d := by
  unfold natText ofChars Nat.toDigits
  rw [List.length_map]
  exact Nat.toDigitsCore_length 10 (by decide) (n + 1) n d h hd

theorem foldl_parseStep_zeros (a : Nat) (s : List Byte) :
    (List.replicate a (Byte.ofChar '0') ++ s).foldl parseStep (some 0)
      = s.foldl parseStep (some 0) := by
  induction a with
  | zero => rfl
  | succ a ih =>
    rw [List.replicate_succ, List.cons_append, List.foldl_cons]
    rw [show parseStep (some 0) (Byte.ofChar '0') = some 0 from by decide]
    exact ih

theorem fractionText_shape (n : Nat) (h0 : 0 < n) (h9 : n < 10 ^ 9) :
    ∃ m k a : Nat, n = m * 10 ^ k ∧ m % 10 ≠ 0 ∧ k ≤ 8
      ∧ a + (natText m).length = 9 - k
      ∧ fractionText (n : Int) = some (List.replicate a (Byte.ofChar '0') ++ natText m) := by
  obtain ⟨m, k, hs, hk, hn, hm, -⟩ := stripTrailingZeros_spec n h9
  have hm10 := hm (by omega)
  have hm9 : m < 10 ^ (9 - k) := by
    by_contra hge
    have h1 : 10 ^ (9 - k) * 10 ^ k ≤ m * 10 ^ k := Nat.mul_le_mul_right _ (by omega)
    rw [← pow_add, show 9 - k + k = 9 from by omega] at h1
    omega
  have hlen := natText_length_le_of_lt m (9 - k) (by omega) hm9
  refine ⟨m, k, (9 - k) - (natText m).length, hn, hm10, hk, by omega, ?_⟩
  have hw : wrapInt32 (NANO_DIGITS - (k : Int)) = 9 - (k : Int) := by
    unfold wrapInt32 NANO_DIGITS; omega
  have hneg : ¬ ((m : Int) < 0) := by omega
  have hwidth : ¬ (9 - (k : Int) < 0) := by omega
  simp only [fractionText, hs, hw, zeroPadded, hneg, hwidth, if_false,
    Int.natAbs_ofNat, List.nil_append, List.length_nil, Nat.zero_add]
  congr 3
  omega

/-- C29: for a remainder `n` below `10^9` the fraction text that `printRow`
writes has 1 to 9 characters, all decimal digits, ends in `0` only when it is
the text `0`, and, padded on the right with `0` to nine digits, reads back as
`n`. -/
theorem fraction_determines_remainder (n : Nat) (h9 : n < 10 ^ 9) :
    ∃ f : List Byte, fractionText (n : Int) = some f
      ∧ 1 ≤ f.length ∧ f.length ≤ 9
      ∧ (∀ b ∈ f, 0x30 ≤ b.val ∧ b.val ≤ 0x39)
      ∧ (f.getLast? = some 0x30 → f = [0x30])
      ∧ parseNat (f ++ List.replicate (9 - f.length) 0x30) = some n := by
  rcases Nat.eq_zero_or_pos n with h0 | h0
  · subst h0
    refine ⟨[0x30], by decide, by decide, by decide, fun b hb => ?_, fun _ => rfl, by decide⟩
    rw [List.mem_singleton.mp hb]
    decide
  · obtain ⟨m, k, a, hn, hm, hk, hlen, hf⟩ := fractionText_shape n h0 h9
    have hm0 : 0 < m := by omega
    refine ⟨_, hf, ?_, ?_, ?_, ?_, ?_⟩
    · rw [List.length_append, List.length_replicate]; omega
    · rw [List.length_append, List.length_replicate]; omega
    · intro b hb
      rcases List.mem_append.mp hb with h | h
      · rw [List.eq_of_mem_replicate h]; decide
      · exact natText_digits m b h
    · intro hlast
      exfalso
      obtain ⟨front, hfront⟩ := natText_snoc m
      rw [hfront, ← List.append_assoc, List.getLast?_append, List.getLast?_singleton] at hlast
      simp only [Option.or, Option.some.injEq] at hlast
      exact digitChar_ne_zero_char _ (Nat.mod_lt _ (by decide)) hm hlast
    · have hpad : 9 - (List.replicate a (Byte.ofChar '0') ++ natText m).length = k := by
        rw [List.length_append, List.length_replicate]; omega
      rw [hpad, List.append_assoc,
        show (0x30 : Byte) = Byte.ofChar '0' from by decide, ← natText_mul_pow m hm0 k, ← hn]
      unfold parseNat
      rw [if_neg (by
        intro h
        have := natText_length_pos n
        have hl := congrArg List.length h
        rw [List.length_append, List.length_nil] at hl
        omega)]
      rw [foldl_parseStep_zeros]
      exact foldl_parseStep_natText n

/-- Witness of C29: the remainders 120000000, 5 and 0. -/
theorem fraction_determines_remainder_witness :
    (∃ f : List Byte, fractionText ((120000000 : Nat) : Int) = some f
      ∧ 1 ≤ f.length ∧ f.length ≤ 9
      ∧ (∀ b ∈ f, 0x30 ≤ b.val ∧ b.val ≤ 0x39)
      ∧ (f.getLast? = some 0x30 → f = [0x30])
      ∧ parseNat (f ++ List.replicate (9 - f.length) 0x30) = some 120000000)
    ∧ fractionText 120000000 = some (lit "12")
    ∧ fractionText 5 = some (lit "000000005")
    ∧ fractionText 0 = some (lit "0") :=
  ⟨fraction_determines_remainder 120000000 (by decide), by decide, by decide, by decide⟩

/-! ## The shape of a decimal text -/

theorem natText_ne_nil (n : Nat) : natText n ≠ [] := by
  intro h
  have := natText_length_pos n
  rw [h] at this
  simp at this

theorem natText_eq_zero_of_head (n : Nat) (h : (natText n).head? = some 0x30) :
    natText n = [0x30] := by
  by_cases hn : n = 0
  · subst hn; decide
  · exact absurd h (natText_head_ne_zero n hn)

theorem specDecimal_shape (v : Int) (scale : Nat) (hs : 1 ≤ scale) :
    ∃ intPart fracPart : List Byte,
      specDecimal v scale
          = (if v < 0 then [0x2D] else []) ++ intPart ++ [0x2E] ++ fracPart
        ∧ fracPart.length = scale
        ∧ intPart ≠ []
        ∧ (∀ b ∈ intPart, 0x30 ≤ b.val ∧ b.val ≤ 0x39)
        ∧ (∀ b ∈ fracPart, 0x30 ≤ b.val ∧ b.val ≤ 0x39)
        ∧ (intPart.head? = some 0x30 → intPart = [0x30])
        ∧ (intPart ++ fracPart).foldl parseStep (some 0) = some v.natAbs := by
  have hsign : (if v < 0 then lit "-" else []) = (if v < 0 then [0x2D] else []) := by
    split <;> rfl
  have hs0 : scale ≠ 0 := by omega
  have hdig := natText_digits v.natAbs
  unfold specDecimal
  simp only [hs0, if_false, hsign]
  by_cases h1 : (natText v.natAbs).length > scale
  · rw [if_pos h1]
    refine ⟨(natText v.natAbs).take ((natText v.natAbs).length - scale),
      (natText v.natAbs).drop ((natText v.natAbs).length - scale), rfl, ?_, ?_, ?_, ?_, ?_, ?_⟩
    · rw [List.length_drop]; omega
    · intro h
      have := congrArg List.length h
      rw [List.length_take, List.length_nil] at this
      omega
    · exact fun b hb => hdig b (List.mem_of_mem_take hb)
    · exact fun b hb => hdig b (List.mem_of_mem_drop hb)
    · intro hhead
      exfalso
      have hhead2 : (natText v.natAbs).head? = some 0x30 := by
        cases hm : natText v.natAbs with
        | nil => exact absurd hm (natText_ne_nil _)
        | cons a rest =>
          rw [hm] at hhead h1
          obtain ⟨j, hj⟩ : ∃ j, (a :: rest).length - scale = j + 1 :=
            ⟨(a :: rest).length - scale - 1, by omega⟩
          rw [hj, List.take_succ_cons, List.head?_cons] at hhead
          rw [List.head?_cons]
          exact hhead
      have := natText_eq_zero_of_head _ hhead2
      rw [this] at h1
      simp at h1
      omega
    · rw [List.take_append_drop]
      exact foldl_parseStep_natText _
  · rw [if_neg h1]
    by_cases h2 : (natText v.natAbs).length = scale
    · rw [if_pos h2]
      refine ⟨[0x30], natText v.natAbs,
        by rw [show lit "0." = [0x30] ++ [0x2E] from rfl, ← List.append_assoc],
        h2, by simp, ?_, hdig, fun _ => rfl, ?_⟩
      · intro b hb
        rw [List.mem_singleton.mp hb]; decide
      · exact foldl_parseStep_zeros 1 _ ▸ foldl_parseStep_natText _
    · rw [if_neg h2]
      refine ⟨[0x30], List.replicate (scale - (natText v.natAbs).length) (Byte.ofChar '0')
          ++ natText v.natAbs, ?_, ?_, by simp, ?_, ?_, fun _ => rfl, ?_⟩
      · rw [show lit "0." = [0x30] ++ [0x2E] from rfl]
        simp only [List.append_assoc]
      · rw [List.length_append, List.length_replicate]; omega
      · intro b hb
        rw [List.mem_singleton.mp hb]; decide
      · intro b hb
        rcases List.mem_append.mp hb with h | h
        · rw [List.eq_of_mem_replicate h]; decide
        · exact hdig b h
      · have := foldl_parseStep_zeros (scale - (natText v.natAbs).length + 1) (natText v.natAbs)
        rw [List.replicate_succ] at this
        rw [← foldl_parseStep_natText v.natAbs, ← this]
        rfl

theorem digits_ne_dot (l : List Byte) (h : ∀ b ∈ l, 0x30 ≤ b.val ∧ b.val ≤ 0x39) :
    ∀ b ∈ l, b ≠ 0x2E ∧ b ≠ 0x2D := by
  intro b hb
  have := h b hb
  constructor <;> (intro he; rw [he] at this; revert this; decide)

theorem dropWhile_append_of_all {α : Type} (p : α → Bool) (l r : List α)
    (h : ∀ b ∈ l, p b = true) : (l ++ r).dropWhile p = r.dropWhile p := by
  induction l with
  | nil => rfl
  | cons a l ih =>
    rw [List.cons_append, List.dropWhile_cons, if_pos (h a (List.mem_cons_self a l))]
    exact ih (fun b hb => h b (List.mem_cons_of_mem a hb))

theorem parseInt_signed_digits (v : Int) (ds : List Byte) (hne : ds ≠ [])
    (hds : ∀ b ∈ ds, 0x30 ≤ b.val ∧ b.val ≤ 0x39)
    (hparse : ds.foldl parseStep (some 0) = some v.natAbs) :
    parseInt ((if v < 0 then [0x2D] else []) ++ ds) = some v := by
  have hnat : parseNat ds = some v.natAbs := by
    unfold parseNat
    rw [if_neg hne]
    exact hparse
  by_cases hv : v < 0
  · rw [if_pos hv]
    simp only [List.singleton_append, parseInt, if_true, hnat, Option.map]
    exact congrArg some (by omega)
  · rw [if_neg hv, List.nil_append]
    cases ds with
    | nil => exact absurd rfl hne
    | cons d rest =>
      have hd : d ≠ 0x2D := (digits_ne_dot _ hds d (List.mem_cons_self d rest)).2
      simp only [parseInt, if_neg hd, hnat, Option.map]
      exact congrArg some (by omega)

theorem specDecimal_zero (v : Int) :
    specDecimal v 0 = (if v < 0 then [0x2D] else []) ++ natText v.natAbs := by
  unfold specDecimal
  rw [if_pos rfl]
  split <;> rfl

theorem specDecimal_read (v : Int) (scale : Nat) :
    parseInt ((specDecimal v scale).filter (fun b => b ≠ 0x2E)) = some v
      ∧ ((specDecimal v scale).dropWhile (fun b => b ≠ 0x2E)).length - 1 = scale := by
  have hsign : ∀ b ∈ (if v < 0 then [(0x2D : Byte)] else []), b ≠ 0x2E := by
    intro b hb
    split at hb
    · rw [List.mem_singleton.mp hb]; decide
    · simp at hb
  by_cases hs : scale = 0
  · subst hs
    have htext := specDecimal_zero v
    have hall : ∀ b ∈ specDecimal v 0, b ≠ 0x2E := by
      intro b hb
      rw [htext] at hb
      rcases List.mem_append.mp hb with h | h
      · exact hsign b h
      · exact (digits_ne_dot _ (natText_digits _) b h).1
    constructor
    · rw [List.filter_eq_self.mpr (fun b hb => by simpa using hall b hb), htext]
      exact parseInt_signed_digits v _ (natText_ne_nil _) (natText_digits _)
        (foldl_parseStep_natText _)
    · have := dropWhile_append_of_all (fun b => decide (b ≠ (0x2E : Byte))) (specDecimal v 0) []
        (fun b hb => by simpa using hall b hb)
      rw [List.append_nil] at this
      rw [this]
      rfl
  · obtain ⟨intPart, fracPart, htext, hlen, hne, hint, hfrac, -, hparse⟩ :=
      specDecimal_shape v scale (by omega)
    have hint2 := digits_ne_dot _ hint
    have hfrac2 := digits_ne_dot _ hfrac
    rw [htext]
    constructor
    · simp only [List.filter_append]
      have h1 : List.filter (fun b => decide (b ≠ (0x2E : Byte)))
          (if v < 0 then [(0x2D : Byte)] else []) = (if v < 0 then [(0x2D : Byte)] else []) :=
        List.filter_eq_self.mpr (fun b hb => by simpa using hsign b hb)
      have h2 : List.filter (fun b => decide (b ≠ (0x2E : Byte))) intPart = intPart :=
        List.filter_eq_self.mpr (fun b hb => by simpa using (hint2 b hb).1)
      have h3 : List.filter (fun b => decide (b ≠ (0x2E : Byte))) fracPart = fracPart :=
        List.filter_eq_self.mpr (fun b hb => by simpa using (hfrac2 b hb).1)
      have h4 : List.filter (fun b => decide (b ≠ (0x2E : Byte))) [0x2E] = [] := by decide
      rw [h1, h2, h3, h4, List.append_nil, List.append_assoc]
      refine parseInt_signed_digits v _ ?_ ?_ hparse
      · intro h
        exact hne (List.append_eq_nil.mp h).1
      · intro b hb
        rcases List.mem_append.mp hb with h | h
        · exact hint b h
        · exact hfrac b h
    · rw [List.append_assoc, List.append_assoc,
        dropWhile_append_of_all _ _ _ (fun b hb => by simpa using hsign b hb),
        dropWhile_append_of_all _ _ _ (fun b hb => by simpa using (hint2 b hb).1)]
      rw [List.singleton_append, List.dropWhile_cons,
        if_neg (by decide : ¬ (decide ((0x2E : Byte) ≠ 0x2E) = true))]
      rw [List.length_cons, hlen]
      rfl

/-- C26: for `v` other than the minimum value the text of `toDecimalString`
starts with `-` exactly when `v` is negative; for the scale 0 it has no `.`;
for a scale of at least 1 it has exactly one `.`, after an integer part of at
least one digit that has no leading zero unless it is the single digit `0`,
and before exactly `scale` digits. -/
theorem decimal_text_format (v : Int) (scale : Nat)
    (hmin : -(2 ^ 63) < v) (hmax : v < 2 ^ 63) (hscale : (scale : Int) < 2 ^ 31) :
    ∃ text, toDecimalString v scale = .ok text
      ∧ (text.head? = some 0x2D ↔ v < 0)
      ∧ (scale = 0 → 0x2E ∉ text)
      ∧ (1 ≤ scale →
          text.count 0x2E = 1
          ∧ ∃ intPart fracPart : List Byte,
              text = (if v < 0 then [0x2D] else []) ++ intPart ++ [0x2E] ++ fracPart
              ∧ fracPart.length = scale
              ∧ intPart ≠ []
              ∧ (∀ b ∈ intPart, 0x30 ≤ b.val ∧ b.val ≤ 0x39)
              ∧ (∀ b ∈ fracPart, 0x30 ≤ b.val ∧ b.val ≤ 0x39)
              ∧ (intPart.head? = some 0x30 → intPart = [0x30])) := by
  have hsign : ∀ b ∈ (if v < 0 then [(0x2D : Byte)] else []), b ≠ 0x2E := by
    intro b hb
    split at hb
    · rw [List.mem_singleton.mp hb]; decide
    · simp at hb
  refine ⟨_, toDecimalString_eq_specDecimal v scale hmin hmax hscale, ?_, ?_, ?_⟩
  · have hhead : ∀ (d : Byte) (rest : List Byte), d ≠ 0x2D →
        (((if v < 0 then [(0x2D : Byte)] else []) ++ d :: rest).head? = some 0x2D ↔ v < 0) := by
      intro d rest hd
      by_cases hv : v < 0
      · simp [hv]
      · simp [hv, hd]
    by_cases hs : scale = 0
    · subst hs
      rw [specDecimal_zero]
      cases hm : natText v.natAbs with
      | nil => exact absurd hm (natText_ne_nil _)
      | cons d rest =>
        refine hhead d rest (digits_ne_dot _ (natText_digits v.natAbs) d ?_).2
        rw [hm]
        exact List.mem_cons_self d rest
    · obtain ⟨intPart, fracPart, htext, -, hne, hint, -, -, -⟩ :=
        specDecimal_shape v scale (by omega)
      rw [htext]
      cases intPart with
      | nil => exact absurd rfl hne
      | cons d rest =>
        simp only [List.append_assoc, List.cons_append]
        exact hhead d _ (digits_ne_dot _ hint d (List.mem_cons_self d rest)).2
  · intro hs
    subst hs
    rw [specDecimal_zero]
    intro hmem
    rcases List.mem_append.mp hmem with h | h
    · exact hsign _ h rfl
    · exact (digits_ne_dot _ (natText_digits _) _ h).1 rfl
  · intro hs
    obtain ⟨intPart, fracPart, htext, hlen, hne, hint, hfrac, hzero, -⟩ :=
      specDecimal_shape v scale hs
    refine ⟨?_, intPart, fracPart, htext, hlen, hne, hint, hfrac, hzero⟩
    rw [htext]
    simp only [List.count_append]
    rw [List.count_eq_zero_of_not_mem (fun h => hsign _ h rfl),
      List.count_eq_zero_of_not_mem (fun h => (digits_ne_dot _ hint _ h).1 rfl),
      List.count_eq_zero_of_not_mem (fun h => (digits_ne_dot _ hfrac _ h).1 rfl)]
    rfl

/-- Witness of C26: the value -123 with the scale 2 and the value 5 with the
scale 3. -/
theorem decimal_text_format_witness :
    (∃ text, toDecimalString (-123) (2 : Nat) = .ok text
      ∧ (text.head? = some 0x2D ↔ (-123 : Int) < 0)
      ∧ ((2 : Nat) = 0 → 0x2E ∉ text)
      ∧ (1 ≤ 2 →
          text.count 0x2E = 1
          ∧ ∃ intPart fracPart : List Byte,
              text = (if (-123 : Int) < 0 then [0x2D] else []) ++ intPart ++ [0x2E] ++ fracPart
              ∧ fracPart.length = 2
              ∧ intPart ≠ []
              ∧ (∀ b ∈ intPart, 0x30 ≤ b.val ∧ b.val ≤ 0x39)
              ∧ (∀ b ∈ fracPart, 0x30 ≤ b.val ∧ b.val ≤ 0x39)
              ∧ (intPart.head? = some 0x30 → intPart = [0x30])))
      ∧ toDecimalString (-123) 2 = .ok (lit "-1.23")
      ∧ toDecimalString 5 3 = .ok (lit "0.005") :=
  ⟨decimal_text_format (-123) 2 (by decide) (by decide) (by decide), by decide, by decide⟩

/-- C27: for `v` other than the minimum value the text of `toDecimalString`
without its `.` reads back as `v`, and the text denotes the rational number
`v / 10^scale`; so two values with the same text at the same scale are
equal. -/
theorem decimal_text_loses_nothing (v : Int) (scale : Nat)
    (hmin : -(2 ^ 63) < v) (hmax : v < 2 ^ 63) (hscale : (scale : Int) < 2 ^ 31) :
    ∃ text, toDecimalString v scale = .ok text
      ∧ parseInt (text.filter (fun b => b ≠ 0x2E)) = some v
      ∧ decimalValue text = some ((v : ℚ) / 10 ^ scale)
      ∧ ∀ w : Int, -(2 ^ 63) < w → w < 2 ^ 63 → toDecimalString w scale = .ok text → w = v := by
  obtain ⟨hparse, hdigits⟩ := specDecimal_read v scale
  refine ⟨_, toDecimalString_eq_specDecimal v scale hmin hmax hscale, hparse, ?_, ?_⟩
  · simp only [decimalValue, hparse, hdigits]
  · intro w hwmin hwmax hw
    rw [toDecimalString_eq_specDecimal w scale hwmin hwmax hscale] at hw
    simp only [Except.ok.injEq] at hw
    have := (specDecimal_read w scale).1
    rw [hw, hparse] at this
    simp only [Option.some.injEq] at this
    exact this.symm

/-- Witness of C27: the value -123 with the scale 2, which denotes -123/100. -/
theorem decimal_text_loses_nothing_witness :
    (∃ text, toDecimalString (-123) (2 : Nat) = .ok text
      ∧ parseInt (text.filter (fun b => b ≠ 0x2E)) = some (-123)
      ∧ decimalValue text = some (((-123 : Int) : ℚ) / 10 ^ 2)
      ∧ ∀ w : Int, -(2 ^ 63) < w → w < 2 ^ 63 → toDecimalString w (2 : Nat) = .ok text →
          w = -123)
      ∧ parseInt ((lit "-1.23").filter (fun b => b ≠ 0x2E)) = some (-123) :=
  ⟨decimal_text_loses_nothing (-123) 2 (by decide) (by decide) (by decide), by decide⟩

/-! ## Escaping is reversible -/

theorem string_printRow_eq (env : Env) (base : PrinterBase)
    (start : List (List Byte)) (length : List Int) (rowId : Nat) (buffer : Buffer)
    (payload : List Byte) (len : Int)
    (hpresent : isNullRow base rowId = .ok false)
    (hlength : length[rowId]? = some len)
    (hstart : start[rowId]? = some payload)
    (hlen : len ≤ payload.length) :
    (ColumnPrinter.string base start length).printRow env rowId buffer
      = .ok (buffer ++ specString (payload.take len.toNat)) := by
  simp only [ColumnPrinter.printRow, hpresent, readAt, hlength]
  rw [forRange_separated (stringBody start rowId)
    (fun j => (readPayload start rowId j).map specEsc) [] 0 len
    (fun buf => stringBody_item start rowId 0 buf)
    (fun i buf _ => by rw [stringBody_item]; simp)]
  rw [renderAll_payload_range start rowId payload specEsc hstart len hlen]
  simp [Except.map, writeChar, joined_empty_sep, lit, ofChars, specString]

theorem unescapeFrom_specEsc (b : Byte) (rest : List Byte) :
    unescapeFrom (specEsc b ++ rest) false
      = (unescapeFrom rest false).map (fun xs => b :: xs) := by
  unfold specEsc
  split_ifs with h1 h2 h3 h4 h5 h6 h7
  all_goals first
    | (subst_vars; rfl)
    | (simp only [List.singleton_append, unescapeFrom, Bool.false_eq_true, if_false, h1]; rfl)

theorem unescapeFrom_escaped (s : List Byte) :
    unescapeFrom ((s.map specEsc).flatten) false = some s := by
  induction s with
  | nil => rfl
  | cons b s ih =>
    rw [List.map_cons, List.flatten_cons, unescapeFrom_specEsc, ih]
    rfl

theorem unescape_specString (s : List Byte) : unescape (specString s) = some s := by
  have h : specString s = 0x22 :: ((s.map specEsc).flatten ++ [0x22]) := by
    unfold specString
    rw [show lit "\"" = [0x22] from rfl]
    simp
  rw [h]
  simp only [unescape, List.getLast?_append, List.getLast?_singleton, Option.or,
    List.dropLast_concat, and_self, if_true]
  exact unescapeFrom_escaped s

set_option maxRecDepth 100000 in
theorem specEsc_length : ∀ b : Byte, (specEsc b).length = 1 + (if isEscaped b then 1 else 0) := by
  decide

theorem escaped_length (s : List Byte) :
    ((s.map specEsc).flatten).length = s.length + s.countP isEscaped := by
  induction s with
  | nil => rfl
  | cons b s ih =>
    rw [List.map_cons, List.flatten_cons, List.length_append, ih, specEsc_length,
      List.length_cons, List.countP_cons]
    omega

/-- C28: the rendering of a string row is reversible.  A present row renders
the escapes of its payload between quotes; `unescape` (drop the quotes, read
each backslash pair as its byte and every other byte as itself) gives the
payload back from that text, so two payloads with the same rendering are
equal; and the rendering has 2 characters more than the payload and one more
for each byte of the escape table. -/
theorem string_escaping_is_reversible (env : Env) (base : PrinterBase)
    (start : List (List Byte)) (length : List Int) (rowId : Nat) (buffer : Buffer)
    (payload : List Byte)
    (hpresent : isNullRow base rowId = .ok false)
    (hlength : length[rowId]? = some (payload.length : Int))
    (hstart : start[rowId]? = some payload) :
    (ColumnPrinter.string base start length).printRow env rowId buffer
        = .ok (buffer ++ specString payload)
      ∧ unescape (specString payload) = some payload
      ∧ (∀ other : List Byte, specString other = specString payload → other = payload)
      ∧ (specString payload).length = 2 + payload.length + payload.countP isEscaped := by
  refine ⟨?_, unescape_specString payload, fun other h => ?_, ?_⟩
  · have := string_printRow_eq env base start length rowId buffer payload payload.length
      hpresent hlength hstart (le_refl _)
    rw [this]
    simp
  · have h1 := unescape_specString other
    rw [h, unescape_specString payload] at h1
    simp only [Option.some.injEq] at h1
    exact h1.symm
  · unfold specString
    rw [List.length_append, List.length_append, escaped_length,
      show (lit "\"").length = 1 from rfl]
    omega

/-- Witness of C28: the payload `a"b\` followed by a newline. -/
theorem string_escaping_is_reversible_witness :
    (boundString [[0x61, 0x22, 0x62, 0x5C, 0x0A]]).printRow utcEnv 0 []
        = .ok (specString [0x61, 0x22, 0x62, 0x5C, 0x0A])
      ∧ unescape (specString [0x61, 0x22, 0x62, 0x5C, 0x0A]) = some [0x61, 0x22, 0x62, 0x5C, 0x0A]
      ∧ (∀ other : List Byte, specString other = specString [0x61, 0x22, 0x62, 0x5C, 0x0A] →
          other = [0x61, 0x22, 0x62, 0x5C, 0x0A])
      ∧ (specString [0x61, 0x22, 0x62, 0x5C, 0x0A]).length
          = 2 + [(0x61 : Byte), 0x22, 0x62, 0x5C, 0x0A].length
            + [(0x61 : Byte), 0x22, 0x62, 0x5C, 0x0A].countP isEscaped
      ∧ specString [0x61, 0x22, 0x62, 0x5C, 0x0A] = lit "\"a\\\"b\\\\\\n\"" :=
  ⟨(string_escaping_is_reversible utcEnv (boundBase stringType)
      [[0x61, 0x22, 0x62, 0x5C, 0x0A]] [5] 0 [] [0x61, 0x22, 0x62, 0x5C, 0x0A]
      rfl (by decide) (by decide)).1,
    (string_escaping_is_reversible utcEnv (boundBase stringType)
      [[0x61, 0x22, 0x62, 0x5C, 0x0A]] [5] 0 [] [0x61, 0x22, 0x62, 0x5C, 0x0A]
      rfl (by decide) (by decide)).2.1,
    (string_escaping_is_reversible utcEnv (boundBase stringType)
      [[0x61, 0x22, 0x62, 0x5C, 0x0A]] [5] 0 [] [0x61, 0x22, 0x62, 0x5C, 0x0A]
      rfl (by decide) (by decide)).2.2.1,
    (string_escaping_is_reversible utcEnv (boundBase stringType)
      [[0x61, 0x22, 0x62, 0x5C, 0x0A]] [5] 0 [] [0x61, 0x22, 0x62, 0x5C, 0x0A]
      rfl (by decide) (by decide)).2.2.2,
    by decide⟩

/-! ## The child indices of consecutive rows -/

theorem list_printRow_eq (env : Env) (base : PrinterBase) (offsets : List Int)
    (elementPrinter : ColumnPrinter) (rowId : Nat) (buffer : Buffer) (first last : Int)
    (hpresent : isNullRow base rowId = .ok false)
    (hrow : rowId + 1 < 2 ^ 64)
    (hfirst : offsets[rowId]? = some first)
    (hlast : offsets[rowId + 1]? = some last) :
    (ColumnPrinter.list base offsets elementPrinter).printRow env rowId buffer
      = (renderAll (fun i => elementPrinter.printRow env (toUInt64 i) [])
          (childIndices first last)).map
          (fun frags => buffer ++ (lit "[" ++ joined (lit ", ") frags ++ lit "]")) := by
  have hmod : (rowId + 1) % 2 ^ 64 = rowId + 1 := Nat.mod_eq_of_lt hrow
  simp only [ColumnPrinter.printRow, hpresent, readAt, hfirst, hmod, hlast]
  rw [forRange_separated _ (fun i => elementPrinter.printRow env (toUInt64 i) []) (lit ", ")
    first last
    (fun buf => listBody_first _ first (printRow_appends env elementPrinter) buf)
    (fun i buf hi => listBody_next _ first i (printRow_appends env elementPrinter) buf hi)]
  cases renderAll (fun i => elementPrinter.printRow env (toUInt64 i) [])
      (childIndices first last) with
  | error e => rfl
  | ok xs => simp [Except.map, writeChar, lit, ofChars]

theorem map_printRow_eq (env : Env) (base : PrinterBase) (offsets : List Int)
    (keyPrinter elementPrinter : ColumnPrinter) (rowId : Nat) (buffer : Buffer)
    (first last : Int)
    (hpresent : isNullRow base rowId = .ok false)
    (hrow : rowId + 1 < 2 ^ 64)
    (hfirst : offsets[rowId]? = some first)
    (hlast : offsets[rowId + 1]? = some last) :
    (ColumnPrinter.map base offsets keyPrinter elementPrinter).printRow env rowId buffer
      = (renderAll (mapEntry env keyPrinter elementPrinter) (childIndices first last)).map
          (fun entries => buffer ++ (lit "[" ++ joined (lit ", ") entries ++ lit "]")) := by
  have hmod : (rowId + 1) % 2 ^ 64 = rowId + 1 := Nat.mod_eq_of_lt hrow
  simp only [ColumnPrinter.printRow, hpresent, readAt, hfirst, hmod, hlast]
  rw [forRange_separated _ (mapEntry env keyPrinter elementPrinter) (lit ", ") first last
    (fun buf => mapBody_first env keyPrinter elementPrinter first buf)
    (fun i buf hi => mapBody_next env keyPrinter elementPrinter first i buf hi)]
  cases renderAll (mapEntry env keyPrinter elementPrinter) (childIndices first last) with
  | error e => rfl
  | ok xs => simp [Except.map, writeChar, lit, ofChars]

theorem emitRows_eq (env : Env) (p : ColumnPrinter) (item : Int → Except Fault Buffer)
    (idx : Nat → List Int) (wrap : List Buffer → Buffer) :
    ∀ (rows : List Nat),
      (∀ r ∈ rows, ∀ buf, p.printRow env r buf
        = (renderAll item (idx r)).map (fun frags => buf ++ wrap frags)) →
      ∀ buf, emitRows env p rows buf
        = (renderRows item (rows.map idx)).map (fun rs => buf ++ (rs.map wrap).flatten) := by
  intro rows
  induction rows with
  | nil => intro _ buf; simp [emitRows, renderRows, Except.map]
  | cons r rows ih =>
    intro h buf
    have ih2 := ih (fun r2 hr2 => h r2 (List.mem_cons_of_mem r hr2))
    simp only [emitRows, List.map_cons, renderRows, h r (List.mem_cons_self r rows) buf]
    cases renderAll item (idx r) with
    | error e => rfl
    | ok x =>
      simp only [Except.map]
      rw [ih2]
      cases renderRows item (rows.map idx) with
      | error e => rfl
      | ok xs => simp [Except.map]

theorem renderAll_append (item : Int → Except Fault Buffer) (a b : List Int) :
    renderAll item (a ++ b)
      = match renderAll item a with
        | .error e => .error e
        | .ok x =>
          match renderAll item b with
          | .error e => .error e
          | .ok y => .ok (x ++ y) := by
  induction a with
  | nil =>
    simp only [List.nil_append, renderAll]
    cases renderAll item b <;> rfl
  | cons i a ih =>
    simp only [List.cons_append, renderAll, List.append_eq, ih]
    cases item i with
    | error e => rfl
    | ok x =>
      simp only []
      cases renderAll item a with
      | error e => rfl
      | ok xs =>
        simp only []
        cases renderAll item b <;> rfl

theorem renderRows_flatten (item : Int → Except Fault Buffer) (groups : List (List Int)) :
    (renderRows item groups).map List.flatten = renderAll item groups.flatten := by
  induction groups with
  | nil => rfl
  | cons g gs ih =>
    simp only [renderRows, List.flatten_cons, renderAll_append]
    cases renderAll item g with
    | error e => rfl
    | ok x =>
      simp only []
      rw [← ih]
      cases renderRows item gs <;> rfl

theorem childIndices_append (a b c : Int) (hab : a ≤ b) (hbc : b ≤ c) :
    childIndices a b ++ childIndices b c = childIndices a c := by
  unfold childIndices
  have h : (c - a).toNat = (b - a).toNat + (c - b).toNat := by omega
  rw [h, List.range_add, List.map_append, List.map_map]
  congr 1
  apply List.map_congr_left
  intro k _
  simp only [Function.comp]
  omega

theorem rowIndices_flatten (offsets : List Int) (n : Nat)
    (hmono : ∀ r, r < n → offsets.getD r 0 ≤ offsets.getD (r + 1) 0) :
    offsets.getD 0 0 ≤ offsets.getD n 0
      ∧ ((List.range n).map (rowIndices offsets)).flatten
        = childIndices (offsets.getD 0 0) (offsets.getD n 0) := by
  induction n with
  | zero => simp [childIndices]
  | succ n ih =>
    obtain ⟨hle, heq⟩ := ih (fun r hr => hmono r (by omega))
    have hstep := hmono n (by omega)
    refine ⟨by omega, ?_⟩
    rw [List.range_succ, List.map_append, List.flatten_append, heq]
    simp only [List.map_cons, List.map_nil, List.flatten_cons, List.flatten_nil, List.append_nil,
      rowIndices]
    exact childIndices_append _ _ _ hle hstep

theorem getElem?_getD_of_lt (offsets : List Int) (r : Nat) (h : r < offsets.length) :
    offsets[r]? = some (offsets.getD r 0) := by
  rw [List.getD_eq_getElem?_getD, List.getElem?_eq_getElem h]
  rfl

/-- C24: a list printer and a map printer bound to a batch of `n` rows without
nulls and with non-decreasing offsets, printing the rows 0, ..., n-1 in
order.  The text is made, row by row, of the fragments of the element
printer (of the key printer and then the element printer, for a map) at the
child indices of the row; the indices of all rows in that order are
`offsets[0], ..., offsets[n] - 1`, each once and ascending, and none is
outside that range. -/
theorem nested_values_in_offset_order (env : Env) (base : PrinterBase) (offsets : List Int)
    (keyPrinter elementPrinter : ColumnPrinter) (n : Nat) (buffer : Buffer)
    (hnulls : base.hasNulls = false)
    (hn : n < 2 ^ 64)
    (hlen : n + 1 ≤ offsets.length)
    (hmono : ∀ r, r < n → offsets.getD r 0 ≤ offsets.getD (r + 1) 0) :
    emitRows env (.list base offsets elementPrinter) (List.range n) buffer
        = (renderRows (fun i => elementPrinter.printRow env (toUInt64 i) [])
            ((List.range n).map (rowIndices offsets))).map
            (fun rows => buffer
              ++ (rows.map (fun frags => lit "[" ++ joined (lit ", ") frags ++ lit "]")).flatten)
      ∧ emitRows env (.map base offsets keyPrinter elementPrinter) (List.range n) buffer
        = (renderRows (mapEntry env keyPrinter elementPrinter)
            ((List.range n).map (rowIndices offsets))).map
            (fun rows => buffer
              ++ (rows.map (fun frags => lit "[" ++ joined (lit ", ") frags ++ lit "]")).flatten)
      ∧ ((List.range n).map (rowIndices offsets)).flatten
        = childIndices (offsets.getD 0 0) (offsets.getD n 0)
      ∧ (∀ item : Int → Except Fault Buffer,
          (renderRows item ((List.range n).map (rowIndices offsets))).map List.flatten
            = renderAll item (childIndices (offsets.getD 0 0) (offsets.getD n 0)))
      ∧ (childIndices (offsets.getD 0 0) (offsets.getD n 0)).Pairwise (fun i j => i < j)
      ∧ (∀ i ∈ childIndices (offsets.getD 0 0) (offsets.getD n 0),
          offsets.getD 0 0 ≤ i ∧ i < offsets.getD n 0) := by
  have hpresent : ∀ r, isNullRow base r = .ok false := by
    intro r
    simp [isNullRow, hnulls]
  have hflat := (rowIndices_flatten offsets n hmono).2
  refine ⟨?_, ?_, hflat, fun item => ?_, (childIndices_spec _ _).2.1,
    (childIndices_spec _ _).2.2.1⟩
  · refine emitRows_eq env _ _ (rowIndices offsets) _ (List.range n) (fun r hr buf => ?_) buffer
    have hr2 := List.mem_range.mp hr
    exact list_printRow_eq env base offsets elementPrinter r buf _ _ (hpresent r) (by omega)
      (getElem?_getD_of_lt offsets r (by omega)) (getElem?_getD_of_lt offsets (r + 1) (by omega))
  · refine emitRows_eq env _ _ (rowIndices offsets) _ (List.range n) (fun r hr buf => ?_) buffer
    have hr2 := List.mem_range.mp hr
    exact map_printRow_eq env base offsets keyPrinter elementPrinter r buf _ _ (hpresent r)
      (by omega) (getElem?_getD_of_lt offsets r (by omega))
      (getElem?_getD_of_lt offsets (r + 1) (by omega))
  · rw [renderRows_flatten, hflat]

/-- Witness of C24: two rows with the offsets 1, 3, 4 over the integers
9, 4, 5, 6, and over the keys 9, 4, 5, 6 with themselves as values. -/
theorem nested_values_in_offset_order_witness :
    emitRows utcEnv (.list (boundBase (.mk .LIST [intType] [] 0 0)) [1, 3, 4]
        (boundLong [9, 4, 5, 6])) (List.range 2) [] = .ok (lit "[4, 5][6]")
      ∧ emitRows utcEnv (.map (boundBase (.mk .LIST [intType] [] 0 0)) [1, 3, 4]
          (boundLong [9, 4, 5, 6]) (boundLong [9, 4, 5, 6])) (List.range 2) []
        = .ok (lit "[\x7b\"key\": 4, \"value\": 4\x7d, \x7b\"key\": 5, \"value\": 5\x7d][\x7b\"key\": 6, \"value\": 6\x7d]")
      ∧ ((List.range 2).map (rowIndices [1, 3, 4])).flatten = [1, 2, 3] := by
  have h := nested_values_in_offset_order utcEnv (boundBase (.mk .LIST [intType] [] 0 0))
    [1, 3, 4] (boundLong [9, 4, 5, 6]) (boundLong [9, 4, 5, 6]) 2 [] rfl (by decide) (by decide)
    (by decide)
  exact ⟨h.1.trans (by decide), h.2.1.trans (by decide), h.2.2.1.trans (by decide)⟩

/-! ## Printing the rows of a well-formed batch -/

theorem isNullRow_wellFormed (base : PrinterBase) (bb : BatchBase) (r : Nat)
    (hwf : bb.wellFormed = true) (hr : r < bb.numElements) :
    isNullRow (base.reset bb) r = .ok (!rowPresent bb r) := by
  simp only [BatchBase.wellFormed, Bool.and_eq_true, decide_eq_true_eq] at hwf
  have hlt : r < bb.notNull.length := by omega
  unfold isNullRow PrinterBase.reset rowPresent
  cases hn : bb.hasNulls with
  | false => simp
  | true =>
    simp only [if_true, List.getElem?_eq_getElem hlt, List.getD_eq_getElem?_getD,
      Option.getD_some, Bool.not_true, Bool.false_or]

theorem readAt_of_lt {α : Type} (view : List α) (r : Nat) (d : α) (h : r < view.length) :
    readAt view r = .ok (view.getD r d) := by
  unfold readAt
  rw [List.getD_eq_getElem?_getD, List.getElem?_eq_getElem h]
  rfl

theorem forLoop_ok (body : Int → Buffer → Except Fault Buffer) :
    ∀ (n : Nat) (i : Int) (buf : Buffer),
      (∀ j buf, i ≤ j → j < i + n → ∃ out, body j buf = .ok out) →
      ∃ out, forLoop body n i buf = .ok out := by
  intro n
  induction n with
  | zero => intro i buf _; exact ⟨buf, rfl⟩
  | succ n ih =>
    intro i buf h
    obtain ⟨out, hout⟩ := h i buf (le_refl _) (by push_cast; omega)
    simp only [forLoop, hout]
    exact ih (i + 1) out (fun j buf hj1 hj2 => h j buf (by omega) (by push_cast; omega))

theorem forRange_ok (first last : Int) (body : Int → Buffer → Except Fault Buffer) (buf : Buffer)
    (h : ∀ j buf, first ≤ j → j < last → ∃ out, body j buf = .ok out) :
    ∃ out, forRange first last body buf = .ok out := by
  unfold forRange
  exact forLoop_ok body _ first buf (fun j buf h1 h2 => h j buf h1 (by omega))

theorem all_range {n : Nat} {f : Nat → Bool} (h : (List.range n).all f = true) (r : Nat)
    (hr : r < n) : f r = true :=
  List.all_eq_true.mp h r (List.mem_range.mpr hr)

theorem int64Text_length_le (v : Int) (h1 : -(2 ^ 63) ≤ v) (h2 : v ≤ 2 ^ 63) :
    (int64Text v).length ≤ 20 := by
  have hn : (natText v.natAbs).length ≤ 19 := natText_length_le _ (by omega)
  unfold int64Text
  split
  · rw [List.length_append, show (lit "-").length = 1 from rfl]; omega
  · omega

theorem toDecimalString_isOk (v scale : Int) (hv : isInt64 v) (hs : 0 ≤ scale) :
    ∃ text, toDecimalString v scale = .ok text := by
  unfold isInt64 at hv
  unfold toDecimalString
  by_cases h0 : scale = 0
  · rw [if_pos h0]; exact ⟨_, rfl⟩
  · rw [if_neg h0]
    simp only []
    have hw : -(2 ^ 63) ≤ (if v < 0 then wrapInt64 (-v) else v)
        ∧ (if v < 0 then wrapInt64 (-v) else v) ≤ 2 ^ 63 := by
      split
      · unfold wrapInt64; omega
      · omega
    have hlen := int64Text_length_le _ hw.1 hw.2
    generalize int64Text (if v < 0 then wrapInt64 (-v) else v) = str at hlen
    by_cases h1 : (str.length : Int) > scale
    · rw [if_pos h1]
      have hpos : toUInt64 (wrapInt32 ((str.length : Int) - scale)) ≤ str.length := by
        unfold toUInt64 wrapInt32; omega
      simp only [substr, Nat.not_lt_zero, if_false, if_neg (Nat.not_lt.mpr hpos)]
      exact ⟨_, rfl⟩
    · rw [if_neg h1]
      split <;> exact ⟨_, rfl⟩

theorem prints_boolean (env : Env) (base : PrinterBase) (bb : BatchBase) (data : List Int)
    (hwf : bb.wellFormed = true) (hdata : bb.numElements ≤ data.length) :
    Prints env (.boolean (base.reset bb) data) bb.numElements := by
  intro r hr buf
  simp only [ColumnPrinter.printRow, isNullRow_wellFormed base bb r hwf hr,
    readAt_of_lt data r 0 (by omega)]
  cases rowPresent bb r <;> exact ⟨_, rfl⟩

theorem prints_long (env : Env) (base : PrinterBase) (bb : BatchBase) (data : List Int)
    (hwf : bb.wellFormed = true) (hdata : bb.numElements ≤ data.length) :
    Prints env (.long (base.reset bb) data) bb.numElements := by
  intro r hr buf
  simp only [ColumnPrinter.printRow, isNullRow_wellFormed base bb r hwf hr,
    readAt_of_lt data r 0 (by omega)]
  cases rowPresent bb r <;> exact ⟨_, rfl⟩

theorem prints_double (env : Env) (base : PrinterBase) (bb : BatchBase) (data : List Nat)
    (isFloat : Bool) (hwf : bb.wellFormed = true) (hdata : bb.numElements ≤ data.length) :
    Prints env (.double (base.reset bb) data isFloat) bb.numElements := by
  intro r hr buf
  simp only [ColumnPrinter.printRow, isNullRow_wellFormed base bb r hwf hr,
    readAt_of_lt data r 0 (by omega)]
  cases rowPresent bb r <;> exact ⟨_, rfl⟩

theorem prints_decimal128 (env : Env) (base : PrinterBase) (bb : BatchBase) (values : List Int)
    (scale : Int) (hwf : bb.wellFormed = true) (hdata : bb.numElements ≤ values.length)
    (hscale : 0 ≤ scale) :
    Prints env (.decimal128 (base.reset bb) values scale) bb.numElements := by
  intro r hr buf
  simp only [ColumnPrinter.printRow, isNullRow_wellFormed base bb r hwf hr,
    readAt_of_lt values r 0 (by omega), int128ToDecimalString, if_pos hscale]
  cases rowPresent bb r <;> exact ⟨_, rfl⟩

theorem prints_decimal64 (env : Env) (base : PrinterBase) (bb : BatchBase) (values : List Int)
    (scale : Int) (hwf : bb.wellFormed = true) (hdata : bb.numElements ≤ values.length)
    (hscale : 0 ≤ scale)
    (hvalues : (List.range bb.numElements).all
      (fun r => decide (isInt64 (values.getD r 0))) = true) :
    Prints env (.decimal64 (base.reset bb) values scale) bb.numElements := by
  intro r hr buf
  have hv := all_range hvalues r hr
  simp only [decide_eq_true_eq] at hv
  obtain ⟨text, htext⟩ := toDecimalString_isOk (values.getD r 0) scale hv hscale
  simp only [ColumnPrinter.printRow, isNullRow_wellFormed base bb r hwf hr,
    readAt_of_lt values r 0 (by omega), htext]
  cases rowPresent bb r <;> exact ⟨_, rfl⟩

theorem twoDigits_length (n : Int) (h0 : 0 ≤ n) (h1 : n ≤ 99) : (twoDigits n).length = 2 := by
  rw [twoDigits_eq n h0 h1]
  rfl

theorem dateText_isOk_iff (env : Env) (t : Int) :
    (∃ text, dateText env t = .ok text)
      ↔ (-(2 ^ 31) ≤ (civilFromDays (t / 86400)).1 - 1900
          ∧ (civilFromDays (t / 86400)).1 - 1900 < 2 ^ 31)
        ∧ (yearText env (civilFromDays (t / 86400)).1).length ≤ 4 := by
  obtain ⟨hm0, hm1, hd0, hd1⟩ := civilFromDays_valid (t / 86400)
  have hd31 := daysInMonth_le (civilFromDays (t / 86400)).1 (civilFromDays (t / 86400)).2.1
  unfold dateText
  rcases hc : civilFromDays (t / 86400) with ⟨year, month, day⟩
  rw [hc] at hm0 hm1 hd0 hd1 hd31
  simp only [] at hm0 hm1 hd0 hd1 hd31 ⊢
  have hlen : (yearText env year ++ lit "-" ++ twoDigits month ++ lit "-"
      ++ twoDigits day).length = (yearText env year).length + 6 := by
    simp only [List.length_append, twoDigits_length month (by omega) (by omega),
      twoDigits_length day (by omega) (by omega), show (lit "-").length = 1 from rfl]
  by_cases hy : year - 1900 < -(2 ^ 31) ∨ 2 ^ 31 ≤ year - 1900
  · rw [if_pos hy]
    constructor
    · rintro ⟨text, h⟩; cases h
    · rintro ⟨h, -⟩; omega
  · rw [if_neg hy]
    simp only [hlen]
    by_cases hl : (yearText env year).length + 6 < 11
    · rw [if_pos hl]
      exact ⟨fun _ => ⟨by omega, by omega⟩, fun _ => ⟨_, rfl⟩⟩
    · rw [if_neg hl]
      constructor
      · rintro ⟨text, h⟩; cases h
      · rintro ⟨-, h⟩; omega

theorem dateFits_iff (env : Env) (d : Int) :
    dateFits env d = true ↔ ∃ text, dateText env (wrapInt64 (d * 24 * 60 * 60)) = .ok text := by
  rw [dateText_isOk_iff]
  unfold dateFits
  rcases civilFromDays (wrapInt64 (d * 24 * 60 * 60) / 86400) with ⟨year, month, day⟩
  simp only [Bool.and_eq_true, decide_eq_true_eq]

theorem prints_date (env : Env) (base : PrinterBase) (bb : BatchBase) (data : List Int)
    (hwf : bb.wellFormed = true) (hdata : bb.numElements ≤ data.length)
    (hvalues : (List.range bb.numElements).all
      (fun r => !rowPresent bb r || dateFits env (data.getD r 0)) = true) :
    Prints env (.date (base.reset bb) data) bb.numElements := by
  intro r hr buf
  have hv := all_range hvalues r hr
  simp only [ColumnPrinter.printRow, isNullRow_wellFormed base bb r hwf hr,
    readAt_of_lt data r 0 (by omega)]
  cases hp : rowPresent bb r with
  | false => exact ⟨_, rfl⟩
  | true =>
    simp only [hp, Bool.not_true, Bool.false_or] at hv
    obtain ⟨text, htext⟩ := (dateFits_iff env _).mp hv
    simp only [Bool.not_true, htext]
    exact ⟨_, rfl⟩

theorem prints_timestamp (env : Env) (base : PrinterBase) (bb : BatchBase) (data : List Int)
    (epoch : Int)
    (hwf : bb.wellFormed = true) (hdata : bb.numElements ≤ data.length)
    (hvalues : (List.range bb.numElements).all
      (fun r => !rowPresent bb r
        || (env.localtimeText (timestampSplit epoch (data.getD r 0)).1).isSome) = true) :
    Prints env (.timestamp (base.reset bb) data epoch) bb.numElements := by
  intro r hr buf
  have hv := all_range hvalues r hr
  simp only [ColumnPrinter.printRow, isNullRow_wellFormed base bb r hwf hr,
    readAt_of_lt data r 0 (by omega)]
  cases hp : rowPresent bb r with
  | false => exact ⟨_, rfl⟩
  | true =>
    simp only [hp, Bool.not_true, Bool.false_or] at hv
    obtain ⟨text, htext⟩ := Option.isSome_iff_exists.mp hv
    obtain ⟨n, hn9, hn⟩ := timestampSplit_nanos epoch (data.getD r 0)
    simp only [Bool.not_true, htext, hn, fractionText_eq_spec n hn9]
    exact ⟨_, rfl⟩

theorem readPayload_ok (start : List (List Byte)) (r : Nat) (j : Int)
    (hstart : r < start.length) (h0 : 0 ≤ j) (hj : j < ((start.getD r []).length : Int)) :
    ∃ ch, readPayload start r j = .ok ch := by
  unfold readPayload
  rw [List.getD_eq_getElem?_getD, List.getElem?_eq_getElem hstart, Option.getD_some] at hj
  rw [List.getElem?_eq_getElem hstart]
  simp only [if_neg (not_lt.mpr h0)]
  rw [List.getElem?_eq_getElem (by omega)]
  exact ⟨_, rfl⟩

theorem prints_string (env : Env) (base : PrinterBase) (bb : BatchBase)
    (data : List (List Byte)) (length : List Int)
    (hwf : bb.wellFormed = true) (hstrings : stringsOk bb.numElements data length = true) :
    Prints env (.string (base.reset bb) data length) bb.numElements := by
  intro r hr buf
  simp only [stringsOk, Bool.and_eq_true, decide_eq_true_eq] at hstrings
  obtain ⟨⟨hd, hl⟩, hrows⟩ := hstrings
  have hrow := all_range hrows r hr
  simp only [Bool.and_eq_true, decide_eq_true_eq] at hrow
  simp only [ColumnPrinter.printRow, isNullRow_wellFormed base bb r hwf hr,
    readAt_of_lt length r 0 (by omega)]
  cases rowPresent bb r with
  | false => exact ⟨_, rfl⟩
  | true =>
    simp only [Bool.not_true]
    obtain ⟨out, hout⟩ := forRange_ok 0 (length.getD r 0) (stringBody data r)
      (writeChar buf (Byte.ofChar '"')) (fun j buf h1 h2 => by
        obtain ⟨ch, hch⟩ := readPayload_ok data r j (by omega) h1 (by omega)
        unfold stringBody
        rw [hch]
        exact ⟨_, rfl⟩)
    rw [hout]
    exact ⟨_, rfl⟩

theorem prints_binary (env : Env) (base : PrinterBase) (bb : BatchBase)
    (data : List (List Byte)) (length : List Int)
    (hwf : bb.wellFormed = true) (hstrings : stringsOk bb.numElements data length = true) :
    Prints env (.binary (base.reset bb) data length) bb.numElements := by
  intro r hr buf
  simp only [stringsOk, Bool.and_eq_true, decide_eq_true_eq] at hstrings
  obtain ⟨⟨hd, hl⟩, hrows⟩ := hstrings
  have hrow := all_range hrows r hr
  simp only [Bool.and_eq_true, decide_eq_true_eq] at hrow
  simp only [ColumnPrinter.printRow, isNullRow_wellFormed base bb r hwf hr,
    readAt_of_lt length r 0 (by omega)]
  cases rowPresent bb r with
  | false => exact ⟨_, rfl⟩
  | true =>
    simp only [Bool.not_true]
    obtain ⟨out, hout⟩ := forRange_ok 0 (length.getD r 0) (binaryBody data r)
      (writeChar buf (Byte.ofChar '[')) (fun j buf h1 h2 => by
        obtain ⟨ch, hch⟩ := readPayload_ok data r j (by omega) h1 (by omega)
        unfold binaryBody
        simp only [hch]
        exact ⟨_, rfl⟩)
    rw [hout]
    exact ⟨_, rfl⟩

theorem offsetsOk_row (numRows : Nat) (offsets : List Int) (childRows : Nat)
    (h : offsetsOk numRows offsets childRows = true) (r : Nat) (hr : r < numRows) :
    r + 1 < offsets.length ∧ 0 ≤ offsets.getD r 0
      ∧ offsets.getD (r + 1) 0 ≤ (childRows : Int) := by
  simp only [offsetsOk, Bool.and_eq_true, decide_eq_true_eq] at h
  obtain ⟨⟨hlen, hbound⟩, -⟩ := h
  have h1 := all_range hbound r (by omega)
  have h2 := all_range hbound (r + 1) (by omega)
  simp only [Bool.and_eq_true, decide_eq_true_eq] at h1 h2
  exact ⟨by omega, h1.1, h2.2⟩

theorem prints_list (env : Env) (base : PrinterBase) (bb : BatchBase) (offsets : List Int)
    (elementPrinter : ColumnPrinter) (childRows : Nat)
    (hwf : bb.wellFormed = true) (hoffsets : offsetsOk bb.numElements offsets childRows = true)
    (hchild : Prints env elementPrinter childRows) :
    Prints env (.list (base.reset bb) offsets elementPrinter) bb.numElements := by
  intro r hr buf
  obtain ⟨hlen, hfirst, hlast⟩ := offsetsOk_row _ _ _ hoffsets r hr
  have hmod : (r + 1) % 2 ^ 64 = r + 1 := by
    simp only [BatchBase.wellFormed, Bool.and_eq_true, decide_eq_true_eq] at hwf
    exact Nat.mod_eq_of_lt (by omega)
  simp only [ColumnPrinter.printRow, isNullRow_wellFormed base bb r hwf hr,
    readAt_of_lt offsets r 0 (by omega), hmod, readAt_of_lt offsets (r + 1) 0 hlen]
  cases rowPresent bb r with
  | false => exact ⟨_, rfl⟩
  | true =>
    simp only [Bool.not_true]
    obtain ⟨out, hout⟩ := forRange_ok (offsets.getD r 0) (offsets.getD (r + 1) 0)
      (listBody (ColumnPrinter.printRow env elementPrinter) (offsets.getD r 0))
      (writeChar buf (Byte.ofChar '[')) (fun j buf h1 h2 => by
        unfold listBody
        exact hchild (toUInt64 j) (by unfold toUInt64; omega) _)
    rw [hout]
    exact ⟨_, rfl⟩

theorem prints_map (env : Env) (base : PrinterBase) (bb : BatchBase) (offsets : List Int)
    (keyPrinter elementPrinter : ColumnPrinter) (keyRows childRows : Nat)
    (hwf : bb.wellFormed = true)
    (hkeyOffsets : offsetsOk bb.numElements offsets keyRows = true)
    (hoffsets : offsetsOk bb.numElements offsets childRows = true)
    (hkey : Prints env keyPrinter keyRows)
    (hchild : Prints env elementPrinter childRows) :
    Prints env (.map (base.reset bb) offsets keyPrinter elementPrinter) bb.numElements := by
  intro r hr buf
  obtain ⟨hlen, hfirst, hlast⟩ := offsetsOk_row _ _ _ hoffsets r hr
  obtain ⟨-, -, hklast⟩ := offsetsOk_row _ _ _ hkeyOffsets r hr
  have hmod : (r + 1) % 2 ^ 64 = r + 1 := by
    simp only [BatchBase.wellFormed, Bool.and_eq_true, decide_eq_true_eq] at hwf
    exact Nat.mod_eq_of_lt (by omega)
  simp only [ColumnPrinter.printRow, isNullRow_wellFormed base bb r hwf hr,
    readAt_of_lt offsets r 0 (by omega), hmod, readAt_of_lt offsets (r + 1) 0 hlen]
  cases rowPresent bb r with
  | false => exact ⟨_, rfl⟩
  | true =>
    simp only [Bool.not_true]
    obtain ⟨out, hout⟩ := forRange_ok (offsets.getD r 0) (offsets.getD (r + 1) 0)
      (mapBody (ColumnPrinter.printRow env keyPrinter)
        (ColumnPrinter.printRow env elementPrinter) (offsets.getD r 0))
      (writeChar buf (Byte.ofChar '[')) (fun j buf h1 h2 => by
        unfold mapBody
        simp only []
        obtain ⟨k, hk⟩ := hkey (toUInt64 j) (by unfold toUInt64; omega)
          (writeString (if j ≠ offsets.getD r 0 then writeString buf (lit ", ") else buf)
            (lit "\x7b\"key\": "))
        rw [hk]
        simp only []
        obtain ⟨e, he⟩ := hchild (toUInt64 j) (by unfold toUInt64; omega)
          (writeString k (lit ", \"value\": "))
        rw [he]
        exact ⟨_, rfl⟩)
    rw [hout]
    exact ⟨_, rfl⟩

theorem prints_mono (env : Env) (p : ColumnPrinter) (rows more : Nat) (h : rows ≤ more)
    (hp : Prints env p more) : Prints env p rows :=
  fun r hr buf => hp r (by omega) buf

theorem prints_union (env : Env) (base : PrinterBase) (bb : BatchBase) (tags : List Byte)
    (offsets : List Nat) (children : List ColumnVectorBatch) (fieldPrinter : List ColumnPrinter)
    (hwf : bb.wellFormed = true)
    (hunion : unionOk bb.numElements tags offsets children = true)
    (hfields : ∀ (i : Nat) (cb : ColumnVectorBatch), children[i]? = some cb →
      ∃ bound, fieldPrinter[i]? = some bound ∧ Prints env bound cb.base.numElements) :
    Prints env (.union (base.reset bb) tags offsets fieldPrinter) bb.numElements := by
  intro r hr buf
  simp only [unionOk, Bool.and_eq_true, decide_eq_true_eq] at hunion
  obtain ⟨⟨ht, ho⟩, hrows⟩ := hunion
  have hrow := all_range hrows r hr
  simp only [ColumnPrinter.printRow, isNullRow_wellFormed base bb r hwf hr,
    readAt_of_lt tags r 0 (by omega), readAt_of_lt offsets r 0 (by omega)]
  cases rowPresent bb r with
  | false => exact ⟨_, rfl⟩
  | true =>
    simp only [Bool.not_true]
    cases hc : children[(tags.getD r 0).val]? with
    | none => rw [hc] at hrow; cases hrow
    | some child =>
      rw [hc] at hrow
      simp only [decide_eq_true_eq] at hrow
      obtain ⟨bound, hbound, hprints⟩ := hfields _ child hc
      rw [printField_of_getElem env fieldPrinter _ bound _ _ hbound]
      obtain ⟨out, hout⟩ := hprints (offsets.getD r 0) hrow
        (writeString (writeString (writeString buf (lit "\x7b\"tag\": "))
          (int64Text (tags.getD r 0).val)) (lit ", \"value\": "))
      rw [hout]
      exact ⟨_, rfl⟩

theorem printFields_ok (env : Env) (type : OrcType) (r : Nat) :
    ∀ (ps : List ColumnPrinter) (i : Nat) (buf : Buffer),
      (∀ p ∈ ps, ∀ buf : Buffer, ∃ out, p.printRow env r buf = .ok out) →
      (∀ k, k < i + ps.length → ∃ name, type.getFieldName k = some name) →
      ∃ out, printFields env type ps i r buf = .ok out
  | [], _, buf, _, _ => ⟨buf, rfl⟩
  | p :: ps, i, buf, hp, hnames => by
    obtain ⟨name, hname⟩ := hnames i (by simp)
    simp only [printFields, hname]
    obtain ⟨out, hout⟩ := hp p (List.mem_cons_self p ps)
      (writeString (writeString (writeChar (if i ≠ 0 then writeString buf (lit ", ") else buf)
        (Byte.ofChar '"')) name) (lit "\": "))
    rw [hout]
    exact printFields_ok env type r ps (i + 1) out
      (fun q hq => hp q (List.mem_cons_of_mem p hq))
      (fun k hk => hnames k (by rw [List.length_cons]; omega))

theorem prints_struct (env : Env) (base : PrinterBase) (bb : BatchBase)
    (fieldPrinter : List ColumnPrinter)
    (hwf : bb.wellFormed = true)
    (hnames : ∀ k, k < fieldPrinter.length → ∃ name, base.type.getFieldName k = some name)
    (hfields : ∀ p ∈ fieldPrinter, Prints env p bb.numElements) :
    Prints env (.struct (base.reset bb) fieldPrinter) bb.numElements := by
  intro r hr buf
  have htype : (base.reset bb).type = base.type := by
    unfold PrinterBase.reset; split <;> rfl
  simp only [ColumnPrinter.printRow, isNullRow_wellFormed base bb r hwf hr, htype]
  cases rowPresent bb r with
  | false => exact ⟨_, rfl⟩
  | true =>
    simp only [Bool.not_true]
    obtain ⟨out, hout⟩ := printFields_ok env base.type r fieldPrinter 0
      (writeChar buf (Byte.ofChar '\x7b')) (fun p hp buf => hfields p hp r hr buf)
      (fun k hk => hnames k (by omega))
    rw [hout]
    exact ⟨_, rfl⟩

mutual
theorem wellFormed_prints (env : Env) : ∀ (t : OrcType) (batch : ColumnVectorBatch),
    wellFormed t batch = true → renderable env t batch = true →
    ∃ p bound, createColumnPrinter env t = .ok p ∧ p.reset batch = .ok bound
      ∧ Prints env bound batch.base.numElements
  | .mk kind subtypes fieldNames precision scale, batch, hwf, hren => by
    cases kind
    case BOOLEAN =>
      cases batch <;> simp [wellFormed] at hwf
      exact ⟨_, _, rfl, rfl, prints_boolean env _ _ _ hwf.1 hwf.2⟩
    case BYTE =>
      cases batch <;> simp [wellFormed] at hwf
      exact ⟨_, _, rfl, rfl, prints_long env _ _ _ hwf.1 hwf.2⟩
    case SHORT =>
      cases batch <;> simp [wellFormed] at hwf
      exact ⟨_, _, rfl, rfl, prints_long env _ _ _ hwf.1 hwf.2⟩
    case INT =>
      cases batch <;> simp [wellFormed] at hwf
      exact ⟨_, _, rfl, rfl, prints_long env _ _ _ hwf.1 hwf.2⟩
    case LONG =>
      cases batch <;> simp [wellFormed] at hwf
      exact ⟨_, _, rfl, rfl, prints_long env _ _ _ hwf.1 hwf.2⟩
    case FLOAT =>
      cases batch <;> simp [wellFormed] at hwf
      exact ⟨_, _, rfl, rfl, prints_double env _ _ _ _ hwf.1 hwf.2⟩
    case DOUBLE =>
      cases batch <;> simp [wellFormed] at hwf
      exact ⟨_, _, rfl, rfl, prints_double env _ _ _ _ hwf.1 hwf.2⟩
    case STRING =>
      cases batch <;> simp only [wellFormed, Bool.and_eq_true, Bool.false_eq_true] at hwf
      exact ⟨_, _, rfl, rfl, prints_string env _ _ _ _ hwf.1 hwf.2⟩
    case VARCHAR =>
      cases batch <;> simp only [wellFormed, Bool.and_eq_true, Bool.false_eq_true] at hwf
      exact ⟨_, _, rfl, rfl, prints_string env _ _ _ _ hwf.1 hwf.2⟩
    case CHAR =>
      cases batch <;> simp only [wellFormed, Bool.and_eq_true, Bool.false_eq_true] at hwf
      exact ⟨_, _, rfl, rfl, prints_string env _ _ _ _ hwf.1 hwf.2⟩
    case BINARY =>
      cases batch <;> simp only [wellFormed, Bool.and_eq_true, Bool.false_eq_true] at hwf
      exact ⟨_, _, rfl, rfl, prints_binary env _ _ _ _ hwf.1 hwf.2⟩
    case TIMESTAMP =>
      cases batch <;> simp [wellFormed] at hwf
      simp only [renderable] at hren
      exact ⟨_, _, rfl, rfl, prints_timestamp env _ _ _ _ hwf.1 hwf.2 hren⟩
    case DATE =>
      cases batch <;> simp [wellFormed] at hwf
      simp only [renderable] at hren
      exact ⟨_, _, rfl, rfl, prints_date env _ _ _ hwf.1 hwf.2 hren⟩
    case DECIMAL =>
      cases batch <;>
        simp only [wellFormed, Bool.and_eq_true, Bool.false_eq_true, decide_eq_true_eq] at hwf
      · rename_i bb values batchScale
        obtain ⟨⟨⟨⟨hprec, hbb⟩, hlen⟩, hscale⟩, hvalues⟩ := hwf
        refine ⟨.decimal64 (PrinterBase.init (.mk .DECIMAL subtypes fieldNames precision scale))
          [] 0, _, ?_, rfl, prints_decimal64 env _ bb values batchScale hbb hlen hscale hvalues⟩
        simp only [createColumnPrinter, if_neg hprec]
      · rename_i bb values batchScale
        obtain ⟨⟨⟨hprec, hbb⟩, hlen⟩, hscale⟩ := hwf
        refine ⟨.decimal128 (PrinterBase.init (.mk .DECIMAL subtypes fieldNames precision scale))
          [] 0, _, ?_, rfl, prints_decimal128 env _ bb values batchScale hbb hlen hscale⟩
        simp only [createColumnPrinter, if_pos hprec]
    case LIST =>
      cases subtypes with
      | nil => simp [wellFormed] at hwf
      | cons elem rest =>
        cases batch <;> simp only [wellFormed, Bool.and_eq_true, Bool.false_eq_true] at hwf
        rename_i bb offsets elements
        simp only [renderable] at hren
        obtain ⟨p, bound, hcreate, hreset, hprints⟩ :=
          wellFormed_prints env elem elements hwf.2 hren
        refine ⟨.list (PrinterBase.init (.mk .LIST (elem :: rest) fieldNames precision scale)) [] p, .list (PrinterBase.reset (PrinterBase.init (.mk .LIST (elem :: rest) fieldNames precision scale)) bb) offsets bound,
          ?_, ?_, prints_list env _ bb offsets bound _ hwf.1.1 hwf.1.2 hprints⟩
        · simp only [createColumnPrinter, hcreate]
        · simp only [ColumnPrinter.reset, hreset]
    case MAP =>
      cases subtypes with
      | nil => simp [wellFormed] at hwf
      | cons key rest =>
        cases rest with
        | nil => simp [wellFormed] at hwf
        | cons elem rest =>
          cases batch <;> simp only [wellFormed, Bool.and_eq_true, Bool.false_eq_true] at hwf
          rename_i bb offsets keys elements
          simp only [renderable, Bool.and_eq_true] at hren
          obtain ⟨kp, kbound, hkcreate, hkreset, hkprints⟩ :=
            wellFormed_prints env key keys hwf.1.2 hren.1
          obtain ⟨p, bound, hcreate, hreset, hprints⟩ :=
            wellFormed_prints env elem elements hwf.2 hren.2
          refine ⟨.map (PrinterBase.init (.mk .MAP (key :: elem :: rest) fieldNames precision scale)) [] kp p,
            .map (PrinterBase.reset (PrinterBase.init (.mk .MAP (key :: elem :: rest) fieldNames precision scale)) bb) offsets kbound bound, ?_, ?_,
            prints_map env _ bb offsets kbound bound _ _ hwf.1.1.1.1 hwf.1.1.1.2 hwf.1.1.2
              hkprints hprints⟩
          · simp only [createColumnPrinter, hkcreate, hcreate]
          · simp only [ColumnPrinter.reset, hkreset, hreset]
    case UNION =>
      cases batch <;> simp only [wellFormed, Bool.and_eq_true, Bool.false_eq_true] at hwf
      rename_i bb tags offsets children
      simp only [renderable] at hren
      obtain ⟨ps, bounds, hcreate, hreset, hlen, hindex, -⟩ :=
        wellFormedAll_prints env subtypes children 0 hwf.2 hren
      refine ⟨.union (PrinterBase.init (.mk .UNION subtypes fieldNames precision scale)) [] [] ps,
        .union (PrinterBase.reset (PrinterBase.init (.mk .UNION subtypes fieldNames precision scale)) bb) tags offsets bounds, ?_, ?_,
        prints_union env _ bb tags offsets children bounds hwf.1.1 hwf.1.2
          (fun i cb hcb => by
            obtain ⟨bound, hb, -, hp⟩ := hindex i cb hcb
            exact ⟨bound, hb, hp⟩)⟩
      · simp only [createColumnPrinter, hcreate]
      · simp only [ColumnPrinter.reset, hreset]
    case STRUCT =>
      cases batch <;>
        simp only [wellFormed, Bool.and_eq_true, Bool.false_eq_true, decide_eq_true_eq] at hwf
      rename_i bb fields
      simp only [renderable] at hren
      obtain ⟨ps, bounds, hcreate, hreset, hlen, -, hall⟩ :=
        wellFormedAll_prints env subtypes fields bb.numElements hwf.2 hren
      refine ⟨.struct (PrinterBase.init (.mk .STRUCT subtypes fieldNames precision scale)) ps, .struct (PrinterBase.reset (PrinterBase.init (.mk .STRUCT subtypes fieldNames precision scale)) bb) bounds, ?_, ?_,
        prints_struct env _ bb bounds hwf.1.1 (fun k hk => ?_) hall⟩
      · simp only [createColumnPrinter, hcreate]
      · simp only [ColumnPrinter.reset, hreset]
      · simp only [PrinterBase.init, OrcType.getFieldName]
        rw [List.getElem?_eq_getElem (by omega)]
        exact ⟨_, rfl⟩
    case unknown raw => simp [wellFormed] at hwf
theorem wellFormedAll_prints (env : Env) : ∀ (ts : List OrcType) (bs : List ColumnVectorBatch)
    (rows : Nat), wellFormedAll ts bs rows = true → renderableAll env ts bs = true →
    ∃ ps bounds, createFieldPrinters env ts = .ok ps ∧ resetFields ps bs = .ok bounds
      ∧ bounds.length = ts.length
      ∧ (∀ (i : Nat) (cb : ColumnVectorBatch), bs[i]? = some cb →
          ∃ bound, bounds[i]? = some bound ∧ rows ≤ cb.base.numElements
            ∧ Prints env bound cb.base.numElements)
      ∧ (∀ bound ∈ bounds, Prints env bound rows)
  | [], [], rows, _, _ =>
    ⟨[], [], rfl, rfl, rfl, fun i cb h => by simp at h, fun bound h => by simp at h⟩
  | [], b :: bs, rows, hwf, _ => by simp [wellFormedAll] at hwf
  | t :: ts, [], rows, hwf, _ => by simp [wellFormedAll] at hwf
  | t :: ts, b :: bs, rows, hwf, hren => by
    simp only [wellFormedAll, Bool.and_eq_true, decide_eq_true_eq] at hwf
    simp only [renderableAll, Bool.and_eq_true] at hren
    obtain ⟨p, bound, hcreate, hreset, hprints⟩ := wellFormed_prints env t b hwf.1.2 hren.1
    obtain ⟨ps, bounds, hcreates, hresets, hlen, hindex, hall⟩ :=
      wellFormedAll_prints env ts bs rows hwf.2 hren.2
    refine ⟨p :: ps, bound :: bounds, ?_, ?_, by simp [hlen], ?_, ?_⟩
    · simp only [createFieldPrinters, hcreate, hcreates]
    · simp only [resetFields, hreset, hresets]
    · intro i cb hcb
      cases i with
      | zero =>
        simp only [List.getElem?_cons_zero, Option.some.injEq] at hcb
        subst hcb
        exact ⟨bound, List.getElem?_cons_zero, hwf.1.1, hprints⟩
      | succ i =>
        simp only [List.getElem?_cons_succ] at hcb
        obtain ⟨q, hq, hrows, hp⟩ := hindex i cb hcb
        exact ⟨q, by simp only [List.getElem?_cons_succ]; exact hq, hrows, hp⟩
    · intro q hq
      rcases List.mem_cons.mp hq with h | h
      · subst h
        exact prints_mono env _ rows _ hwf.1.1 hprints
      · exact hall q h
end

theorem forRange_empty (first last : Int) (body : Int → Buffer → Except Fault Buffer)
    (buf : Buffer) (h : last ≤ first) : forRange first last body buf = .ok buf := by
  unfold forRange
  rw [show (last - first).toNat = 0 from by omega]
  rfl

/-- C32: a present row of a list or map printer whose offsets do not increase
(`offsets[r+1] ≤ offsets[r]`, a decrease included) renders `[]`.  The loop
makes no round, whatever its body, so neither the element printer nor the
key printer is called: the row renders `[]` with every pair of child
printers, those that fail on every row included. -/
theorem decreasing_offsets_render_empty (env : Env) (base : PrinterBase) (offsets : List Int)
    (keyPrinter elementPrinter : ColumnPrinter) (rowId : Nat) (buffer : Buffer)
    (first last : Int)
    (hpresent : isNullRow base rowId = .ok false)
    (hrow : rowId + 1 < 2 ^ 64)
    (hfirst : offsets[rowId]? = some first)
    (hlast : offsets[rowId + 1]? = some last)
    (hle : last ≤ first) :
    (ColumnPrinter.list base offsets elementPrinter).printRow env rowId buffer
        = .ok (buffer ++ lit "[]")
      ∧ (ColumnPrinter.map base offsets keyPrinter elementPrinter).printRow env rowId buffer
        = .ok (buffer ++ lit "[]")
      ∧ (∀ (body : Int → Buffer → Except Fault Buffer) (buf : Buffer),
          forRange first last body buf = .ok buf)
      ∧ childIndices first last = [] := by
  have hmod : (rowId + 1) % 2 ^ 64 = rowId + 1 := Nat.mod_eq_of_lt hrow
  refine ⟨?_, ?_, fun body buf => forRange_empty first last body buf hle, ?_⟩
  · simp only [ColumnPrinter.printRow, hpresent, readAt, hfirst, hmod, hlast,
      forRange_empty first last _ _ hle]
    simp [writeChar, lit, ofChars]
  · simp only [ColumnPrinter.printRow, hpresent, readAt, hfirst, hmod, hlast,
      forRange_empty first last _ _ hle]
    simp [writeChar, lit, ofChars]
  · unfold childIndices
    rw [show (last - first).toNat = 0 from by omega]
    rfl

/-- Witness of C32: the offsets 3 and 1, over child printers that are bound
to no batch and fail on every row. -/
theorem decreasing_offsets_render_empty_witness :
    ((ColumnPrinter.list (boundBase (.mk .LIST [intType] [] 0 0)) [3, 1]
          (.long { type := intType, hasNulls := true, notNull := none } [])).printRow utcEnv 0
          (lit "x") = .ok (lit "x[]")
      ∧ (ColumnPrinter.map (boundBase (.mk .LIST [intType] [] 0 0)) [3, 1]
          (.long { type := intType, hasNulls := true, notNull := none } [])
          (.long { type := intType, hasNulls := true, notNull := none } [])).printRow utcEnv 0
          (lit "x") = .ok (lit "x[]"))
      ∧ (∀ r buf, (ColumnPrinter.long { type := intType, hasNulls := true, notNull := none }
          []).printRow utcEnv r buf = .error .undefinedBehaviour) := by
  have h := decreasing_offsets_render_empty utcEnv (boundBase (.mk .LIST [intType] [] 0 0))
    [3, 1] (.long { type := intType, hasNulls := true, notNull := none } [])
    (.long { type := intType, hasNulls := true, notNull := none } []) 0 (lit "x") 3 1
    rfl (by decide) (by decide) (by decide) (by decide)
  exact ⟨⟨h.1.trans (by decide), h.2.1.trans (by decide)⟩, fun r buf => rfl⟩

/-- C33: a present row of a string or binary printer whose length entry is
zero or negative renders `""` and `[]`.  The loop makes no round, whatever
its body, so no payload byte and no start pointer is read: the row renders
the same with every array of start pointers, the empty one included. -/
theorem nonpositive_length_renders_empty (env : Env) (base : PrinterBase)
    (start : List (List Byte)) (length : List Int) (rowId : Nat) (buffer : Buffer) (len : Int)
    (hpresent : isNullRow base rowId = .ok false)
    (hlength : length[rowId]? = some len)
    (hlen : len ≤ 0) :
    (ColumnPrinter.string base start length).printRow env rowId buffer
        = .ok (buffer ++ lit "\"\"")
      ∧ (ColumnPrinter.binary base start length).printRow env rowId buffer
        = .ok (buffer ++ lit "[]")
      ∧ (∀ (body : Int → Buffer → Except Fault Buffer) (buf : Buffer),
          forRange 0 len body buf = .ok buf) := by
  refine ⟨?_, ?_, fun body buf => forRange_empty 0 len body buf hlen⟩
  · simp only [ColumnPrinter.printRow, hpresent, readAt, hlength,
      forRange_empty 0 len _ _ hlen]
    simp [writeChar, lit, ofChars]
  · simp only [ColumnPrinter.printRow, hpresent, readAt, hlength,
      forRange_empty 0 len _ _ hlen]
    simp [writeChar, lit, ofChars]

/-- Witness of C33: the lengths 0 and -5, with no start pointer to read. -/
theorem nonpositive_length_renders_empty_witness :
    ((ColumnPrinter.string (boundBase stringType) [] [0, -5]).printRow utcEnv 0 (lit "x")
        = .ok (lit "x\"\"")
      ∧ (ColumnPrinter.binary (boundBase stringType) [] [0, -5]).printRow utcEnv 0 (lit "x")
        = .ok (lit "x[]"))
      ∧ ((ColumnPrinter.string (boundBase stringType) [] [0, -5]).printRow utcEnv 1 (lit "x")
        = .ok (lit "x\"\"")
      ∧ (ColumnPrinter.binary (boundBase stringType) [] [0, -5]).printRow utcEnv 1 (lit "x")
        = .ok (lit "x[]")) := by
  have h0 := nonpositive_length_renders_empty utcEnv (boundBase stringType) [] [0, -5] 0
    (lit "x") 0 rfl (by decide) (by decide)
  have h1 := nonpositive_length_renders_empty utcEnv (boundBase stringType) [] [0, -5] 1
    (lit "x") (-5) rfl (by decide) (by decide)
  exact ⟨⟨h0.1.trans (by decide), h0.2.1.trans (by decide)⟩,
    ⟨h1.1.trans (by decide), h1.2.1.trans (by decide)⟩⟩

/-! ## Rows of a batch without nulls -/

theorem printRow_of_present (env : Env) (p : ColumnPrinter) (rowId : Nat) (buffer : Buffer)
    (h : isNullRow p.base rowId = .ok false) :
    p.printRow env rowId buffer = p.printPresent env rowId buffer := by
  cases p <;> simp only [ColumnPrinter.base] at h <;>
    simp only [ColumnPrinter.printRow, ColumnPrinter.printPresent, h]

theorem int64Text_forall (P : Byte → Prop) (hminus : P 0x2D)
    (hdigit : ∀ b : Byte, 0x30 ≤ b.val ∧ b.val ≤ 0x39 → P b) (v : Int) :
    ∀ b ∈ int64Text v, P b := by
  intro b hb
  unfold int64Text at hb
  split at hb
  · rcases List.mem_append.mp hb with h | h
    · have : b = 0x2D := by simpa [lit, ofChars] using h
      rw [this]; exact hminus
    · exact hdigit b (natText_digits _ b h)
  · exact hdigit b (natText_digits _ b hb)

theorem toDecimalString_forall (P : Byte → Prop) (hminus : P 0x2D) (hdot : P 0x2E)
    (hdigit : ∀ b : Byte, 0x30 ≤ b.val ∧ b.val ≤ 0x39 → P b)
    (v scale : Int) (text : List Byte) (h : toDecimalString v scale = .ok text) :
    ∀ b ∈ text, P b := by
  have hsign : ∀ b ∈ (if v < 0 then lit "-" else lit ""), P b := by
    intro b hb
    split at hb
    · have : b = 0x2D := by simpa [lit, ofChars] using hb
      rw [this]; exact hminus
    · simp [lit, ofChars] at hb
  have hpoint : ∀ b ∈ lit ".", P b := by
    intro b hb
    have : b = 0x2E := by simpa [lit, ofChars] using hb
    rw [this]; exact hdot
  have hzero : ∀ b ∈ lit "0.", P b := by
    intro b hb
    have : b = 0x30 ∨ b = 0x2E := by simpa [lit, ofChars] using hb
    rcases this with h | h
    · rw [h]; exact hdigit _ (by decide)
    · rw [h]; exact hdot
  unfold toDecimalString at h
  by_cases hs : scale = 0
  · rw [if_pos hs] at h
    cases h
    exact int64Text_forall P hminus hdigit _
  · rw [if_neg hs] at h
    simp only [] at h
    have hstr := int64Text_forall P hminus hdigit (if v < 0 then wrapInt64 (-v) else v)
    generalize int64Text (if v < 0 then wrapInt64 (-v) else v) = str at h hstr
    generalize (if v < 0 then lit "-" else lit "") = sign at h hsign
    by_cases h1 : (str.length : Int) > scale
    · rw [if_pos h1] at h
      unfold substr at h
      rw [if_neg (Nat.not_lt_zero _)] at h
      simp only [] at h
      split at h
      · cases h
      · rename_i fracPart hf
        split at hf
        · cases hf
        · cases hf
          cases h
          intro b hb
          simp only [List.mem_append] at hb
          rcases hb with ((hb | hb) | hb) | hb
          · exact hsign b hb
          · exact hstr b (List.mem_of_mem_drop (List.mem_of_mem_take hb))
          · exact hpoint b hb
          · exact hstr b (List.mem_of_mem_drop (List.mem_of_mem_take hb))
    · rw [if_neg h1] at h
      by_cases h2 : (str.length : Int) = scale
      · rw [if_pos h2] at h
        cases h
        intro b hb
        simp only [List.mem_append] at hb
        rcases hb with (hb | hb) | hb
        · exact hsign b hb
        · exact hzero b hb
        · exact hstr b hb
      · rw [if_neg h2] at h
        cases h
        intro b hb
        rw [appendZeros_eq] at hb
        simp only [List.mem_append, List.mem_replicate] at hb
        rcases hb with ((hb | hb) | hb) | hb
        · exact hsign b hb
        · exact hzero b hb
        · rw [hb.2]; exact hdigit _ (by decide)
        · exact hstr b hb

theorem specDecimal_forall (P : Byte → Prop) (hminus : P 0x2D) (hdot : P 0x2E)
    (hdigit : ∀ b : Byte, 0x30 ≤ b.val ∧ b.val ≤ 0x39 → P b) (v : Int) (scale : Nat) :
    ∀ b ∈ specDecimal v scale, P b := by
  have hsign : ∀ b ∈ (if v < 0 then [(0x2D : Byte)] else []), P b := by
    intro b hb
    split at hb
    · rw [List.mem_singleton.mp hb]; exact hminus
    · simp at hb
  intro b hb
  by_cases hs : scale = 0
  · subst hs
    rw [specDecimal_zero] at hb
    rcases List.mem_append.mp hb with h | h
    · exact hsign b h
    · exact hdigit b (natText_digits _ b h)
  · obtain ⟨intPart, fracPart, htext, -, -, hint, hfrac, -, -⟩ :=
      specDecimal_shape v scale (by omega)
    rw [htext] at hb
    simp only [List.mem_append, List.mem_singleton] at hb
    rcases hb with ((h | h) | h) | h
    · exact hsign b h
    · exact hdigit b (hint b h)
    · rw [h]; exact hdot
    · exact hdigit b (hfrac b h)

theorem ne_null_of_forall (out : List Byte) (h : ∀ b ∈ out, b ≠ 0x6E) : out ≠ lit "null" := by
  intro he
  exact h 0x6E (by rw [he]; decide) rfl

theorem ne_null_of_head (c : Byte) (rest : List Byte) (hc : c ≠ 0x6E) :
    c :: rest ≠ lit "null" := by
  intro he
  have h1 := congrArg List.head? he
  rw [show (lit "null").head? = some 0x6E from rfl] at h1
  simp only [List.head?_cons, Option.some.injEq] at h1
  exact hc h1

theorem text_chars_ne_n : (0x2D : Byte) ≠ 0x6E ∧ (0x2E : Byte) ≠ 0x6E
    ∧ ∀ b : Byte, 0x30 ≤ b.val ∧ b.val ≤ 0x39 → b ≠ 0x6E := by
  refine ⟨by decide, by decide, fun b hb he => ?_⟩
  rw [he] at hb
  revert hb
  decide

theorem printPresent_ne_null (env : Env) (p : ColumnPrinter) (rowId : Nat) (out : Buffer)
    (hvariant : p.variant ≠ .floating)
    (h : p.printPresent env rowId [] = .ok out) : out ≠ lit "null" := by
  obtain ⟨hminus, hdot, hdigit⟩ := text_chars_ne_n
  cases p
  case boolean base data =>
    simp only [ColumnPrinter.printPresent] at h
    revert h
    cases readAt data rowId with
    | error e => intro h; cases h
    | ok v =>
      intro h
      simp only [Except.ok.injEq] at h
      subst h
      by_cases hv : v = 0 <;> simp [hv] <;> decide
  case long base data =>
    simp only [ColumnPrinter.printPresent] at h
    revert h
    cases readAt data rowId with
    | error e => intro h; cases h
    | ok v =>
      intro h
      simp only [Except.ok.injEq] at h
      subst h
      rw [writeString_of_no_nul _ _ (int64Text_no_nul v), List.nil_append]
      exact ne_null_of_forall _ (int64Text_forall _ hminus hdigit v)
  case double base data isFloat => exact absurd rfl hvariant
  case timestamp base data epoch =>
    simp only [ColumnPrinter.printPresent] at h
    revert h
    cases readAt data rowId with
    | error e => intro h; cases h
    | ok t =>
      intro h
      simp only [] at h
      revert h
      cases env.localtimeText (timestampSplit epoch t).1 with
      | none => intro h; cases h
      | some timeBuffer =>
        intro h
        simp only [] at h
        revert h
        cases fractionText (timestampSplit epoch t).2 with
        | none => intro h; cases h
        | some digits =>
          intro h
          simp only [Except.ok.injEq] at h
          subst h
          simp only [writeChar, writeString, List.nil_append, List.cons_append,
            List.singleton_append, List.append_assoc]
          exact ne_null_of_head _ _ (by decide)
  case date base data =>
    simp only [ColumnPrinter.printPresent] at h
    revert h
    cases readAt data rowId with
    | error e => intro h; cases h
    | ok v =>
      intro h
      simp only [] at h
      revert h
      cases dateText env (wrapInt64 (v * 24 * 60 * 60)) with
      | error e => intro h; cases h
      | ok timeBuffer =>
        intro h
        simp only [Except.ok.injEq] at h
        subst h
        simp only [writeChar, writeString, List.nil_append, List.cons_append,
          List.singleton_append, List.append_assoc]
        exact ne_null_of_head _ _ (by decide)
  case decimal64 base data scale =>
    simp only [ColumnPrinter.printPresent] at h
    revert h
    cases readAt data rowId with
    | error e => intro h; cases h
    | ok v =>
      intro h
      simp only [] at h
      cases ht : toDecimalString v scale with
      | error e => rw [ht] at h; cases h
      | ok text =>
        rw [ht] at h
        simp only [Except.ok.injEq] at h
        subst h
        rw [writeString_of_no_nul _ _ (toDecimalString_no_nul v scale text ht), List.nil_append]
        exact ne_null_of_forall _ (toDecimalString_forall _ hminus hdot hdigit v scale text ht)
  case decimal128 base data scale =>
    simp only [ColumnPrinter.printPresent] at h
    revert h
    cases readAt data rowId with
    | error e => intro h; cases h
    | ok v =>
      intro h
      by_cases hs : 0 ≤ scale
      · simp only [int128ToDecimalString, if_pos hs, Except.ok.injEq] at h
        subst h
        have hchars := specDecimal_forall (fun b => b ≠ 0x6E) hminus hdot hdigit v scale.toNat
        have hnul := specDecimal_forall (fun b => b ≠ 0) (by decide) (by decide)
          (fun b hb he => by rw [he] at hb; revert hb; decide) v scale.toNat
        rw [writeString_of_no_nul _ _ hnul, List.nil_append]
        exact ne_null_of_forall _ hchars
      · simp only [int128ToDecimalString, if_neg hs] at h
        cases h
  case string base start length =>
    simp only [ColumnPrinter.printPresent] at h
    revert h
    cases readAt length rowId with
    | error e => intro h; cases h
    | ok len =>
      intro h
      simp only [] at h
      rw [forRange_appends 0 len _ (stringBody_appends start rowId)] at h
      revert h
      cases forRange 0 len (stringBody start rowId) [] with
      | error e => intro h; cases h
      | ok x =>
        intro h
        simp only [Except.map, Except.ok.injEq] at h
        subst h
        simp only [writeChar, List.nil_append, List.cons_append, List.singleton_append,
          List.append_assoc]
        exact ne_null_of_head _ _ (by decide)
  case binary base start length =>
    simp only [ColumnPrinter.printPresent] at h
    revert h
    cases readAt length rowId with
    | error e => intro h; cases h
    | ok len =>
      intro h
      simp only [] at h
      rw [forRange_appends 0 len _ (binaryBody_appends start rowId)] at h
      revert h
      cases forRange 0 len (binaryBody start rowId) [] with
      | error e => intro h; cases h
      | ok x =>
        intro h
        simp only [Except.map, Except.ok.injEq] at h
        subst h
        simp only [writeChar, List.nil_append, List.cons_append, List.singleton_append,
          List.append_assoc]
        exact ne_null_of_head _ _ (by decide)
  case list base offsets elementPrinter =>
    simp only [ColumnPrinter.printPresent] at h
    revert h
    cases readAt offsets rowId with
    | error e => intro h; cases h
    | ok first =>
      intro h
      simp only [] at h
      revert h
      cases readAt offsets ((rowId + 1) % 2 ^ 64) with
      | error e => intro h; cases h
      | ok last =>
        intro h
        simp only [] at h
        rw [forRange_appends first last _
          (fun i => listBody_appends _ first i (printRow_appends env elementPrinter))] at h
        revert h
        cases forRange first last (listBody (ColumnPrinter.printRow env elementPrinter) first)
            [] with
        | error e => intro h; cases h
        | ok x =>
          intro h
          simp only [Except.map, Except.ok.injEq] at h
          subst h
          simp only [writeChar, List.nil_append, List.cons_append, List.singleton_append,
            List.append_assoc]
          exact ne_null_of_head _ _ (by decide)
  case map base offsets keyPrinter elementPrinter =>
    simp only [ColumnPrinter.printPresent] at h
    revert h
    cases readAt offsets rowId with
    | error e => intro h; cases h
    | ok first =>
      intro h
      simp only [] at h
      revert h
      cases readAt offsets ((rowId + 1) % 2 ^ 64) with
      | error e => intro h; cases h
      | ok last =>
        intro h
        simp only [] at h
        rw [forRange_appends first last _
          (fun i => mapBody_appends _ _ first i (printRow_appends env keyPrinter)
            (printRow_appends env elementPrinter))] at h
        revert h
        cases forRange first last (mapBody (ColumnPrinter.printRow env keyPrinter)
            (ColumnPrinter.printRow env elementPrinter) first) [] with
        | error e => intro h; cases h
        | ok x =>
          intro h
          simp only [Except.map, Except.ok.injEq] at h
          subst h
          simp only [writeChar, List.nil_append, List.cons_append, List.singleton_append,
            List.append_assoc]
          exact ne_null_of_head _ _ (by decide)
  case union base tags offsets fieldPrinter =>
    simp only [ColumnPrinter.printPresent] at h
    revert h
    cases readAt tags rowId with
    | error e => intro h; cases h
    | ok tag =>
      intro h
      simp only [] at h
      revert h
      cases readAt offsets rowId with
      | error e => intro h; cases h
      | ok offset =>
        intro h
        simp only [] at h
        rw [printField_appends env fieldPrinter tag.val offset] at h
        revert h
        cases printField env fieldPrinter tag.val offset [] with
        | error e => intro h; cases h
        | ok x =>
          intro h
          simp only [Except.map, Except.ok.injEq] at h
          subst h
          rw [show writeString [] (lit "\x7b\"tag\": ") = 0x7B :: lit "\"tag\": " from by decide]
          simp only [writeChar, writeString, List.cons_append, List.append_assoc]
          exact ne_null_of_head _ _ (by decide)
  case struct base fieldPrinter =>
    simp only [ColumnPrinter.printPresent] at h
    rw [printFields_appends env base.type fieldPrinter 0 rowId] at h
    revert h
    cases printFields env base.type fieldPrinter 0 rowId [] with
    | error e => intro h; cases h
    | ok x =>
      intro h
      simp only [Except.map, Except.ok.injEq] at h
      subst h
      simp only [writeChar, List.nil_append, List.cons_append, List.singleton_append,
        List.append_assoc]
      exact ne_null_of_head _ _ (by decide)

/-- C25: after a `reset` on a batch whose `hasNulls` is false the test for a
null row is false at every row, and `printRow` writes for every row what its
branch for a present row writes: never the text `null` of an absent row at
its own level (where the embedding has the text; that of a floating value is
the C library's).  A batch that differs only in the contents of its `notNull`
array binds the printer to the same state, so that every row renders the
same. -/
theorem no_nulls_means_present (env : Env) (p bound : ColumnPrinter)
    (batch : ColumnVectorBatch)
    (hreset : p.reset batch = .ok bound)
    (hnulls : batch.base.hasNulls = false) :
    (∀ rowId, isNullRow bound.base rowId = .ok false)
      ∧ (∀ rowId buffer, bound.printRow env rowId buffer = bound.printPresent env rowId buffer)
      ∧ (bound.variant ≠ .floating → ∀ rowId buffer out,
          bound.printRow env rowId buffer = .ok out → out ≠ buffer ++ lit "null")
      ∧ (∀ notNull, p.reset (batch.withNotNull notNull) = .ok bound)
      ∧ (∀ notNull other, p.reset (batch.withNotNull notNull) = .ok other →
          ∀ rowId buffer, other.printRow env rowId buffer = bound.printRow env rowId buffer) := by
  have hpresent : ∀ rowId, isNullRow bound.base rowId = .ok false := by
    intro rowId
    rw [reset_base p bound batch hreset]
    simp [isNullRow, PrinterBase.reset, hnulls]
  refine ⟨hpresent, fun rowId buffer => printRow_of_present env bound rowId buffer (hpresent rowId),
    fun hvariant rowId buffer out hout => ?_, fun notNull => ?_,
    fun notNull other h rowId buffer => ?_⟩
  · rw [printRow_eq_append, printRow_of_present env bound rowId [] (hpresent rowId)] at hout
    cases hf : bound.printPresent env rowId [] with
    | error e => rw [hf] at hout; cases hout
    | ok fragment =>
      rw [hf] at hout
      simp only [Except.map, Except.ok.injEq] at hout
      subst hout
      intro he
      exact printPresent_ne_null env bound rowId fragment hvariant hf (List.append_cancel_left he)
  · rw [reset_withNotNull p batch notNull hnulls, hreset]
  · rw [reset_withNotNull p batch notNull hnulls, hreset] at h
    cases h
    rfl

/-- Witness of C25: an integer batch without nulls whose `notNull` array says
that the row is absent; the row renders `5`. -/
theorem no_nulls_means_present_witness :
    ((∀ rowId, isNullRow (boundLong [5]).base rowId = .ok false)
      ∧ (∀ rowId buffer, (boundLong [5]).printRow utcEnv rowId buffer
          = (boundLong [5]).printPresent utcEnv rowId buffer)
      ∧ ((boundLong [5]).variant ≠ .floating → ∀ rowId buffer out,
          (boundLong [5]).printRow utcEnv rowId buffer = .ok out → out ≠ buffer ++ lit "null")
      ∧ (∀ notNull, (ColumnPrinter.long (PrinterBase.init intType) []).reset
          ((ColumnVectorBatch.long { numElements := 1, hasNulls := false, notNull := [false] }
            [5]).withNotNull notNull) = .ok (boundLong [5]))
      ∧ (∀ notNull other, (ColumnPrinter.long (PrinterBase.init intType) []).reset
          ((ColumnVectorBatch.long { numElements := 1, hasNulls := false, notNull := [false] }
            [5]).withNotNull notNull) = .ok other →
          ∀ rowId buffer, other.printRow utcEnv rowId buffer
            = (boundLong [5]).printRow utcEnv rowId buffer))
      ∧ (boundLong [5]).printRow utcEnv 0 [] = .ok (lit "5") :=
  ⟨no_nulls_means_present utcEnv (.long (PrinterBase.init intType) []) (boundLong [5])
    (.long { numElements := 1, hasNulls := false, notNull := [false] } [5]) rfl rfl,
    by decide⟩

end Orc
